import Mathlib

/-!
A verification development for the deps-tree lifecycle coordinator.

The source is a single TypeScript class `DepsTree` (src/index.ts) over the
enum `State` and the interface `ModuleDescription` (src/types.ts).  The class
orchestrates dependency-ordered startup (`init`) and shutdown (`deinit`) of a
set of named modules, driven by per-module countdown counters.

Embedding choices, each matching the JavaScript runtime semantics:

* JavaScript runs the class single-threaded; every `async` body executes
  synchronously up to its first `await`, and the continuation after an `await`
  runs later as a separate microtask.  We therefore model the tree as a pure
  state (`DepsTree`) together with a multiset of outstanding asynchronous
  continuations (`pending`).  The environment (the caller-supplied module
  operations and the event loop) decides which outstanding continuation fires
  next and whether the module operation succeeded or failed; a `Decision` list
  drives the deterministic `step` function.  Caller-supplied init/deinit
  operations are modelled by their outcomes only (`Outcome`), since their
  bodies are out of scope for the core; an operation is modelled as settling
  at its `await` point (the `SyncOrAsync` promise case).
* JavaScript values flowing through `data`/`error` fields are modelled by a
  small `Value` type with the JavaScript notion of truthiness, which the
  source uses in `module.data = module.data || data` and in the
  `!module.dependenciesToLoad` / `!module.dependantsToUnload` tests
  (`0` is falsy, negative numbers are truthy).
* JavaScript numbers holding the counters are modelled as `Int` (they are
  decremented below zero by the source in places).
* `EventEmitter.emit` calls are recorded in an `events` trace, newest first.
  The `_error` method emits to an `error` listener when one is registered and
  falls back to `console.error` otherwise; the model records the notification
  in the trace in both cases (the trace is the observer's view).
* The deferred promises `_initDefer` / `_deinitDefer` are modelled by an
  allocated identifier (`initDefer` / `deinitDefer`, from the `nextId`
  counter) plus a resolution flag, so that handle identity is observable.
* Object iteration (`for (const name in this.modules)`) follows insertion
  order for the string keys used here; the model keeps the key list `keys` in
  insertion order and iterates it.
-/

/-- `enum State` of src/types.ts. -/
inductive State
  | off
  | initializing
  | up
  | deinitializing
  | down
  | error
deriving DecidableEq, Repr

/-- JavaScript values as far as the core inspects them: the source only ever
asks whether a `data` value is truthy, and stores opaque errors. -/
inductive Value
  | undefined
  | null
  | vbool (b : Bool)
  | vnum (n : Int)
  | vstr (s : String)
  | vobj (id : Nat)
deriving DecidableEq, Repr

/-- JavaScript truthiness, as used by `||` and `!` in the source. -/
def Value.truthy : Value → Bool
  | .undefined => false
  | .null => false
  | .vbool b => b
  | .vnum n => n != 0
  | .vstr s => s ≠ ""
  | .vobj _ => true

/-- One notification emitted on the tree's `EventEmitter`, newest first in the
trace: `emit('state', s)`, `emit('module-state', name, s)`, `emit('started')`,
`emit('stopped')`, `emit('error', err, name || '')`. -/
inductive Event
  | stateEv (s : State)
  | moduleStateEv (name : String) (s : State)
  | startedEv
  | stoppedEv
  | errorEv (e : Value) (name : String)
deriving DecidableEq, Repr

/-- An outstanding asynchronous continuation:
`startInit` is the `Promise.resolve().then(...)` microtask queued by `init()`;
`initOp name` is the continuation after `await module.init(...)` inside
`_initModule`; `deinitOp name` is the continuation after
`await module.deinit()` inside `_deinitModule`. -/
inductive PendingTask
  | startInit
  | initOp (name : String)
  | deinitOp (name : String)
deriving DecidableEq, Repr

/-- The environment-chosen result of a caller-supplied module operation. -/
inductive Outcome
  | ok (v : Value)
  | fail (e : Value)
deriving DecidableEq, Repr

/-- The per-module record stored in `this.modules[name]`.  The caller-supplied
`init`/`deinit` operations are not stored: their outcomes are chosen by the
environment when their continuation fires. -/
structure ModuleRT where
  dependencies : List String
  dependenciesToLoad : Int
  dependants : List String
  state : State
  dependantsToUnload : Int
  needed : Bool
  data : Value
  error : Option Value
deriving DecidableEq, Repr

/-- `interface ModuleDescription` of src/types.ts, minus the two
caller-supplied operations (modelled by outcomes). -/
structure ModuleDescription where
  deps : List String := []
  data : Value := .undefined
  needed : Bool := false
deriving DecidableEq, Repr

/-- `throw new Error(str)` in the constructor: the broken-dependency error. -/
inductive CtorError
  | brokenDependency (name : String)
deriving DecidableEq, Repr

/-- The `DepsTree` class state: its fields, plus the events emitted so far
(newest first) and the outstanding asynchronous continuations. -/
structure DepsTree where
  keys : List String
  mods : String → ModuleRT
  state : State
  modulesToUnload : Int
  modulesToLoad : Int
  errors : List Value
  initDefer : Option Nat
  initResolved : Bool
  deinitDefer : Option Nat
  deinitResolved : Bool
  nextId : Nat
  events : List Event
  pending : List PendingTask

/-- The record a fresh `this.modules[name]` lookup misses to (a key that was
never assigned); its fields are never read by the scheduler for real keys. -/
def defaultRT : ModuleRT :=
  { dependencies := []
    dependenciesToLoad := 0
    dependants := []
    state := .off
    dependantsToUnload := 0
    needed := false
    data := .undefined
    error := none }

/-- The first constructor loop body: build the record for one description. -/
def mkRT (d : ModuleDescription) : ModuleRT :=
  { dependencies := d.deps
    dependenciesToLoad := d.deps.length
    dependants := []
    state := .off
    dependantsToUnload := 0
    needed := d.needed
    data := d.data
    error := none }

/-- The first constructor loop: `for (const name in modules) this.modules[name] = {...}`.
Later assignments override earlier ones, as for object keys. -/
def buildModules (descs : List (String × ModuleDescription)) : String → ModuleRT :=
  descs.foldl (fun acc nd => fun n => if n = nd.1 then mkRT nd.2 else acc n)
    (fun _ => defaultRT)

/-- Append a dependant to one module's `dependants` list. -/
def pushDependant (mods : String → ModuleRT) (depName moduleName : String) :
    String → ModuleRT :=
  fun n => if n = depName
    then { mods n with dependants := (mods n).dependants ++ [moduleName] }
    else mods n

/-- The second constructor loop: verify every dependency exists, and append the
referencing module to the dependency's `dependants`; throw on a missing name. -/
def addDependants (keys : List String) (mods : String → ModuleRT) :
    Except CtorError (String → ModuleRT) :=
  keys.foldlM (fun acc moduleName =>
    (acc moduleName).dependencies.foldlM (fun acc2 depName =>
      if depName ∈ keys
      then pure (pushDependant acc2 depName moduleName)
      else Except.error (.brokenDependency depName)) acc) mods

/-- Set one module's `needed` flag. -/
def setNeeded (mods : String → ModuleRT) (name : String) : String → ModuleRT :=
  fun n => if n = name then { mods n with needed := true } else mods n

/-- The recursive `fillNeeded` closure of the constructor: mark the module
needed, then recurse into each not-yet-needed dependency.  The source recursion
terminates because a module is marked before its dependencies are visited; the
fuel bounds the recursion depth and `fillNeeded_spec` below shows a fuel of one
more than the number of unmarked modules is never exhausted. -/
def fillNeeded : Nat → (String → ModuleRT) → String → (String → ModuleRT)
  | 0, mods, _ => mods
  | fuel + 1, mods, name =>
    let mods1 := setNeeded mods name
    (mods1 name).dependencies.foldl
      (fun acc depName =>
        if (acc depName).needed then acc else fillNeeded fuel acc depName)
      mods1

/-- The third constructor loop: `for name in this.modules: if needed then fillNeeded`. -/
def neededLoop (keys : List String) (mods : String → ModuleRT) : String → ModuleRT :=
  keys.foldl (fun acc name =>
    if (acc name).needed then fillNeeded (keys.length + 1) acc name else acc) mods

namespace DepsTree

/-- `new DepsTree(modules)`: build the records, wire and validate the
dependants, compute the needed closure. -/
def new (descs : List (String × ModuleDescription)) : Except CtorError DepsTree :=
  match addDependants (descs.map Prod.fst) (buildModules descs) with
  | .error e => .error e
  | .ok mods1 => .ok
    { keys := descs.map Prod.fst
      mods := neededLoop (descs.map Prod.fst) mods1
      state := .off
      modulesToUnload := 0
      modulesToLoad := 0
      errors := []
      initDefer := none
      initResolved := false
      deinitDefer := none
      deinitResolved := false
      nextId := 0
      events := []
      pending := [] }

/-- Apply a field update to one module record. -/
def updMod (t : DepsTree) (name : String) (f : ModuleRT → ModuleRT) : DepsTree :=
  { t with mods := fun n => if n = name then f (t.mods n) else t.mods n }

/-- `_changeModuleState(name, state)`. -/
def _changeModuleState (t : DepsTree) (name : String) (s : State) : DepsTree :=
  let t1 := t.updMod name (fun m => { m with state := s })
  { t1 with events := .moduleStateEv name s :: t1.events }

/-- `_changeState(state)`. -/
def _changeState (t : DepsTree) (s : State) : DepsTree :=
  { t with state := s, events := .stateEv s :: t.events }

/-- `_initModule(name)` up to the `await module.init(...)` suspension point:
mark the module initializing, count it for unloading, start the operation. -/
def _initModule (t : DepsTree) (name : String) : DepsTree :=
  let t1 := t._changeModuleState name .initializing
  { t1 with modulesToUnload := t1.modulesToUnload + 1
            pending := .initOp name :: t1.pending }

/-- `_deinitModule(name)` up to the `await module.deinit()` suspension point. -/
def _deinitModule (t : DepsTree) (name : String) : DepsTree :=
  let t1 := t._changeModuleState name .deinitializing
  { t1 with pending := .deinitOp name :: t1.pending }

/-- The result of a `deinit()` call: the promise it returns. -/
inductive DeinitResult
  | pending (id : Nat)
  | resolved
deriving DecidableEq, Repr

/-- The body of the `deinit()` scheduling loop: start the deinit of a module
that is `up` with nothing left to unload (`!module.dependantsToUnload`). -/
def deinitLoopStep (acc : DepsTree) (moduleName : String) : DepsTree :=
  if (acc.mods moduleName).state = .up ∧ (acc.mods moduleName).dependantsToUnload = 0
  then acc._deinitModule moduleName
  else acc

/-- `deinit()`.  From `off` the tree goes straight to `down`; from `error` or
`down` an already-resolved promise is returned; from `initializing` or `up`
the deinit cycle starts and falls through to return the new deferred promise;
from `deinitializing` the existing deferred promise is returned. -/
def deinit (t : DepsTree) : DepsTree × DeinitResult :=
  match t.state with
  | .off => (t._changeState .down, .resolved)
  | .error => (t, .resolved)
  | .down => (t, .resolved)
  | .initializing | .up =>
    let id := t.nextId
    let t1 := t._changeState .deinitializing
    let t2 := { t1 with deinitDefer := some id, deinitResolved := false,
                        nextId := t1.nextId + 1 }
    let t3 := t2.keys.foldl deinitLoopStep t2
    (t3, .pending id)
  | .deinitializing => (t, .pending (t.deinitDefer.getD 0))

/-- `_error(err, name?)`: report the error (to the `error` listener when one
is registered, to `console.error` otherwise — the trace records it either
way), record it, and trigger the rollback `deinit()`. -/
def _error (t : DepsTree) (e : Value) (name : Option String) : DepsTree :=
  let t1 := { t with events := .errorEv e (name.getD "") :: t.events }
  let t2 := { t1 with errors := t1.errors ++ [e] }
  (t2.deinit).1

/-- The body of the `init()` scheduling loop: count a needed module, and
start it when it has no dependencies left to load
(`!module.dependenciesToLoad`: the counter is exactly 0). -/
def startInitStep (acc : DepsTree) (name : String) : DepsTree :=
  if (acc.mods name).needed then
    let acc1 := { acc with modulesToLoad := acc.modulesToLoad + 1 }
    if (acc1.mods name).dependenciesToLoad = 0 then acc1._initModule name else acc1
  else acc

/-- The `Promise.resolve().then(...)` microtask body of `init()`. -/
def _startInit (t : DepsTree) : DepsTree :=
  t.keys.foldl startInitStep t

/-- `_moduleInited(name)`: a module's init operation succeeded.  While the
tree is initializing: mark it up, add it to each dependency's unload count,
and either complete the whole init (count reached zero) or start every
dependant whose dependency count reached zero.  While the tree is
deinitializing: feed the module straight to the deinit scheduler.  In any
other tree state the source throws `'State error'` into its own catch-all,
which only logs. -/
def incUnloadStep (acc : DepsTree) (depName : String) : DepsTree :=
  acc.updMod depName (fun m => { m with dependantsToUnload := m.dependantsToUnload + 1 })

/-- The body of the dependants loop of `_moduleInited`: decrement the
dependant's `dependenciesToLoad`, and start it when the counter reaches 0. -/
def readyStep (acc : DepsTree) (deptName : String) : DepsTree :=
  let acc1 := acc.updMod deptName
    (fun m => { m with dependenciesToLoad := m.dependenciesToLoad - 1 })
  if (acc1.mods deptName).dependenciesToLoad = 0
  then acc1._initModule deptName
  else acc1

def _moduleInited (t : DepsTree) (name : String) : DepsTree :=
  match t.state with
  | .initializing =>
    let deps := (t.mods name).dependencies
    let depts := (t.mods name).dependants
    let t1 := t._changeModuleState name .up
    let t2 := deps.foldl incUnloadStep t1
    let t3 := { t2 with modulesToLoad := t2.modulesToLoad - 1 }
    if t3.modulesToLoad = 0 then
      let t4 := { t3 with initResolved := true }
      let t5 := t4._changeState .up
      { t5 with events := .startedEv :: t5.events }
    else
      depts.foldl readyStep t3
  | .deinitializing => t._deinitModule name
  | _ => t

/-- The continuation after `await module.init(...)` in `_initModule`.
On success: `module.data = module.data || data`, then `_moduleInited`.
On failure: undo the unload count, mark the module `error`, store the error,
and route it to `_error` tagged with the module's name. -/
def _initOpComplete (t : DepsTree) (name : String) (outcome : Outcome) : DepsTree :=
  match outcome with
  | .ok v =>
    let t1 := t.updMod name (fun m =>
      { m with data := if m.data.truthy then m.data else v })
    t1._moduleInited name
  | .fail e =>
    let t1 := { t with modulesToUnload := t.modulesToUnload - 1 }
    let t2 := t1._changeModuleState name .error
    let t3 := t2.updMod name (fun m => { m with error := some e })
    t3._error e (some name)

/-- The body of the cascade loop of `_deinitOpComplete`: decrement the
dependency's `dependantsToUnload`, and start its deinit when the counter
reaches 0 or below. -/
def cascadeStep (acc : DepsTree) (depName : String) : DepsTree :=
  let acc1 := acc.updMod depName
    (fun m => { m with dependantsToUnload := m.dependantsToUnload - 1 })
  if (acc1.mods depName).dependantsToUnload ≤ 0
  then acc1._deinitModule depName
  else acc1

/-- The continuation after `await module.deinit()` in `_deinitModule`.
Success marks the module `down`; failure marks it `error`, stores and reports
the error.  Either way the unload count is decremented; at zero or below the
whole deinit completes, otherwise each dependency's `dependantsToUnload` is
decremented and any dependency reaching zero or below is deinitialized. -/
def _deinitOpComplete (t : DepsTree) (name : String) (outcome : Outcome) : DepsTree :=
  let t1 := match outcome with
    | .ok _ => t._changeModuleState name .down
    | .fail e =>
      let ta := t._changeModuleState name .error
      let tb := ta.updMod name (fun m => { m with error := some e })
      tb._error e (some name)
  let t2 := { t1 with modulesToUnload := t1.modulesToUnload - 1 }
  if t2.modulesToUnload ≤ 0 then
    let t3 := { t2 with deinitResolved := true }
    let t4 := t3._changeState .down
    { t4 with events := .stoppedEv :: t4.events }
  else
    (t2.mods name).dependencies.foldl cascadeStep t2

/-- The result of an `init()` call. -/
inductive InitResult
  | pending (id : Nat)
  | resolved
  | invalidState
deriving DecidableEq, Repr

/-- `init()`.  From `off`: transition to initializing, create the deferred
promise, zero the load count, queue the scheduling microtask, and fall through
to return the new promise.  From `initializing`: return the same promise.
From `up`: an already-resolved promise.  Otherwise: throw
`"I can't init tree"` (`invalidState`). -/
def init (t : DepsTree) : DepsTree × InitResult :=
  match t.state with
  | .off =>
    let id := t.nextId
    let t1 := t._changeState .initializing
    let t2 := { t1 with initDefer := some id, initResolved := false,
                        nextId := t1.nextId + 1,
                        modulesToLoad := 0,
                        pending := .startInit :: t1.pending }
    (t2, .pending id)
  | .initializing => (t, .pending (t.initDefer.getD 0))
  | .up => (t, .resolved)
  | _ => (t, .invalidState)

/-- Run one outstanding continuation. -/
def runTask (t : DepsTree) (task : PendingTask) (outcome : Outcome) : DepsTree :=
  match task with
  | .startInit => t._startInit
  | .initOp name => t._initOpComplete name outcome
  | .deinitOp name => t._deinitOpComplete name outcome

end DepsTree

/-- One environment decision: an external `init()`/`deinit()` call, or the
completion of one outstanding continuation with a chosen outcome (ignored for
the `startInit` microtask, which has no module operation). -/
inductive Decision
  | callInit
  | callDeinit
  | complete (task : PendingTask) (outcome : Outcome)
deriving DecidableEq, Repr

/-- The deterministic transition for one decision.  Completing a task that is
not outstanding does nothing (such a decision is no behavior of the runtime). -/
def step (t : DepsTree) (d : Decision) : DepsTree :=
  match d with
  | .callInit => (t.init).1
  | .callDeinit => (t.deinit).1
  | .complete task outcome =>
    if task ∈ t.pending
    then DepsTree.runTask { t with pending := t.pending.erase task } task outcome
    else t

/-- Run a list of decisions. -/
def run (t : DepsTree) (ds : List Decision) : DepsTree :=
  ds.foldl step t

/-- A tree with no modules, used only to give total extraction from `Except`. -/
def fallbackTree : DepsTree :=
  { keys := [], mods := fun _ => defaultRT, state := .off, modulesToUnload := 0,
    modulesToLoad := 0, errors := [], initDefer := none, initResolved := false,
    deinitDefer := none, deinitResolved := false, nextId := 0, events := [],
    pending := [] }

/-- Extract the tree from a successful construction. -/
def exGet (e : Except CtorError DepsTree) : DepsTree :=
  match e with
  | .ok t => t
  | .error _ => fallbackTree

/-- The last state a `module-state` notification reported for module `k`
(the trace is newest first), `off` when none was ever emitted. -/
def latestModuleState (k : String) : List Event → State
  | [] => State.off
  | e :: rest =>
    match e with
    | Event.moduleStateEv k2 s => if k2 = k then s else latestModuleState k rest
    | _ => latestModuleState k rest

/-- The last tree state a `state` notification reported, `off` when none was
ever emitted. -/
def latestTreeState : List Event → State
  | [] => State.off
  | e :: rest =>
    match e with
    | Event.stateEv s => s
    | _ => latestTreeState rest

/-- Every `state up` notification in the trace is immediately followed (in
emission order; immediately to its left in the newest-first trace) by a
`started` notification. -/
def UpStarted (evs : List Event) : Prop :=
  ∀ l1 l2, evs = l1 ++ Event.stateEv State.up :: l2 →
    l1.getLast? = some Event.startedEv

/-- Every `state down` notification in the trace is immediately followed by a
`stopped` notification, except when it is the very first notification ever
emitted (the direct off-to-down transition of `deinit()` on an `off` tree). -/
def DownStopped (evs : List Event) : Prop :=
  ∀ l1 l2, evs = l1 ++ Event.stateEv State.down :: l2 →
    l1.getLast? = some Event.stoppedEv ∨ l2 = []

/-- The notification-consistency core: module states and the tree state are
exactly what the newest matching notifications report, and the `started` /
`stopped` signals accompany every `state up` / almost every `state down`. -/
structure EvCore (t : DepsTree) : Prop where
  moduleLatest : ∀ k, (t.mods k).state = latestModuleState k t.events
  treeLatest : t.state = latestTreeState t.events
  upStarted : UpStarted t.events
  downStopped : DownStopped t.events

/-- The full notification invariant: the core, plus the facts that an `off`
tree has emitted nothing and has no outstanding continuation. -/
structure EvInv (t : DepsTree) : Prop where
  core : EvCore t
  offEmpty : t.state = State.off → t.events = []
  offPending : t.state = State.off → t.pending = []

/-- The tree at the moment the rollback `deinit()` scheduling loop starts,
after the init operation of module `k` failed with `e` while the tree was
initializing: the in-flight count undone, `k` marked `error` with the error
stored, the raw error appended to the list, the notification emitted, the
tree moved to `deinitializing` and the deinit deferred promise created. -/
def rollbackStart (t : DepsTree) (k : String) (e : Value) : DepsTree :=
  let tC := ((({ t with modulesToUnload := t.modulesToUnload - 1
    } : DepsTree))._changeModuleState k .error).updMod k
    (fun m => { m with error := some e })
  let tD : DepsTree := { tC with events := Event.errorEv e k :: tC.events }
  let tE : DepsTree := { tD with errors := tD.errors ++ [e] }
  let tF := tE._changeState .deinitializing
  { tF with deinitDefer := some tF.nextId, deinitResolved := false,
            nextId := tF.nextId + 1 }

/-- The tree right after a failed deinit operation of module `k` has been
marked and reported, before the unload-count bookkeeping: `k` marked `error`
with the error stored, the raw error appended, the notification emitted (the
rollback `deinit()` call inside `_error` is a no-op while the tree is
deinitializing). -/
def deinitFailMark (t : DepsTree) (k : String) (e : Value) : DepsTree :=
  { (t._changeModuleState k .error).updMod k (fun m => { m with error := some e }) with
    events := Event.errorEv e k :: Event.moduleStateEv k State.error :: t.events
    errors := t.errors ++ [e] }

/-- The tail of `_deinitOpComplete` after the per-outcome part, as a function
(the decrement of `modulesToUnload`, the completion test, and the cascade). -/
def deinitCompleteTail (n : String) (t1 : DepsTree) : DepsTree :=
  let t2 : DepsTree := { t1 with modulesToUnload := t1.modulesToUnload - 1 }
  if t2.modulesToUnload ≤ 0 then
    let t3 := { t2 with deinitResolved := true }
    let t4 := t3._changeState .down
    { t4 with events := .stoppedEv :: t4.events }
  else
    (t2.mods n).dependencies.foldl DepsTree.cascadeStep t2

/-! ### Generic preservation lemmas -/

/-- A property preserved by every fold step is preserved by the fold. -/
lemma foldl_pres {α β : Type} {P : α → Prop} {f : α → β → α}
    (h : ∀ a b, P a → P (f a b)) :
    ∀ (l : List β) (a : α), P a → P (l.foldl f a) := by
  intro l
  induction l with
  | nil => intro a ha; simpa using ha
  | cons x xs ih => intro a ha; exact ih _ (h _ _ ha)

lemma state_updMod (t : DepsTree) (n : String) (f : ModuleRT → ModuleRT) :
    (t.updMod n f).state = t.state := rfl

lemma state_chgMod (t : DepsTree) (n : String) (s : State) :
    (t._changeModuleState n s).state = t.state := rfl

lemma state_chgState (t : DepsTree) (s : State) :
    (t._changeState s).state = s := rfl

lemma state_initModule (t : DepsTree) (n : String) :
    (t._initModule n).state = t.state := rfl

lemma state_deinitModule (t : DepsTree) (n : String) :
    (t._deinitModule n).state = t.state := rfl

/-- A fold whose every step keeps the tree state keeps the tree state. -/
lemma state_foldl {β : Type} {f : DepsTree → β → DepsTree}
    (hf : ∀ a b, (f a b).state = a.state) (l : List β) (a : DepsTree) :
    (l.foldl f a).state = a.state := by
  induction l generalizing a with
  | nil => rfl
  | cons x xs ih => rw [List.foldl_cons, ih (f a x), hf]

lemma state_deinitLoopStep (a : DepsTree) (b : String) :
    (a.deinitLoopStep b).state = a.state := by
  unfold DepsTree.deinitLoopStep
  split
  case isTrue => exact state_deinitModule a b
  case isFalse => rfl

lemma state_startInitStep (a : DepsTree) (b : String) :
    (a.startInitStep b).state = a.state := by
  unfold DepsTree.startInitStep
  split
  case isTrue =>
    dsimp only
    split
    case isTrue => exact state_initModule _ b
    case isFalse => rfl
  case isFalse => rfl

lemma state_incUnloadStep (a : DepsTree) (b : String) :
    (a.incUnloadStep b).state = a.state := rfl

lemma state_readyStep (a : DepsTree) (b : String) :
    (a.readyStep b).state = a.state := by
  unfold DepsTree.readyStep
  dsimp only
  split
  case isTrue => exact (state_initModule _ _).trans (state_updMod _ _ _)
  case isFalse => exact state_updMod _ _ _

lemma state_cascadeStep (a : DepsTree) (b : String) :
    (a.cascadeStep b).state = a.state := by
  unfold DepsTree.cascadeStep
  dsimp only
  split
  case isTrue => exact (state_deinitModule _ _).trans (state_updMod _ _ _)
  case isFalse => exact state_updMod _ _ _

/-- The tree state after `deinit()` is the old one, `down`, or `deinitializing`. -/
lemma deinit_state (t : DepsTree) :
    (t.deinit).1.state = t.state ∨ (t.deinit).1.state = State.down ∨
      (t.deinit).1.state = State.deinitializing := by
  unfold DepsTree.deinit
  cases hs : t.state
  case off => right; left; rfl
  case error => left; exact hs
  case down => left; exact hs
  case deinitializing => left; exact hs
  case initializing =>
    right; right
    exact (state_foldl state_deinitLoopStep _ _).trans rfl
  case up =>
    right; right
    exact (state_foldl state_deinitLoopStep _ _).trans rfl

lemma state_error_handler (t : DepsTree) (e : Value) (n : Option String) :
    (t._error e n).state = t.state ∨ (t._error e n).state = State.down ∨
      (t._error e n).state = State.deinitializing := by
  unfold DepsTree._error
  exact deinit_state _

lemma state_startInit (t : DepsTree) : (t._startInit).state = t.state := by
  unfold DepsTree._startInit
  exact state_foldl state_startInitStep _ _

lemma state_moduleInited (t : DepsTree) (n : String) :
    (t._moduleInited n).state = t.state ∨ (t._moduleInited n).state = State.up := by
  unfold DepsTree._moduleInited
  cases hs : t.state
  case initializing =>
    dsimp only
    split
    case isTrue => right; rfl
    case isFalse =>
      left
      refine Eq.trans (state_foldl state_readyStep _ _) ?_
      show ((t.mods n).dependencies.foldl _ (t._changeModuleState n .up)).state =
        State.initializing
      refine Eq.trans (state_foldl state_incUnloadStep _ _) ?_
      rw [state_chgMod]; exact hs
  case deinitializing => left; rw [state_deinitModule]; exact hs
  case off => left; exact hs
  case up => left; exact hs
  case down => left; exact hs
  case error => left; exact hs

lemma state_initOpComplete (t : DepsTree) (n : String) (o : Outcome)
    (h : t.state ≠ State.error) : (t._initOpComplete n o).state ≠ State.error := by
  unfold DepsTree._initOpComplete
  cases o with
  | ok v =>
    dsimp only
    rcases state_moduleInited (t.updMod n fun m =>
        { m with data := if m.data.truthy then m.data else v }) n with h1 | h1 <;>
      rw [h1]
    · rw [state_updMod]; exact h
    · intro hc; cases hc
  | fail e =>
    dsimp only
    rcases state_error_handler (((({ t with modulesToUnload := t.modulesToUnload - 1
        } : DepsTree))._changeModuleState n .error).updMod n
        (fun m => { m with error := some e })) e (some n) with h1 | h1 | h1 <;> rw [h1]
    · rw [state_updMod, state_chgMod]; exact h
    · intro hc; cases hc
    · intro hc; cases hc

lemma deinitOpComplete_eq_tail (t : DepsTree) (n : String) (o : Outcome) :
    t._deinitOpComplete n o = deinitCompleteTail n (match o with
      | .ok _ => t._changeModuleState n .down
      | .fail e => ((t._changeModuleState n .error).updMod n
          (fun m => { m with error := some e }))._error e (some n)) := by
  cases o <;> rfl

lemma state_deinitCompleteTail (n : String) (t1 : DepsTree)
    (h : t1.state ≠ State.error) : (deinitCompleteTail n t1).state ≠ State.error := by
  unfold deinitCompleteTail
  dsimp only
  split
  case isTrue => intro hc; cases hc
  case isFalse =>
    exact (state_foldl state_cascadeStep _ _).trans_ne h

lemma state_deinitOpComplete (t : DepsTree) (n : String) (o : Outcome)
    (h : t.state ≠ State.error) : (t._deinitOpComplete n o).state ≠ State.error := by
  rw [deinitOpComplete_eq_tail]
  cases o with
  | ok v =>
    exact state_deinitCompleteTail n _ (by rw [state_chgMod]; exact h)
  | fail e =>
    refine state_deinitCompleteTail n _ ?_
    rcases state_error_handler ((t._changeModuleState n .error).updMod n
        (fun m => { m with error := some e })) e (some n) with h2 | h2 | h2 <;> rw [h2]
    · rw [state_updMod, state_chgMod]; exact h
    · intro hc; cases hc
    · intro hc; cases hc

lemma state_init_call (t : DepsTree) (h : t.state ≠ State.error) :
    (t.init).1.state ≠ State.error := by
  unfold DepsTree.init
  cases hs : t.state
  case off => intro hc; cases hc
  all_goals exact h

lemma step_state_ne_error (t : DepsTree) (d : Decision) (h : t.state ≠ State.error) :
    (step t d).state ≠ State.error := by
  cases d with
  | callInit => exact state_init_call t h
  | callDeinit =>
    show (t.deinit).1.state ≠ State.error
    rcases deinit_state t with h1 | h1 | h1 <;> rw [h1]
    · exact h
    · intro hc; cases hc
    · intro hc; cases hc
  | complete task o =>
    show (if task ∈ t.pending then _ else t).state ≠ State.error
    split
    case isFalse => exact h
    case isTrue =>
      cases task with
      | startInit =>
        show (DepsTree._startInit _).state ≠ State.error
        rw [state_startInit]; exact h
      | initOp n => exact state_initOpComplete _ n o h
      | deinitOp n => exact state_deinitOpComplete _ n o h

lemma run_state_ne_error (t : DepsTree) (ds : List Decision)
    (h : t.state ≠ State.error) : (run t ds).state ≠ State.error :=
  foldl_pres (P := fun x => x.state ≠ State.error)
    (fun a b ha => step_state_ne_error a b ha) ds t h

/-- Unfold a successful construction. -/
lemma new_eq (descs : List (String × ModuleDescription)) (t : DepsTree)
    (h : DepsTree.new descs = .ok t) :
    ∃ m1, addDependants (descs.map Prod.fst) (buildModules descs) = .ok m1 ∧
      t = { keys := descs.map Prod.fst
            mods := neededLoop (descs.map Prod.fst) m1
            state := .off
            modulesToUnload := 0
            modulesToLoad := 0
            errors := []
            initDefer := none
            initResolved := false
            deinitDefer := none
            deinitResolved := false
            nextId := 0
            events := []
            pending := [] } := by
  unfold DepsTree.new at h
  cases haux : addDependants (descs.map Prod.fst) (buildModules descs) with
  | error e =>
    rw [haux] at h
    cases h
  | ok m1 =>
    rw [haux] at h
    exact ⟨m1, rfl, (Except.ok.inj h).symm⟩

lemma new_state_off (descs : List (String × ModuleDescription)) (t : DepsTree)
    (h : DepsTree.new descs = .ok t) : t.state = State.off := by
  obtain ⟨m1, -, ht⟩ := new_eq descs t h
  rw [ht]

/-! ### Concrete fixtures for witnesses and counterexamples -/

/-- One needed module with no dependencies. -/
def exDescsA : List (String × ModuleDescription) := [("a", { needed := true })]

def exTreeA : DepsTree := exGet (DepsTree.new exDescsA)

lemma exTreeA_new : DepsTree.new exDescsA = .ok exTreeA := rfl

/-- One needed module with a falsy seed `data` of `0`. -/
def exDescsB : List (String × ModuleDescription) :=
  [("b", { data := .vnum 0, needed := true })]

def exTreeB : DepsTree := exGet (DepsTree.new exDescsB)

lemma exTreeB_new : DepsTree.new exDescsB = .ok exTreeB := rfl

/-- Two needed modules, `b` depending on `a`. -/
def exDescsC : List (String × ModuleDescription) :=
  [("a", { needed := true }), ("b", { deps := ["a"], needed := true })]

def exTreeC : DepsTree := exGet (DepsTree.new exDescsC)

lemma exTreeC_new : DepsTree.new exDescsC = .ok exTreeC := rfl

/-- Three needed modules: independent `g`, and `f` depending on `x`. -/
def exDescsE : List (String × ModuleDescription) :=
  [("g", { needed := true }), ("x", { needed := true }),
   ("f", { deps := ["x"], needed := true })]

def exTreeE : DepsTree := exGet (DepsTree.new exDescsE)

lemma exTreeE_new : DepsTree.new exDescsE = .ok exTreeE := rfl

/-- An explicitly needed module, its dependency, and an unneeded module. -/
def exDescsF : List (String × ModuleDescription) :=
  [("a", {}), ("b", { deps := ["a"], needed := true }), ("c", {})]

def exTreeF : DepsTree := exGet (DepsTree.new exDescsF)

lemma exTreeF_new : DepsTree.new exDescsF = .ok exTreeF := rfl

/-! ### C10 -/

/-- C10: the tree-level state never takes the value `error`: from any tree the
constructor returns, no sequence of `init()`/`deinit()` calls and module
outcomes reaches a tree state of `error` (so the `error` column of the state
table and `deinit()`'s `error` branch are unreachable). -/
theorem tree_state_never_error (descs : List (String × ModuleDescription))
    (t0 : DepsTree) (h : DepsTree.new descs = .ok t0) (ds : List Decision) :
    (run t0 ds).state ≠ State.error := by
  refine run_state_ne_error t0 ds ?_
  rw [new_state_off descs t0 h]
  intro hc
  cases hc

/-- C10 witness: a concrete tree and decision list. -/
theorem tree_state_never_error_witness :
    (run exTreeA [Decision.callInit,
      Decision.complete .startInit (.ok .undefined),
      Decision.complete (.initOp "a") (.fail (.vobj 7))]).state ≠ State.error :=
  tree_state_never_error exDescsA exTreeA exTreeA_new _

/-! ### Field projection lemmas -/

lemma updMod_mods (t : DepsTree) (n : String) (f : ModuleRT → ModuleRT) (k : String) :
    (t.updMod n f).mods k = if k = n then f (t.mods k) else t.mods k := rfl

lemma chgMod_mods (t : DepsTree) (n : String) (s : State) (k : String) :
    (t._changeModuleState n s).mods k =
      if k = n then { t.mods k with state := s } else t.mods k := rfl

lemma chgMod_events (t : DepsTree) (n : String) (s : State) :
    (t._changeModuleState n s).events = Event.moduleStateEv n s :: t.events := rfl

lemma chgMod_pending (t : DepsTree) (n : String) (s : State) :
    (t._changeModuleState n s).pending = t.pending := rfl

lemma deinitModule_mods (t : DepsTree) (n : String) (k : String) :
    (t._deinitModule n).mods k =
      if k = n then { t.mods k with state := .deinitializing } else t.mods k := rfl

lemma deinitModule_events (t : DepsTree) (n : String) :
    (t._deinitModule n).events = Event.moduleStateEv n .deinitializing :: t.events := rfl

lemma deinitModule_pending (t : DepsTree) (n : String) :
    (t._deinitModule n).pending = PendingTask.deinitOp n :: t.pending := rfl

lemma initModule_mods (t : DepsTree) (n : String) (k : String) :
    (t._initModule n).mods k =
      if k = n then { t.mods k with state := .initializing } else t.mods k := rfl

lemma initModule_events (t : DepsTree) (n : String) :
    (t._initModule n).events = Event.moduleStateEv n .initializing :: t.events := rfl

lemma initModule_pending (t : DepsTree) (n : String) :
    (t._initModule n).pending = PendingTask.initOp n :: t.pending := rfl

/-! ### Data preservation (claim C4) -/

lemma data_fold_pres {β : Type} {f : DepsTree → β → DepsTree} (k : String)
    (hf : ∀ a b, ((f a b).mods k).data = ((a.mods k)).data) (l : List β)
    (a : DepsTree) : ((l.foldl f a).mods k).data = ((a.mods k)).data := by
  induction l generalizing a with
  | nil => rfl
  | cons x xs ih => rw [List.foldl_cons, ih (f a x), hf]

lemma data_chgMod (t : DepsTree) (n : String) (s : State) (k : String) :
    ((t._changeModuleState n s).mods k).data = (t.mods k).data := by
  rw [chgMod_mods]
  split <;> rfl

lemma data_initModule (t : DepsTree) (n : String) (k : String) :
    ((t._initModule n).mods k).data = (t.mods k).data := by
  rw [initModule_mods]
  split <;> rfl

lemma data_deinitModule (t : DepsTree) (n : String) (k : String) :
    ((t._deinitModule n).mods k).data = (t.mods k).data := by
  rw [deinitModule_mods]
  split <;> rfl

/-- `_moduleInited` never touches a module's `data` field. -/
lemma data_moduleInited (t : DepsTree) (n : String) (k : String) :
    ((t._moduleInited n).mods k).data = (t.mods k).data := by
  unfold DepsTree._moduleInited
  cases t.state
  case initializing =>
    dsimp only
    have h2 : ((((t.mods n).dependencies.foldl DepsTree.incUnloadStep
        (t._changeModuleState n .up)).mods k)).data = (t.mods k).data := by
      rw [data_fold_pres k ?_ _ _, data_chgMod]
      intro a b
      unfold DepsTree.incUnloadStep
      rw [updMod_mods]
      split <;> rfl
    split
    case isTrue => exact h2
    case isFalse =>
      rw [data_fold_pres k ?_ _ _]
      · exact h2
      · intro a b
        unfold DepsTree.readyStep
        dsimp only
        split
        case isTrue =>
          rw [data_initModule, updMod_mods]
          split <;> rfl
        case isFalse =>
          rw [updMod_mods]
          split <;> rfl
  case deinitializing => exact data_deinitModule t n k
  all_goals rfl

/-- C4 counterexample: module `b` is constructed with the falsy seed value `0`
(so seed data was supplied), its init operation returns `5`, and afterwards
its `data` holds `5`, not the seed — against the claim that a supplied seed is
kept.  (`module.data = module.data || data` tests truthiness, not presence.) -/
theorem seed_data_kept_counterexample :
    (exTreeB.mods "b").data = Value.vnum 0 ∧
    ((run exTreeB [Decision.callInit,
        Decision.complete .startInit (.ok .undefined),
        Decision.complete (.initOp "b") (.ok (.vnum 5))]).mods "b").data = Value.vnum 5 ∧
    ((run exTreeB [Decision.callInit,
        Decision.complete .startInit (.ok .undefined),
        Decision.complete (.initOp "b") (.ok (.vnum 5))]).mods "b").state = State.up := by
  refine ⟨?_, ?_, ?_⟩ <;> decide

/-- C4 (amended): when a module's init operation completes successfully with
value `v`, the module's `data` becomes `v` unless the `data` already present
(the seed) is truthy; a truthy seed is kept, while an absent or falsy seed
(`undefined`, `null`, `false`, `0`, `""`) is replaced by `v`. -/
theorem init_data_stored_unless_truthy_seed (t : DepsTree) (name : String)
    (v : Value) :
    ((t._initOpComplete name (.ok v)).mods name).data =
      if ((t.mods name).data).truthy then (t.mods name).data else v := by
  show ((DepsTree._moduleInited _ name).mods name).data = _
  rw [data_moduleInited, updMod_mods]
  simp

/-! ### Equation lemmas for the state matches -/

lemma deinit_eq_initializing (t : DepsTree) (h : t.state = State.initializing) :
    t.deinit =
      (let id := t.nextId
       let t1 := t._changeState .deinitializing
       let t2 := { t1 with deinitDefer := some id, deinitResolved := false,
                           nextId := t1.nextId + 1 }
       let t3 := t2.keys.foldl DepsTree.deinitLoopStep t2
       (t3, .pending id)) := by
  unfold DepsTree.deinit
  rw [h]

lemma deinit_eq_up (t : DepsTree) (h : t.state = State.up) :
    t.deinit =
      (let id := t.nextId
       let t1 := t._changeState .deinitializing
       let t2 := { t1 with deinitDefer := some id, deinitResolved := false,
                           nextId := t1.nextId + 1 }
       let t3 := t2.keys.foldl DepsTree.deinitLoopStep t2
       (t3, .pending id)) := by
  unfold DepsTree.deinit
  rw [h]

lemma deinit_eq_off (t : DepsTree) (h : t.state = State.off) :
    t.deinit = (t._changeState .down, .resolved) := by
  unfold DepsTree.deinit
  rw [h]

lemma deinit_eq_deinitializing (t : DepsTree) (h : t.state = State.deinitializing) :
    t.deinit = (t, .pending (t.deinitDefer.getD 0)) := by
  unfold DepsTree.deinit
  rw [h]

lemma deinit_eq_down (t : DepsTree) (h : t.state = State.down) :
    t.deinit = (t, .resolved) := by
  unfold DepsTree.deinit
  rw [h]

lemma deinit_eq_error (t : DepsTree) (h : t.state = State.error) :
    t.deinit = (t, .resolved) := by
  unfold DepsTree.deinit
  rw [h]

lemma moduleInited_eq_deinitializing (t : DepsTree) (n : String)
    (h : t.state = State.deinitializing) :
    t._moduleInited n = t._deinitModule n := by
  unfold DepsTree._moduleInited
  rw [h]

lemma moduleInited_eq_initializing (t : DepsTree) (n : String)
    (h : t.state = State.initializing) :
    t._moduleInited n =
      (let deps := (t.mods n).dependencies
       let depts := (t.mods n).dependants
       let t1 := t._changeModuleState n .up
       let t2 := deps.foldl DepsTree.incUnloadStep t1
       let t3 := { t2 with modulesToLoad := t2.modulesToLoad - 1 }
       if t3.modulesToLoad = 0 then
         let t4 := { t3 with initResolved := true }
         let t5 := t4._changeState .up
         { t5 with events := .startedEv :: t5.events }
       else
         depts.foldl DepsTree.readyStep t3) := by
  unfold DepsTree._moduleInited
  rw [h]

lemma init_eq_off (t : DepsTree) (h : t.state = State.off) :
    t.init =
      (let id := t.nextId
       let t1 := t._changeState .initializing
       ({ t1 with initDefer := some id, initResolved := false,
                  nextId := t1.nextId + 1, modulesToLoad := 0,
                  pending := .startInit :: t1.pending }, .pending id)) := by
  unfold DepsTree.init
  rw [h]

lemma init_eq_initializing (t : DepsTree) (h : t.state = State.initializing) :
    t.init = (t, .pending (t.initDefer.getD 0)) := by
  unfold DepsTree.init
  rw [h]

lemma init_eq_up (t : DepsTree) (h : t.state = State.up) :
    t.init = (t, .resolved) := by
  unfold DepsTree.init
  rw [h]

lemma init_eq_deinitializing (t : DepsTree) (h : t.state = State.deinitializing) :
    t.init = (t, .invalidState) := by
  unfold DepsTree.init
  rw [h]

lemma init_eq_down (t : DepsTree) (h : t.state = State.down) :
    t.init = (t, .invalidState) := by
  unfold DepsTree.init
  rw [h]

lemma init_eq_error (t : DepsTree) (h : t.state = State.error) :
    t.init = (t, .invalidState) := by
  unfold DepsTree.init
  rw [h]

/-! ### C5: an init completing while the tree is deinitializing -/

/-- C5 counterexample: `deinit()` is called while `b`'s init operation is in
flight; `b`'s init then completes successfully, and `b` is fed to the deinit
scheduler, but `b` never reports state `up` — no `module-state b up`
notification is ever emitted (its state goes `initializing` directly to
`deinitializing`), against the claim that the module reports `up` first. -/
theorem inflight_init_reports_up_counterexample :
    Event.moduleStateEv "b" State.up ∉ (run exTreeC [Decision.callInit,
      Decision.complete .startInit (.ok .undefined),
      Decision.complete (.initOp "a") (.ok (.vnum 1)),
      Decision.callDeinit,
      Decision.complete (.initOp "b") (.ok (.vnum 2))]).events ∧
    Event.moduleStateEv "b" State.deinitializing ∈ (run exTreeC [Decision.callInit,
      Decision.complete .startInit (.ok .undefined),
      Decision.complete (.initOp "a") (.ok (.vnum 1)),
      Decision.callDeinit,
      Decision.complete (.initOp "b") (.ok (.vnum 2))]).events ∧
    PendingTask.deinitOp "b" ∈ (run exTreeC [Decision.callInit,
      Decision.complete .startInit (.ok .undefined),
      Decision.complete (.initOp "a") (.ok (.vnum 1)),
      Decision.callDeinit,
      Decision.complete (.initOp "b") (.ok (.vnum 2))]).pending := by
  refine ⟨?_, ?_, ?_⟩ <;> decide

/-- C5 (amended): when a module's init operation completes successfully while
the tree is deinitializing, the stored data is kept or set as usual, and the
module is immediately fed into the deinit scheduler — it is marked
`deinitializing` and its deinit operation is started — without ever reporting
state `up` (the only new notification is `module-state (name, deinitializing)`). -/
theorem inflight_init_fed_to_deinit (t : DepsTree) (k : String) (v : Value)
    (h : t.state = State.deinitializing) :
    ((t._initOpComplete k (.ok v)).mods k).state = State.deinitializing ∧
    PendingTask.deinitOp k ∈ (t._initOpComplete k (.ok v)).pending ∧
    (t._initOpComplete k (.ok v)).events =
      Event.moduleStateEv k State.deinitializing :: t.events ∧
    ((t._initOpComplete k (.ok v)).mods k).data =
      if ((t.mods k).data).truthy then (t.mods k).data else v := by
  show ((DepsTree._moduleInited _ k).mods k).state = State.deinitializing ∧
    PendingTask.deinitOp k ∈ (DepsTree._moduleInited _ k).pending ∧
    (DepsTree._moduleInited _ k).events = _ ∧
    ((DepsTree._moduleInited _ k).mods k).data = _
  rw [moduleInited_eq_deinitializing _ k (by exact h)]
  refine ⟨?_, ?_, ?_, ?_⟩
  · rw [deinitModule_mods]
    simp
  · rw [deinitModule_pending]
    exact List.mem_cons_self _ _
  · rw [deinitModule_events]
    rfl
  · rw [data_deinitModule, updMod_mods]
    simp

/-- C5 witness: a tree in state `deinitializing` with a module whose seeded
data is absent; the theorem applies and every hypothesis is discharged. -/
theorem inflight_init_fed_to_deinit_witness :
    (((run exTreeC [Decision.callInit,
        Decision.complete .startInit (.ok .undefined),
        Decision.complete (.initOp "a") (.ok (.vnum 1)),
        Decision.callDeinit])._initOpComplete "b" (.ok (.vnum 2))).mods "b").state =
      State.deinitializing ∧
    PendingTask.deinitOp "b" ∈ ((run exTreeC [Decision.callInit,
        Decision.complete .startInit (.ok .undefined),
        Decision.complete (.initOp "a") (.ok (.vnum 1)),
        Decision.callDeinit])._initOpComplete "b" (.ok (.vnum 2))).pending := by
  have h := inflight_init_fed_to_deinit (run exTreeC [Decision.callInit,
      Decision.complete .startInit (.ok .undefined),
      Decision.complete (.initOp "a") (.ok (.vnum 1)),
      Decision.callDeinit]) "b" (.vnum 2) (by decide)
  exact ⟨h.1, h.2.1⟩

/-! ### C2: rollback on an init failure -/

lemma pending_deinitLoopStep (a : DepsTree) (b : String) (task : PendingTask)
    (h : task ∈ a.pending) : task ∈ (a.deinitLoopStep b).pending := by
  unfold DepsTree.deinitLoopStep
  split
  case isTrue => rw [deinitModule_pending]; exact List.mem_cons_of_mem _ h
  case isFalse => exact h

lemma errors_deinitLoopStep (a : DepsTree) (b : String) :
    (a.deinitLoopStep b).errors = a.errors := by
  unfold DepsTree.deinitLoopStep
  split <;> rfl

lemma mtu_deinitLoopStep (a : DepsTree) (b : String) :
    (a.deinitLoopStep b).modulesToUnload = a.modulesToUnload := by
  unfold DepsTree.deinitLoopStep
  split <;> rfl

lemma events_deinitLoopStep (a : DepsTree) (b : String) (ev : Event)
    (h : ev ∈ a.events) : ev ∈ (a.deinitLoopStep b).events := by
  unfold DepsTree.deinitLoopStep
  split
  case isTrue => rw [deinitModule_events]; exact List.mem_cons_of_mem _ h
  case isFalse => exact h

lemma mods_deinitLoopStep_ne_up (a : DepsTree) (b k : String)
    (h : (a.mods k).state ≠ State.up) : (a.deinitLoopStep b).mods k = a.mods k := by
  unfold DepsTree.deinitLoopStep
  split
  case isTrue hcond =>
    rw [deinitModule_mods]
    split
    case isTrue heq => exact absurd (heq ▸ hcond.1) h
    case isFalse => rfl
  case isFalse => rfl

lemma foldl_deinitLoop_mods_ne_up (l : List String) (a : DepsTree) (k : String)
    (R : ModuleRT) (hR : R.state ≠ State.up) (h : a.mods k = R) :
    (l.foldl DepsTree.deinitLoopStep a).mods k = R :=
  foldl_pres (P := fun x => x.mods k = R)
    (fun x b hx => by
      show (x.deinitLoopStep b).mods k = R
      rw [mods_deinitLoopStep_ne_up x b k (by rw [hx]; exact hR)]
      exact hx)
    l a h

lemma foldl_deinitLoop_errors (l : List String) (a : DepsTree) :
    (l.foldl DepsTree.deinitLoopStep a).errors = a.errors :=
  foldl_pres (P := fun x => x.errors = a.errors)
    (fun x b hx => by
      show (x.deinitLoopStep b).errors = a.errors
      rw [errors_deinitLoopStep]
      exact hx) l a rfl

lemma foldl_deinitLoop_mtu (l : List String) (a : DepsTree) :
    (l.foldl DepsTree.deinitLoopStep a).modulesToUnload = a.modulesToUnload :=
  foldl_pres (P := fun x => x.modulesToUnload = a.modulesToUnload)
    (fun x b hx => by
      show (x.deinitLoopStep b).modulesToUnload = a.modulesToUnload
      rw [mtu_deinitLoopStep]
      exact hx) l a rfl

lemma foldl_deinitLoop_events (l : List String) (a : DepsTree) (ev : Event)
    (h : ev ∈ a.events) : ev ∈ (l.foldl DepsTree.deinitLoopStep a).events :=
  foldl_pres (P := fun x => ev ∈ x.events) (fun x b hx => events_deinitLoopStep x b ev hx)
    l a h

lemma foldl_deinitLoop_pending (l : List String) (a : DepsTree) (task : PendingTask)
    (h : task ∈ a.pending) : task ∈ (l.foldl DepsTree.deinitLoopStep a).pending :=
  foldl_pres (P := fun x => task ∈ x.pending)
    (fun x b hx => pending_deinitLoopStep x b task hx) l a h

/-- Every module that is `up` with a zero `dependantsToUnload` when the
`deinit()` scheduling loop starts has its deinit started by the loop. -/
lemma deinitLoop_schedules (l : List String) (hl : l.Nodup) :
    ∀ (a : DepsTree) (m : String), m ∈ l → (a.mods m).state = State.up →
      (a.mods m).dependantsToUnload = 0 →
      PendingTask.deinitOp m ∈ (l.foldl DepsTree.deinitLoopStep a).pending := by
  induction l with
  | nil => intro a m hm; cases hm
  | cons x xs ih =>
    intro a m hm hup hc
    rw [List.foldl_cons]
    rcases List.mem_cons.mp hm with heq | hmem
    · subst heq
      refine foldl_deinitLoop_pending xs _ _ ?_
      have hstep : a.deinitLoopStep m = a._deinitModule m := by
        unfold DepsTree.deinitLoopStep
        rw [if_pos ⟨hup, hc⟩]
      rw [hstep, deinitModule_pending]
      exact List.mem_cons_self _ _
    · have hx : x ≠ m := fun hxe => (List.nodup_cons.mp hl).1 (hxe ▸ hmem)
      have hmods : (a.deinitLoopStep x).mods m = a.mods m := by
        unfold DepsTree.deinitLoopStep
        split
        case isTrue =>
          rw [deinitModule_mods]
          rw [if_neg (fun hme => hx hme.symm)]
        case isFalse => rfl
      exact ih (List.nodup_cons.mp hl).2 _ m hmem (by rw [hmods]; exact hup)
        (by rw [hmods]; exact hc)

/-- C2 counterexample: a tree with the single needed module `a` whose init
operation fails.  The rollback leaves the tree in `deinitializing` with no
outstanding continuation at all — no decision can ever move it again — so the
tree never reaches `down` (no `state down` or `stopped` notification exists),
and the error list holds the raw error value, not a value tagged with the
module's name.  Both falsify the claim as stated. -/
theorem init_failure_rollback_counterexample :
    (run exTreeA [Decision.callInit,
      Decision.complete .startInit (.ok .undefined),
      Decision.complete (.initOp "a") (.fail (.vobj 7))]).state =
        State.deinitializing ∧
    (run exTreeA [Decision.callInit,
      Decision.complete .startInit (.ok .undefined),
      Decision.complete (.initOp "a") (.fail (.vobj 7))]).pending = [] ∧
    (run exTreeA [Decision.callInit,
      Decision.complete .startInit (.ok .undefined),
      Decision.complete (.initOp "a") (.fail (.vobj 7))]).errors = [Value.vobj 7] ∧
    Event.stateEv State.down ∉ (run exTreeA [Decision.callInit,
      Decision.complete .startInit (.ok .undefined),
      Decision.complete (.initOp "a") (.fail (.vobj 7))]).events ∧
    Event.stoppedEv ∉ (run exTreeA [Decision.callInit,
      Decision.complete .startInit (.ok .undefined),
      Decision.complete (.initOp "a") (.fail (.vobj 7))]).events := by
  refine ⟨?_, ?_, ?_, ?_, ?_⟩ <;> decide

/-- A deinitializing tree with no outstanding continuation can never move:
the deinit deferred promise never resolves and `down` is never reached. -/
lemma deinitializing_no_pending_stuck (t : DepsTree)
    (hs : t.state = State.deinitializing) (hp : t.pending = []) :
    ∀ ds, run t ds = t := by
  have hstep : ∀ d, step t d = t := by
    intro d
    cases d with
    | callInit => show (t.init).1 = t; rw [init_eq_deinitializing t hs]
    | callDeinit => show (t.deinit).1 = t; rw [deinit_eq_deinitializing t hs]
    | complete task o =>
      show (if task ∈ t.pending then _ else t) = t
      rw [if_neg (by rw [hp]; exact List.not_mem_nil task)]
  intro ds
  induction ds with
  | nil => rfl
  | cons d ds ih => show run (step t d) ds = t; rw [hstep d]; exact ih

/-- C2 (amended): when a module's init operation fails while the tree is
initializing, the module is marked `error` and its error stored on it, the
raw error value is appended to the tree's error list (only the emitted error
notification carries the module's name), and rollback begins at once: the
in-flight count is undone, the tree transitions to `deinitializing`, and
every other module currently `up` whose `dependantsToUnload` count is zero
has its deinit operation invoked immediately.  (The tree then reaches `down`
only when this cascade completes at least one module's deinit; the
counterexample shows a failing tree with nothing else up or in flight that
stays `deinitializing` forever.) -/
theorem init_failure_rollback (t : DepsTree) (k : String) (e : Value)
    (hstate : t.state = State.initializing) (hnd : t.keys.Nodup) :
    ((t._initOpComplete k (.fail e)).mods k).state = State.error ∧
    ((t._initOpComplete k (.fail e)).mods k).error = some e ∧
    (t._initOpComplete k (.fail e)).errors = t.errors ++ [e] ∧
    Event.errorEv e k ∈ (t._initOpComplete k (.fail e)).events ∧
    (t._initOpComplete k (.fail e)).state = State.deinitializing ∧
    (t._initOpComplete k (.fail e)).modulesToUnload = t.modulesToUnload - 1 ∧
    (∀ m, m ∈ t.keys → m ≠ k → (t.mods m).state = State.up →
      (t.mods m).dependantsToUnload = 0 →
      PendingTask.deinitOp m ∈ (t._initOpComplete k (.fail e)).pending) := by
  have h2 : t._initOpComplete k (.fail e) =
      (({ ((({ t with modulesToUnload := t.modulesToUnload - 1
           } : DepsTree))._changeModuleState k .error).updMod k
           (fun m => { m with error := some e }) with
         events := Event.errorEv e k :: Event.moduleStateEv k State.error :: t.events
         errors := t.errors ++ [e] } : DepsTree).deinit).1 := rfl
  have hfold : t._initOpComplete k (.fail e) =
      (rollbackStart t k e).keys.foldl DepsTree.deinitLoopStep (rollbackStart t k e) := by
    rw [h2, deinit_eq_initializing _ (by exact hstate)]
    rfl
  have hkeys : (rollbackStart t k e).keys = t.keys := rfl
  have hmodsk : (rollbackStart t k e).mods k =
      { t.mods k with state := State.error, error := some e } := by
    show (if k = k then _ else _) = _
    rw [if_pos rfl]
    show ({ (if k = k then ({ t.mods k with state := State.error } : ModuleRT)
      else t.mods k) with error := some e } : ModuleRT) = _
    rw [if_pos rfl]
  have hmodsm : ∀ m, m ≠ k → (rollbackStart t k e).mods m = t.mods m := by
    intro m hm
    show (if m = k then _ else (if m = k then _ else t.mods m)) = _
    rw [if_neg hm, if_neg hm]
  rw [hfold]
  refine ⟨?_, ?_, ?_, ?_, ?_, ?_, ?_⟩
  · rw [foldl_deinitLoop_mods_ne_up _ _ k
      ({ t.mods k with state := State.error, error := some e }) (by intro hc; cases hc)
      hmodsk]
  · rw [foldl_deinitLoop_mods_ne_up _ _ k
      ({ t.mods k with state := State.error, error := some e }) (by intro hc; cases hc)
      hmodsk]
  · rw [foldl_deinitLoop_errors]
    rfl
  · refine foldl_deinitLoop_events _ _ _ ?_
    show Event.errorEv e k ∈
      Event.stateEv .deinitializing :: Event.errorEv e k ::
        Event.moduleStateEv k .error :: t.events
    exact List.mem_cons_of_mem _ (List.mem_cons_self _ _)
  · exact state_foldl state_deinitLoopStep _ _
  · rw [foldl_deinitLoop_mtu]
    rfl
  · intro m hm hmk hup hc
    refine deinitLoop_schedules _ (hkeys ▸ hnd) _ m (hkeys ▸ hm) ?_ ?_
    · rw [hmodsm m hmk]; exact hup
    · rw [hmodsm m hmk]; exact hc

/-- C2 witness: module `g`'s init fails while `x` is up; rollback starts and
`x`'s deinit is invoked immediately. -/
theorem init_failure_rollback_witness :
    ((run exTreeE [Decision.callInit, Decision.complete .startInit (.ok .undefined),
      Decision.complete (.initOp "x") (.ok (.vnum 1))])._initOpComplete "g"
      (.fail (.vobj 9))).state = State.deinitializing ∧
    PendingTask.deinitOp "x" ∈ ((run exTreeE [Decision.callInit,
      Decision.complete .startInit (.ok .undefined),
      Decision.complete (.initOp "x") (.ok (.vnum 1))])._initOpComplete "g"
      (.fail (.vobj 9))).pending := by
  have h := init_failure_rollback (run exTreeE [Decision.callInit,
    Decision.complete .startInit (.ok .undefined),
    Decision.complete (.initOp "x") (.ok (.vnum 1))]) "g" (.vobj 9)
    (by decide) (by decide)
  exact ⟨h.2.2.2.2.1,
    h.2.2.2.2.2.2 "x" (by decide) (by decide) (by decide) (by decide)⟩

/-! ### C7: a deinit failure does not abort the cascade -/

lemma mods_cascadeStep_ne (a : DepsTree) (b k : String) (h : b ≠ k) :
    (a.cascadeStep b).mods k = a.mods k := by
  unfold DepsTree.cascadeStep
  dsimp only
  split
  case isTrue =>
    rw [deinitModule_mods, if_neg (fun hkb => h hkb.symm), updMod_mods,
      if_neg (fun hkb => h hkb.symm)]
  case isFalse =>
    rw [updMod_mods, if_neg (fun hkb => h hkb.symm)]

lemma pending_cascadeStep (a : DepsTree) (b : String) (task : PendingTask)
    (h : task ∈ a.pending) : task ∈ (a.cascadeStep b).pending := by
  unfold DepsTree.cascadeStep
  dsimp only
  split
  case isTrue => rw [deinitModule_pending]; exact List.mem_cons_of_mem _ h
  case isFalse => exact h

lemma errors_cascadeStep (a : DepsTree) (b : String) :
    (a.cascadeStep b).errors = a.errors := by
  unfold DepsTree.cascadeStep
  dsimp only
  split <;> rfl

lemma mtu_cascadeStep (a : DepsTree) (b : String) :
    (a.cascadeStep b).modulesToUnload = a.modulesToUnload := by
  unfold DepsTree.cascadeStep
  dsimp only
  split <;> rfl

lemma events_cascadeStep (a : DepsTree) (b : String) (ev : Event)
    (h : ev ∈ a.events) : ev ∈ (a.cascadeStep b).events := by
  unfold DepsTree.cascadeStep
  dsimp only
  split
  case isTrue => rw [deinitModule_events]; exact List.mem_cons_of_mem _ h
  case isFalse => exact h

/-- A fold step property needed only for the members of the list. -/
lemma foldl_pres_mem {α β : Type} {P : α → Prop} {f : α → β → α} :
    ∀ (l : List β), (∀ a b, b ∈ l → P a → P (f a b)) → ∀ a, P a → P (l.foldl f a)
  | [], _, _, ha => ha
  | x :: xs, h, a, ha =>
    foldl_pres_mem xs (fun a2 b hb => h a2 b (List.mem_cons_of_mem _ hb)) (f a x)
      (h a x (List.mem_cons_self _ _) ha)

lemma foldl_cascade_pending (l : List String) (a : DepsTree) (task : PendingTask)
    (h : task ∈ a.pending) : task ∈ (l.foldl DepsTree.cascadeStep a).pending :=
  foldl_pres (P := fun x => task ∈ x.pending)
    (fun x b hx => pending_cascadeStep x b task hx) l a h

lemma foldl_cascade_mods_not_mem (l : List String) (a : DepsTree) (k : String)
    (hk : k ∉ l) : (l.foldl DepsTree.cascadeStep a).mods k = a.mods k :=
  foldl_pres_mem (P := fun x => x.mods k = a.mods k) l
    (fun x b hb hx => by
      show (x.cascadeStep b).mods k = a.mods k
      rw [mods_cascadeStep_ne x b k (fun hbk => hk (hbk ▸ hb))]
      exact hx) a rfl

lemma foldl_cascade_errors (l : List String) (a : DepsTree) :
    (l.foldl DepsTree.cascadeStep a).errors = a.errors :=
  foldl_pres (P := fun x => x.errors = a.errors)
    (fun x b hx => by
      show (x.cascadeStep b).errors = a.errors
      rw [errors_cascadeStep]
      exact hx) l a rfl

lemma foldl_cascade_mtu (l : List String) (a : DepsTree) :
    (l.foldl DepsTree.cascadeStep a).modulesToUnload = a.modulesToUnload :=
  foldl_pres (P := fun x => x.modulesToUnload = a.modulesToUnload)
    (fun x b hx => by
      show (x.cascadeStep b).modulesToUnload = a.modulesToUnload
      rw [mtu_cascadeStep]
      exact hx) l a rfl

lemma foldl_cascade_events (l : List String) (a : DepsTree) (ev : Event)
    (h : ev ∈ a.events) : ev ∈ (l.foldl DepsTree.cascadeStep a).events :=
  foldl_pres (P := fun x => ev ∈ x.events) (fun x b hx => events_cascadeStep x b ev hx)
    l a h

/-- Effect of the cascade loop on each member of a duplicate-free list: its
`dependantsToUnload` is decremented once, and when the decremented counter is
at or below zero its deinit is started. -/
lemma cascade_fold_spec (l : List String) (hl : l.Nodup) :
    ∀ (a : DepsTree) (d : String), d ∈ l →
      (((l.foldl DepsTree.cascadeStep a).mods d).dependantsToUnload =
        (a.mods d).dependantsToUnload - 1 ∧
       ((a.mods d).dependantsToUnload - 1 ≤ 0 →
        PendingTask.deinitOp d ∈ (l.foldl DepsTree.cascadeStep a).pending)) := by
  induction l with
  | nil => intro a d hd; cases hd
  | cons x xs ih =>
    intro a d hd
    rw [List.foldl_cons]
    rcases List.mem_cons.mp hd with heq | hmem
    · subst heq
      have hdx : d ∉ xs := (List.nodup_cons.mp hl).1
      have hstep_mods : ((a.cascadeStep d).mods d).dependantsToUnload =
          (a.mods d).dependantsToUnload - 1 := by
        unfold DepsTree.cascadeStep
        dsimp only
        split
        case isTrue =>
          rw [deinitModule_mods, if_pos rfl, updMod_mods, if_pos rfl]
        case isFalse =>
          rw [updMod_mods, if_pos rfl]
      constructor
      · rw [foldl_cascade_mods_not_mem xs _ d hdx, hstep_mods]
      · intro hle
        refine foldl_cascade_pending xs _ _ ?_
        have hcond : ((a.updMod d (fun m =>
            { m with dependantsToUnload := m.dependantsToUnload - 1 })).mods d
            ).dependantsToUnload ≤ 0 := by
          rw [updMod_mods, if_pos rfl]
          exact hle
        unfold DepsTree.cascadeStep
        dsimp only
        rw [if_pos hcond, deinitModule_pending]
        exact List.mem_cons_self _ _
    · have hx : x ≠ d := fun hxe => (List.nodup_cons.mp hl).1 (hxe ▸ hmem)
      have hmods : (a.cascadeStep x).mods d = a.mods d := mods_cascadeStep_ne a x d hx
      have := ih (List.nodup_cons.mp hl).2 (a.cascadeStep x) d hmem
      rw [hmods] at this
      exact this

lemma deinitOpComplete_fail_deinitializing (t : DepsTree) (k : String) (e : Value)
    (hstate : t.state = State.deinitializing) :
    t._deinitOpComplete k (.fail e) = deinitCompleteTail k (deinitFailMark t k e) := by
  have h1 : t._deinitOpComplete k (.fail e) =
      deinitCompleteTail k (((t._changeModuleState k .error).updMod k
        (fun m => { m with error := some e }))._error e (some k)) := rfl
  have h2 : ((t._changeModuleState k .error).updMod k
      (fun m => { m with error := some e }))._error e (some k) =
      deinitFailMark t k e := by
    show ((deinitFailMark t k e).deinit).1 = deinitFailMark t k e
    rw [deinit_eq_deinitializing _ (by exact hstate)]
  exact h1.trans (congrArg (deinitCompleteTail k) h2)

/-- C7 counterexample: `f` (depending on `x`) is the last module to finish
deinitializing and its deinit operation fails.  The failure is recorded and
the tree still reaches `down`, but because the unload count reached zero the
handler returns before the cascade loop: `x`'s `dependantsToUnload` counter is
not decremented (it stays `0` instead of dropping to `-1`), against the claim
that the failing module's dependencies still have their counters decremented. -/
theorem deinit_failure_cascade_counterexample :
    "x" ∈ ((run exTreeE [Decision.callInit,
      Decision.complete .startInit (.ok .undefined),
      Decision.complete (.initOp "x") (.ok (.vnum 1)),
      Decision.complete (.initOp "g") (.fail (.vobj 9)),
      Decision.complete (.deinitOp "x") (.ok .undefined),
      Decision.complete (.initOp "f") (.ok (.vnum 2))]).mods "f").dependencies ∧
    ((run exTreeE [Decision.callInit,
      Decision.complete .startInit (.ok .undefined),
      Decision.complete (.initOp "x") (.ok (.vnum 1)),
      Decision.complete (.initOp "g") (.fail (.vobj 9)),
      Decision.complete (.deinitOp "x") (.ok .undefined),
      Decision.complete (.initOp "f") (.ok (.vnum 2))]).mods "x").dependantsToUnload
      = 0 ∧
    ((run exTreeE [Decision.callInit,
      Decision.complete .startInit (.ok .undefined),
      Decision.complete (.initOp "x") (.ok (.vnum 1)),
      Decision.complete (.initOp "g") (.fail (.vobj 9)),
      Decision.complete (.deinitOp "x") (.ok .undefined),
      Decision.complete (.initOp "f") (.ok (.vnum 2)),
      Decision.complete (.deinitOp "f") (.fail (.vobj 8))]).mods "x").dependantsToUnload
      = 0 ∧
    ((run exTreeE [Decision.callInit,
      Decision.complete .startInit (.ok .undefined),
      Decision.complete (.initOp "x") (.ok (.vnum 1)),
      Decision.complete (.initOp "g") (.fail (.vobj 9)),
      Decision.complete (.deinitOp "x") (.ok .undefined),
      Decision.complete (.initOp "f") (.ok (.vnum 2)),
      Decision.complete (.deinitOp "f") (.fail (.vobj 8))]).mods "f").state
      = State.error ∧
    (run exTreeE [Decision.callInit,
      Decision.complete .startInit (.ok .undefined),
      Decision.complete (.initOp "x") (.ok (.vnum 1)),
      Decision.complete (.initOp "g") (.fail (.vobj 9)),
      Decision.complete (.deinitOp "x") (.ok .undefined),
      Decision.complete (.initOp "f") (.ok (.vnum 2)),
      Decision.complete (.deinitOp "f") (.fail (.vobj 8))]).state = State.down := by
  refine ⟨?_, ?_, ?_, ?_, ?_⟩ <;> decide

/-- C7 (amended): when a module's deinit operation fails while the tree is
deinitializing, the module is marked `error`, the error is stored on the
module, appended to the tree's error list and reported, and the unwind
proceeds exactly as on success: the unload count is decremented; if it
reaches zero or below the tree transitions to `down` at once (skipping the
cascade loop, so the failing module's dependencies are then not decremented);
otherwise the tree stays `deinitializing` and each dependency of the module
has its `dependantsToUnload` decremented, with any dependency reaching zero
or below fed to the deinit scheduler. -/
theorem deinit_failure_cascade (t : DepsTree) (k : String) (e : Value)
    (hstate : t.state = State.deinitializing)
    (hself : k ∉ (t.mods k).dependencies)
    (hnd : ((t.mods k).dependencies).Nodup) :
    ((t._deinitOpComplete k (.fail e)).mods k).state = State.error ∧
    ((t._deinitOpComplete k (.fail e)).mods k).error = some e ∧
    (t._deinitOpComplete k (.fail e)).errors = t.errors ++ [e] ∧
    Event.errorEv e k ∈ (t._deinitOpComplete k (.fail e)).events ∧
    (t._deinitOpComplete k (.fail e)).modulesToUnload = t.modulesToUnload - 1 ∧
    (t.modulesToUnload - 1 ≤ 0 →
      (t._deinitOpComplete k (.fail e)).state = State.down ∧
      (t._deinitOpComplete k (.fail e)).deinitResolved = true ∧
      Event.stoppedEv ∈ (t._deinitOpComplete k (.fail e)).events) ∧
    (¬ t.modulesToUnload - 1 ≤ 0 →
      (t._deinitOpComplete k (.fail e)).state = State.deinitializing ∧
      ∀ d ∈ (t.mods k).dependencies,
        ((t._deinitOpComplete k (.fail e)).mods d).dependantsToUnload =
          (t.mods d).dependantsToUnload - 1 ∧
        ((t.mods d).dependantsToUnload - 1 ≤ 0 →
          PendingTask.deinitOp d ∈ (t._deinitOpComplete k (.fail e)).pending)) := by
  have hFMk : (deinitFailMark t k e).mods k =
      { t.mods k with state := State.error, error := some e } := by
    show (if k = k then _ else _) = _
    rw [if_pos rfl]
    show ({ (if k = k then ({ t.mods k with state := State.error } : ModuleRT)
      else t.mods k) with error := some e } : ModuleRT) = _
    rw [if_pos rfl]
  have hFMm : ∀ m, m ≠ k → (deinitFailMark t k e).mods m = t.mods m := by
    intro m hm
    show (if m = k then _ else (if m = k then _ else t.mods m)) = _
    rw [if_neg hm, if_neg hm]
  rw [deinitOpComplete_fail_deinitializing t k e hstate]
  unfold deinitCompleteTail
  dsimp only
  split
  case isTrue hc' =>
    refine ⟨?_, ?_, rfl, ?_, rfl, ?_, ?_⟩
    · show ((deinitFailMark t k e).mods k).state = State.error
      rw [hFMk]
    · show ((deinitFailMark t k e).mods k).error = some e
      rw [hFMk]
    · show Event.errorEv e k ∈ Event.stoppedEv :: Event.stateEv State.down ::
        Event.errorEv e k :: Event.moduleStateEv k State.error :: t.events
      exact List.mem_cons_of_mem _
        (List.mem_cons_of_mem _ (List.mem_cons_self _ _))
    · intro _
      exact ⟨rfl, rfl, List.mem_cons_self _ _⟩
    · intro hn
      exact absurd (by exact hc') hn
  case isFalse hc' =>
    have hdeps : (({ deinitFailMark t k e with
        modulesToUnload := (deinitFailMark t k e).modulesToUnload - 1
        } : DepsTree).mods k).dependencies = (t.mods k).dependencies := by
      show ((deinitFailMark t k e).mods k).dependencies = _
      rw [hFMk]
    rw [hdeps]
    have hself2 : k ∉ (t.mods k).dependencies := hself
    refine ⟨?_, ?_, ?_, ?_, ?_, ?_, ?_⟩
    · rw [foldl_cascade_mods_not_mem _ _ k hself2]
      show ((deinitFailMark t k e).mods k).state = State.error
      rw [hFMk]
    · rw [foldl_cascade_mods_not_mem _ _ k hself2]
      show ((deinitFailMark t k e).mods k).error = some e
      rw [hFMk]
    · rw [foldl_cascade_errors]
      rfl
    · refine foldl_cascade_events _ _ _ ?_
      show Event.errorEv e k ∈ Event.errorEv e k ::
        Event.moduleStateEv k State.error :: t.events
      exact List.mem_cons_self _ _
    · rw [foldl_cascade_mtu]
      rfl
    · intro hcpos
      exact absurd hcpos (by exact hc')
    · intro _
      constructor
      · refine (state_foldl state_cascadeStep _ _).trans ?_
        exact hstate
      · intro d hd
        have hdk : d ≠ k := fun hde => hself (hde ▸ hd)
        have h := cascade_fold_spec (t.mods k).dependencies hnd
          ({ deinitFailMark t k e with
            modulesToUnload := (deinitFailMark t k e).modulesToUnload - 1
            } : DepsTree) d hd
        have hd2 : (({ deinitFailMark t k e with
            modulesToUnload := (deinitFailMark t k e).modulesToUnload - 1
            } : DepsTree).mods d) = t.mods d := hFMm d hdk
        rw [hd2] at h
        exact h

/-- C7 witness: the counterexample trace's final step satisfies the amended
theorem — the failure is recorded and the tree reaches `down`. -/
theorem deinit_failure_cascade_witness :
    ((run exTreeE [Decision.callInit,
      Decision.complete .startInit (.ok .undefined),
      Decision.complete (.initOp "x") (.ok (.vnum 1)),
      Decision.complete (.initOp "g") (.fail (.vobj 9)),
      Decision.complete (.deinitOp "x") (.ok .undefined),
      Decision.complete (.initOp "f") (.ok (.vnum 2))])._deinitOpComplete "f"
      (.fail (.vobj 8))).state = State.down ∧
    (((run exTreeE [Decision.callInit,
      Decision.complete .startInit (.ok .undefined),
      Decision.complete (.initOp "x") (.ok (.vnum 1)),
      Decision.complete (.initOp "g") (.fail (.vobj 9)),
      Decision.complete (.deinitOp "x") (.ok .undefined),
      Decision.complete (.initOp "f") (.ok (.vnum 2))])._deinitOpComplete "f"
      (.fail (.vobj 8))).mods "f").state = State.error := by
  have h := deinit_failure_cascade (run exTreeE [Decision.callInit,
    Decision.complete .startInit (.ok .undefined),
    Decision.complete (.initOp "x") (.ok (.vnum 1)),
    Decision.complete (.initOp "g") (.fail (.vobj 9)),
    Decision.complete (.deinitOp "x") (.ok .undefined),
    Decision.complete (.initOp "f") (.ok (.vnum 2))]) "f" (.vobj 8)
    (by decide) (by decide) (by decide)
  exact ⟨(h.2.2.2.2.2.1 (by decide)).1, h.1⟩

/-! ### C3: the `init()` state table -/

lemma state_initOpComplete_cases (t : DepsTree) (n : String) (o : Outcome) :
    (t._initOpComplete n o).state = t.state ∨
    (t._initOpComplete n o).state = State.up ∨
    (t._initOpComplete n o).state = State.down ∨
    (t._initOpComplete n o).state = State.deinitializing := by
  unfold DepsTree._initOpComplete
  cases o with
  | ok v =>
    dsimp only
    rcases state_moduleInited (t.updMod n fun m =>
        { m with data := if m.data.truthy then m.data else v }) n with h1 | h1 <;>
      rw [h1]
    · left; exact state_updMod _ _ _
    · right; left; rfl
  | fail e =>
    dsimp only
    rcases state_error_handler (((({ t with modulesToUnload := t.modulesToUnload - 1
        } : DepsTree))._changeModuleState n .error).updMod n
        (fun m => { m with error := some e })) e (some n) with h1 | h1 | h1 <;> rw [h1]
    · left; exact (state_updMod _ _ _).trans (state_chgMod _ _ _)
    · right; right; left; rfl
    · right; right; right; rfl

lemma state_deinitCompleteTail_cases (n : String) (t1 : DepsTree) :
    (deinitCompleteTail n t1).state = t1.state ∨
    (deinitCompleteTail n t1).state = State.down := by
  unfold deinitCompleteTail
  dsimp only
  split
  case isTrue => right; rfl
  case isFalse => left; exact state_foldl state_cascadeStep _ _

lemma state_deinitOpComplete_cases (t : DepsTree) (n : String) (o : Outcome) :
    (t._deinitOpComplete n o).state = t.state ∨
    (t._deinitOpComplete n o).state = State.down ∨
    (t._deinitOpComplete n o).state = State.deinitializing := by
  rw [deinitOpComplete_eq_tail]
  cases o with
  | ok v =>
    rcases state_deinitCompleteTail_cases n (t._changeModuleState n .down) with h | h <;>
      rw [h]
    · left; exact state_chgMod _ _ _
    · right; left; rfl
  | fail e =>
    rcases state_deinitCompleteTail_cases n (((t._changeModuleState n .error).updMod n
        (fun m => { m with error := some e }))._error e (some n)) with h | h <;> rw [h]
    · rcases state_error_handler ((t._changeModuleState n .error).updMod n
          (fun m => { m with error := some e })) e (some n) with h2 | h2 | h2 <;> rw [h2]
      · left; exact (state_updMod _ _ _).trans (state_chgMod _ _ _)
      · right; left; rfl
      · right; right; rfl
    · right; left; rfl

lemma step_complete_mem (t : DepsTree) (task : PendingTask) (o : Outcome)
    (h : task ∈ t.pending) :
    step t (.complete task o) =
      DepsTree.runTask { t with pending := t.pending.erase task } task o := by
  unfold step
  dsimp only
  rw [if_pos h]

lemma step_complete_not_mem (t : DepsTree) (task : PendingTask) (o : Outcome)
    (h : task ∉ t.pending) : step t (.complete task o) = t := by
  unfold step
  dsimp only
  rw [if_neg h]

/-- Every tree state a `step` can produce: the old state, or one of the four
values that `_changeState` is ever called with. -/
lemma step_state_cases (t : DepsTree) (d : Decision) :
    (step t d).state = t.state ∨ (step t d).state = State.initializing ∨
    (step t d).state = State.up ∨ (step t d).state = State.down ∨
    (step t d).state = State.deinitializing := by
  cases d with
  | callInit =>
    cases hs : t.state
    case off =>
      right; left
      show (t.init).1.state = State.initializing
      rw [init_eq_off t hs]
      rfl
    case initializing =>
      left
      show (t.init).1.state = State.initializing
      rw [init_eq_initializing t hs]
      exact hs
    case up =>
      left
      show (t.init).1.state = State.up
      rw [init_eq_up t hs]
      exact hs
    case deinitializing =>
      left
      show (t.init).1.state = State.deinitializing
      rw [init_eq_deinitializing t hs]
      exact hs
    case down =>
      left
      show (t.init).1.state = State.down
      rw [init_eq_down t hs]
      exact hs
    case error =>
      left
      show (t.init).1.state = State.error
      rw [init_eq_error t hs]
      exact hs
  | callDeinit =>
    rcases deinit_state t with h | h | h
    · left; exact h
    · right; right; right; left; exact h
    · right; right; right; right; exact h
  | complete task o =>
    by_cases hmem : task ∈ t.pending
    · rw [step_complete_mem t task o hmem]
      cases task with
      | startInit =>
        left
        exact state_startInit _
      | initOp n =>
        rcases state_initOpComplete_cases
          ({ t with pending := t.pending.erase (.initOp n) }) n o with h | h | h | h
        · left; exact h
        · right; right; left; exact h
        · right; right; right; left; exact h
        · right; right; right; right; exact h
      | deinitOp n =>
        rcases state_deinitOpComplete_cases
          ({ t with pending := t.pending.erase (.deinitOp n) }) n o with h | h | h
        · left; exact h
        · right; right; right; left; exact h
        · right; right; right; right; exact h
    · rw [step_complete_not_mem t task o hmem]
      left
      rfl

lemma step_state_ne_off (t : DepsTree) (d : Decision) (h : t.state ≠ State.off) :
    (step t d).state ≠ State.off := by
  rcases step_state_cases t d with h1 | h1 | h1 | h1 | h1 <;> rw [h1]
  · exact h
  all_goals intro hc; cases hc

lemma initDefer_deinitLoopStep (a : DepsTree) (b : String) :
    (a.deinitLoopStep b).initDefer = a.initDefer := by
  unfold DepsTree.deinitLoopStep
  split <;> rfl

lemma initDefer_startInitStep (a : DepsTree) (b : String) :
    (a.startInitStep b).initDefer = a.initDefer := by
  unfold DepsTree.startInitStep
  split
  case isTrue =>
    dsimp only
    split <;> rfl
  case isFalse => rfl

lemma initDefer_readyStep (a : DepsTree) (b : String) :
    (a.readyStep b).initDefer = a.initDefer := by
  unfold DepsTree.readyStep
  dsimp only
  split <;> rfl

lemma initDefer_cascadeStep (a : DepsTree) (b : String) :
    (a.cascadeStep b).initDefer = a.initDefer := by
  unfold DepsTree.cascadeStep
  dsimp only
  split <;> rfl

lemma initDefer_foldl {β : Type} {f : DepsTree → β → DepsTree}
    (hf : ∀ a b, (f a b).initDefer = a.initDefer) (l : List β) (a : DepsTree) :
    (l.foldl f a).initDefer = a.initDefer := by
  induction l generalizing a with
  | nil => rfl
  | cons x xs ih => rw [List.foldl_cons, ih (f a x), hf]

lemma initDefer_deinit (t : DepsTree) : (t.deinit).1.initDefer = t.initDefer := by
  unfold DepsTree.deinit
  cases hs : t.state
  case off => rfl
  case error => rfl
  case down => rfl
  case deinitializing => rfl
  case initializing => exact initDefer_foldl initDefer_deinitLoopStep _ _
  case up => exact initDefer_foldl initDefer_deinitLoopStep _ _

lemma initDefer_error (t : DepsTree) (e : Value) (n : Option String) :
    (t._error e n).initDefer = t.initDefer := initDefer_deinit _

lemma initDefer_moduleInited (t : DepsTree) (n : String) :
    (t._moduleInited n).initDefer = t.initDefer := by
  unfold DepsTree._moduleInited
  cases t.state
  case initializing =>
    dsimp only
    split
    case isTrue =>
      show (List.foldl DepsTree.incUnloadStep (t._changeModuleState n State.up)
        (t.mods n).dependencies).initDefer = t.initDefer
      exact initDefer_foldl (f := DepsTree.incUnloadStep) (fun a b => rfl) _ _
    case isFalse =>
      refine (initDefer_foldl initDefer_readyStep _ _).trans ?_
      show (List.foldl DepsTree.incUnloadStep (t._changeModuleState n State.up)
        (t.mods n).dependencies).initDefer = t.initDefer
      exact initDefer_foldl (f := DepsTree.incUnloadStep) (fun a b => rfl) _ _
  case deinitializing => rfl
  all_goals rfl

lemma initDefer_initOpComplete (t : DepsTree) (n : String) (o : Outcome) :
    (t._initOpComplete n o).initDefer = t.initDefer := by
  unfold DepsTree._initOpComplete
  cases o with
  | ok v => exact initDefer_moduleInited _ _
  | fail e => exact initDefer_error _ _ _

lemma initDefer_deinitOpComplete (t : DepsTree) (n : String) (o : Outcome) :
    (t._deinitOpComplete n o).initDefer = t.initDefer := by
  rw [deinitOpComplete_eq_tail]
  have htail : ∀ t1 : DepsTree, (deinitCompleteTail n t1).initDefer = t1.initDefer := by
    intro t1
    unfold deinitCompleteTail
    dsimp only
    split
    case isTrue => rfl
    case isFalse => exact initDefer_foldl initDefer_cascadeStep _ _
  cases o with
  | ok v => exact htail _
  | fail e => exact (htail _).trans (initDefer_error _ _ _)

lemma step_initDefer (t : DepsTree) (d : Decision) (h : t.state ≠ State.off) :
    (step t d).initDefer = t.initDefer := by
  cases d with
  | callInit =>
    show (t.init).1.initDefer = t.initDefer
    cases hs : t.state
    case off => exact absurd hs h
    case initializing => rw [init_eq_initializing t hs]
    case up => rw [init_eq_up t hs]
    case deinitializing => rw [init_eq_deinitializing t hs]
    case down => rw [init_eq_down t hs]
    case error => rw [init_eq_error t hs]
  | callDeinit => exact initDefer_deinit t
  | complete task o =>
    show (if task ∈ t.pending then _ else t).initDefer = t.initDefer
    split
    case isFalse => rfl
    case isTrue =>
      cases task with
      | startInit => exact initDefer_foldl initDefer_startInitStep _ _
      | initOp n => exact initDefer_initOpComplete _ n o
      | deinitOp n => exact initDefer_deinitOpComplete _ n o

/-- Along any run from a tree that has left `off`, the tree never returns to
`off` and the init deferred promise reference never changes. -/
lemma run_ne_off_initDefer (t : DepsTree) (h : t.state ≠ State.off)
    (ds : List Decision) :
    (run t ds).state ≠ State.off ∧ (run t ds).initDefer = t.initDefer :=
  foldl_pres (P := fun x => x.state ≠ State.off ∧ x.initDefer = t.initDefer)
    (fun a b ha => ⟨step_state_ne_off a b ha.1, (step_initDefer a b ha.1).trans ha.2⟩)
    ds t ⟨h, rfl⟩

/-- C3: `init()` follows the tree state table.  From a constructed tree (state
`off`) the first call moves the tree to `initializing` and returns a new
pending handle (the freshly allocated deferred promise, unresolved, with the
scheduling microtask queued).  Afterwards, along every run: a call while
`initializing` returns the same tree and the same handle as the first call; a
call while `up` returns an immediately-resolved result; and a call while
`deinitializing`, `down`, or `error` throws (`invalidState`), leaving the
tree unchanged. -/
theorem init_state_table (descs : List (String × ModuleDescription))
    (t0 t1 : DepsTree) (r : DepsTree.InitResult) (h : DepsTree.new descs = .ok t0)
    (hinit : t0.init = (t1, r)) :
    r = DepsTree.InitResult.pending t0.nextId ∧
    t1.state = State.initializing ∧
    t1.initDefer = some t0.nextId ∧
    t1.initResolved = false ∧
    PendingTask.startInit ∈ t1.pending ∧
    ∀ ds,
      ((run t1 ds).state = State.initializing →
        (run t1 ds).init = (run t1 ds, DepsTree.InitResult.pending t0.nextId)) ∧
      ((run t1 ds).state = State.up →
        (run t1 ds).init = (run t1 ds, DepsTree.InitResult.resolved)) ∧
      ((run t1 ds).state = State.deinitializing ∨ (run t1 ds).state = State.down ∨
        (run t1 ds).state = State.error →
        (run t1 ds).init = (run t1 ds, DepsTree.InitResult.invalidState)) := by
  have hoff : t0.state = State.off := new_state_off descs t0 h
  rw [init_eq_off t0 hoff] at hinit
  have ht1 : t1 = ({ t0._changeState .initializing with
      initDefer := some t0.nextId, initResolved := false,
      nextId := (t0._changeState .initializing).nextId + 1, modulesToLoad := 0,
      pending := .startInit :: (t0._changeState .initializing).pending } : DepsTree) :=
    (congrArg Prod.fst hinit).symm
  have hrr : r = DepsTree.InitResult.pending t0.nextId :=
    (congrArg Prod.snd hinit).symm
  subst ht1
  refine ⟨hrr, rfl, rfl, rfl, List.mem_cons_self _ _, ?_⟩
  intro ds
  have hkeep := run_ne_off_initDefer ({ t0._changeState .initializing with
      initDefer := some t0.nextId, initResolved := false,
      nextId := (t0._changeState .initializing).nextId + 1, modulesToLoad := 0,
      pending := .startInit :: (t0._changeState .initializing).pending } : DepsTree)
    (by intro hc; cases hc) ds
  refine ⟨?_, ?_, ?_⟩
  · intro hs
    rw [init_eq_initializing _ hs, hkeep.2]
    rfl
  · intro hs
    rw [init_eq_up _ hs]
  · intro hs
    rcases hs with hs | hs | hs
    · rw [init_eq_deinitializing _ hs]
    · rw [init_eq_down _ hs]
    · rw [init_eq_error _ hs]

/-- C3 witness: the state table applied to a concrete constructed tree. -/
theorem init_state_table_witness :
    (exTreeC.init).2 = DepsTree.InitResult.pending exTreeC.nextId ∧
    ((exTreeC.init).1).state = State.initializing ∧
    PendingTask.startInit ∈ ((exTreeC.init).1).pending := by
  have h := init_state_table exDescsC exTreeC (exTreeC.init).1 (exTreeC.init).2
    exTreeC_new rfl
  exact ⟨h.1, h.2.1, h.2.2.2.2.1⟩

/-! ### C6: notifications -/

lemma latestModuleState_cons_self (k : String) (s : State) (evs : List Event) :
    latestModuleState k (Event.moduleStateEv k s :: evs) = s := by
  show (if k = k then s else latestModuleState k evs) = s
  rw [if_pos rfl]

lemma latestModuleState_cons_other (k k2 : String) (s : State) (evs : List Event)
    (h : k2 ≠ k) :
    latestModuleState k (Event.moduleStateEv k2 s :: evs) =
      latestModuleState k evs := by
  show (if k2 = k then s else latestModuleState k evs) = latestModuleState k evs
  rw [if_neg h]

lemma latestModuleState_cons_stateEv (k : String) (s : State) (evs : List Event) :
    latestModuleState k (Event.stateEv s :: evs) = latestModuleState k evs := rfl

lemma latestModuleState_cons_started (k : String) (evs : List Event) :
    latestModuleState k (Event.startedEv :: evs) = latestModuleState k evs := rfl

lemma latestModuleState_cons_stopped (k : String) (evs : List Event) :
    latestModuleState k (Event.stoppedEv :: evs) = latestModuleState k evs := rfl

lemma latestModuleState_cons_errorEv (k : String) (e : Value) (n : String)
    (evs : List Event) :
    latestModuleState k (Event.errorEv e n :: evs) = latestModuleState k evs := rfl

lemma latestTreeState_cons_stateEv (s : State) (evs : List Event) :
    latestTreeState (Event.stateEv s :: evs) = s := rfl

lemma latestTreeState_cons_moduleStateEv (k : String) (s : State) (evs : List Event) :
    latestTreeState (Event.moduleStateEv k s :: evs) = latestTreeState evs := rfl

lemma latestTreeState_cons_started (evs : List Event) :
    latestTreeState (Event.startedEv :: evs) = latestTreeState evs := rfl

lemma latestTreeState_cons_stopped (evs : List Event) :
    latestTreeState (Event.stoppedEv :: evs) = latestTreeState evs := rfl

lemma latestTreeState_cons_errorEv (e : Value) (n : String) (evs : List Event) :
    latestTreeState (Event.errorEv e n :: evs) = latestTreeState evs := rfl

lemma upStarted_cons (e : Event) (evs : List Event)
    (he : e ≠ Event.stateEv State.up) (hold : UpStarted evs) :
    UpStarted (e :: evs) := by
  intro l1 l2 h
  cases l1 with
  | nil =>
    rw [List.nil_append] at h
    exact absurd (List.head_eq_of_cons_eq h).symm (fun hc => he hc.symm)
  | cons x l1t =>
    rw [List.cons_append] at h
    have hevs : evs = l1t ++ Event.stateEv State.up :: l2 :=
      List.tail_eq_of_cons_eq h
    have hlast := hold l1t l2 hevs
    cases l1t with
    | nil => cases hlast
    | cons y l1tt => rw [List.getLast?_cons_cons]; exact hlast

lemma downStopped_cons (e : Event) (evs : List Event)
    (he : e ≠ Event.stateEv State.down) (hold : DownStopped evs) :
    DownStopped (e :: evs) := by
  intro l1 l2 h
  cases l1 with
  | nil =>
    rw [List.nil_append] at h
    exact absurd (List.head_eq_of_cons_eq h).symm (fun hc => he hc.symm)
  | cons x l1t =>
    rw [List.cons_append] at h
    have hevs : evs = l1t ++ Event.stateEv State.down :: l2 :=
      List.tail_eq_of_cons_eq h
    rcases hold l1t l2 hevs with hlast | hl2
    · cases l1t with
      | nil => cases hlast
      | cons y l1tt => left; rw [List.getLast?_cons_cons]; exact hlast
    · right; exact hl2

lemma upStarted_pair (evs : List Event) (hold : UpStarted evs) :
    UpStarted (Event.startedEv :: Event.stateEv State.up :: evs) := by
  intro l1 l2 h
  cases l1 with
  | nil =>
    rw [List.nil_append] at h
    cases List.head_eq_of_cons_eq h
  | cons x l1t =>
    rw [List.cons_append] at h
    have hx : Event.startedEv = x := List.head_eq_of_cons_eq h
    have ht : Event.stateEv State.up :: evs = l1t ++ Event.stateEv State.up :: l2 :=
      List.tail_eq_of_cons_eq h
    cases l1t with
    | nil =>
      rw [← hx]
      rfl
    | cons y l1tt =>
      have hy : Event.stateEv State.up = y := List.head_eq_of_cons_eq ht
      have ht2 : evs = l1tt ++ Event.stateEv State.up :: l2 :=
        List.tail_eq_of_cons_eq ht
      have hlast := hold l1tt l2 ht2
      cases l1tt with
      | nil => cases hlast
      | cons z l3 =>
        rw [List.getLast?_cons_cons, List.getLast?_cons_cons]
        exact hlast

lemma downStopped_pair (evs : List Event) (hold : DownStopped evs) :
    DownStopped (Event.stoppedEv :: Event.stateEv State.down :: evs) := by
  intro l1 l2 h
  cases l1 with
  | nil =>
    rw [List.nil_append] at h
    cases List.head_eq_of_cons_eq h
  | cons x l1t =>
    rw [List.cons_append] at h
    have hx : Event.stoppedEv = x := List.head_eq_of_cons_eq h
    have ht : Event.stateEv State.down :: evs = l1t ++ Event.stateEv State.down :: l2 :=
      List.tail_eq_of_cons_eq h
    cases l1t with
    | nil =>
      left
      rw [← hx]
      rfl
    | cons y l1tt =>
      have ht2 : evs = l1tt ++ Event.stateEv State.down :: l2 :=
        List.tail_eq_of_cons_eq ht
      rcases hold l1tt l2 ht2 with hlast | hl2
      · cases l1tt with
        | nil => cases hlast
        | cons z l3 =>
          left
          rw [List.getLast?_cons_cons, List.getLast?_cons_cons]
          exact hlast
      · right
        exact hl2

/-! ### Constructor phase characterizations -/

lemma buildModules_state_off (descs : List (String × ModuleDescription)) :
    ∀ k, ((buildModules descs) k).state = State.off := by
  unfold buildModules
  refine foldl_pres (P := fun (mods : String → ModuleRT) => ∀ k, (mods k).state = State.off) ?_ descs _ ?_
  · intro a b ha k
    dsimp only
    split
    case isTrue => rfl
    case isFalse => exact ha k
  · intro k
    rfl

/-- A fold in the `Except` monad that succeeds preserves any property each
successful step preserves. -/
lemma foldlM_except_pres {α β γ : Type} {P : α → Prop} {f : α → β → Except γ α}
    (hf : ∀ a b a2, f a b = .ok a2 → P a → P a2) :
    ∀ (l : List β) (a a2 : α), l.foldlM f a = .ok a2 → P a → P a2 := by
  intro l
  induction l with
  | nil =>
    intro a a2 h ha
    cases h
    exact ha
  | cons x xs ih =>
    intro a a2 h ha
    rw [List.foldlM_cons] at h
    cases hfa : f a x with
    | error e =>
      rw [hfa] at h
      cases h
    | ok a1 =>
      rw [hfa] at h
      exact ih a1 a2 h (hf a x a1 hfa ha)

/-- `addDependants` only ever changes `dependants` fields. -/
lemma addDependants_same (keys : List String) (mods m2 : String → ModuleRT)
    (h : addDependants keys mods = .ok m2) :
    ∀ k, m2 k = { mods k with dependants := (m2 k).dependants } := by
  unfold addDependants at h
  refine foldlM_except_pres (P := fun (m : String → ModuleRT) => ∀ k, m k =
    { mods k with dependants := (m k).dependants }) ?_ keys mods m2 h (fun k => rfl)
  intro a b a2 hstep ha
  refine foldlM_except_pres (P := fun (m : String → ModuleRT) => ∀ k, m k =
    { mods k with dependants := (m k).dependants }) ?_ _ a a2 hstep ha
  intro a3 d a4 hstep2 ha3
  split at hstep2
  case isTrue =>
    cases hstep2
    intro k
    unfold pushDependant
    dsimp only
    split
    case isTrue => rw [ha3 k]
    case isFalse => exact ha3 k
  case isFalse => cases hstep2

lemma setNeeded_same (mods : String → ModuleRT) (n : String) :
    ∀ k, (setNeeded mods n) k = { mods k with needed := ((setNeeded mods n) k).needed } := by
  intro k
  unfold setNeeded
  split <;> rfl

/-- `fillNeeded` only ever changes `needed` flags. -/
lemma fillNeeded_same (fuel : Nat) :
    ∀ (mods : String → ModuleRT) (n : String) (k : String),
      (fillNeeded fuel mods n) k =
        { mods k with needed := ((fillNeeded fuel mods n) k).needed } := by
  induction fuel with
  | zero => intro mods n k; rfl
  | succ fuel ih =>
    intro mods n
    show ∀ k, (((setNeeded mods n) n).dependencies.foldl _ (setNeeded mods n)) k = _
    refine foldl_pres (P := fun (m : String → ModuleRT) => ∀ k, m k =
      { mods k with needed := (m k).needed }) ?_ _ _ ?_
    · intro a b ha k
      dsimp only
      split
      case isTrue => exact ha k
      case isFalse =>
        rw [ih a b k, ha k]
    · exact setNeeded_same mods n

/-- The needed-closure loop only ever changes `needed` flags. -/
lemma neededLoop_same (keys : List String) (mods : String → ModuleRT) :
    ∀ k, (neededLoop keys mods) k =
      { mods k with needed := ((neededLoop keys mods) k).needed } := by
  unfold neededLoop
  refine foldl_pres (P := fun (m : String → ModuleRT) => ∀ k, m k =
    { mods k with needed := (m k).needed }) ?_ keys mods (fun k => rfl)
  intro a b ha k
  dsimp only
  split
  case isTrue =>
    rw [fillNeeded_same _ a b k, ha k]
  case isFalse => exact ha k

/-- Every module of a freshly constructed tree is `off`, with no error, no
`dependantsToUnload`, and `dependenciesToLoad` equal to its dependency count. -/
lemma new_mods_fields (descs : List (String × ModuleDescription)) (t : DepsTree)
    (h : DepsTree.new descs = .ok t) :
    ∀ k, (t.mods k).state = State.off ∧ (t.mods k).error = none ∧
      (t.mods k).dependantsToUnload = 0 ∧
      (t.mods k).dependencies = ((buildModules descs) k).dependencies ∧
      (t.mods k).data = ((buildModules descs) k).data ∧
      (t.mods k).dependenciesToLoad =
        (((buildModules descs) k).dependencies.length : Int) := by
  obtain ⟨m1, hadd, ht⟩ := new_eq descs t h
  intro k
  have h1 := addDependants_same _ _ _ hadd k
  have h2 := neededLoop_same (descs.map Prod.fst) m1 k
  have hmods : t.mods k = { m1 k with needed := (t.mods k).needed } := by
    rw [ht]
    exact h2
  rw [hmods, h1]
  have hb : ((buildModules descs) k).dependenciesToLoad =
      (((buildModules descs) k).dependencies.length : Int) ∧
      ((buildModules descs) k).state = State.off ∧
      ((buildModules descs) k).error = none ∧
      ((buildModules descs) k).dependantsToUnload = 0 := by
    unfold buildModules
    refine foldl_pres (P := fun (mods : String → ModuleRT) => (mods k).dependenciesToLoad =
      ((mods k).dependencies.length : Int) ∧ (mods k).state = State.off ∧
      (mods k).error = none ∧ (mods k).dependantsToUnload = 0) ?_ descs _ ?_
    · intro a b ha
      dsimp only
      split
      case isTrue => exact ⟨rfl, rfl, rfl, rfl⟩
      case isFalse => exact ha
    · exact ⟨rfl, rfl, rfl, rfl⟩
  exact ⟨hb.2.1, hb.2.2.1, hb.2.2.2, rfl, rfl, hb.1⟩

lemma upStarted_nil : UpStarted [] := by
  intro l1 l2 h
  simp at h

lemma downStopped_nil : DownStopped [] := by
  intro l1 l2 h
  simp at h

lemma EvCore_chgMod (t : DepsTree) (n : String) (s : State) (h : EvCore t) :
    EvCore (t._changeModuleState n s) := by
  refine ⟨?_, ?_, ?_, ?_⟩
  · intro k
    by_cases hk : k = n
    · subst hk
      rw [chgMod_mods, if_pos rfl, chgMod_events, latestModuleState_cons_self]
    · rw [chgMod_mods, if_neg hk, chgMod_events,
        latestModuleState_cons_other _ _ _ _ (fun he => hk he.symm)]
      exact h.moduleLatest k
  · rw [state_chgMod, chgMod_events, latestTreeState_cons_moduleStateEv]
    exact h.treeLatest
  · rw [chgMod_events]
    exact upStarted_cons _ _ (fun hc => by cases hc) h.upStarted
  · rw [chgMod_events]
    exact downStopped_cons _ _ (fun hc => by cases hc) h.downStopped

lemma EvCore_initModule (t : DepsTree) (n : String) (h : EvCore t) :
    EvCore (t._initModule n) := by
  have h2 := EvCore_chgMod t n .initializing h
  exact ⟨h2.moduleLatest, h2.treeLatest, h2.upStarted, h2.downStopped⟩

lemma EvCore_deinitModule (t : DepsTree) (n : String) (h : EvCore t) :
    EvCore (t._deinitModule n) := by
  have h2 := EvCore_chgMod t n .deinitializing h
  exact ⟨h2.moduleLatest, h2.treeLatest, h2.upStarted, h2.downStopped⟩

lemma EvCore_updMod_statePres (t : DepsTree) (n : String) (f : ModuleRT → ModuleRT)
    (hf : ∀ m, (f m).state = m.state) (h : EvCore t) : EvCore (t.updMod n f) := by
  refine ⟨?_, h.treeLatest, h.upStarted, h.downStopped⟩
  intro k
  rw [updMod_mods]
  split
  case isTrue => rw [hf (t.mods k)]; exact h.moduleLatest k
  case isFalse => exact h.moduleLatest k

lemma EvCore_chgState_single (t : DepsTree) (s : State) (hup : s ≠ State.up)
    (hdown : s ≠ State.down) (h : EvCore t) : EvCore (t._changeState s) := by
  refine ⟨?_, rfl, ?_, ?_⟩
  · intro k
    show (t.mods k).state = latestModuleState k (Event.stateEv s :: t.events)
    rw [latestModuleState_cons_stateEv]
    exact h.moduleLatest k
  · show UpStarted (Event.stateEv s :: t.events)
    exact upStarted_cons _ _ (fun hc => hup (Event.stateEv.inj hc)) h.upStarted
  · show DownStopped (Event.stateEv s :: t.events)
    exact downStopped_cons _ _ (fun hc => hdown (Event.stateEv.inj hc)) h.downStopped

lemma EvCore_upPair (t2 tx : DepsTree) (h : EvCore t2) (hm : tx.mods = t2.mods)
    (hs : tx.state = State.up)
    (he : tx.events = Event.startedEv :: Event.stateEv State.up :: t2.events) :
    EvCore tx := by
  refine ⟨?_, ?_, ?_, ?_⟩
  · intro k
    rw [hm, he, latestModuleState_cons_started, latestModuleState_cons_stateEv]
    exact h.moduleLatest k
  · rw [hs, he]
    rfl
  · rw [he]
    exact upStarted_pair _ h.upStarted
  · rw [he]
    exact downStopped_cons _ _ (fun hc => by cases hc)
      (downStopped_cons _ _ (fun hc => by cases hc) h.downStopped)

lemma EvCore_downPair (t2 tx : DepsTree) (h : EvCore t2) (hm : tx.mods = t2.mods)
    (hs : tx.state = State.down)
    (he : tx.events = Event.stoppedEv :: Event.stateEv State.down :: t2.events) :
    EvCore tx := by
  refine ⟨?_, ?_, ?_, ?_⟩
  · intro k
    rw [hm, he, latestModuleState_cons_stopped, latestModuleState_cons_stateEv]
    exact h.moduleLatest k
  · rw [hs, he]
    rfl
  · rw [he]
    exact upStarted_cons _ _ (fun hc => by cases hc)
      (upStarted_cons _ _ (fun hc => by cases hc) h.upStarted)
  · rw [he]
    exact downStopped_pair _ h.downStopped

lemma EvCore_offDown (t : DepsTree) (h : EvCore t) (he : t.events = []) :
    EvCore (t._changeState .down) := by
  refine ⟨?_, rfl, ?_, ?_⟩
  · intro k
    have hm := h.moduleLatest k
    rw [he] at hm
    show (t.mods k).state = latestModuleState k (Event.stateEv State.down :: t.events)
    rw [he]
    exact hm
  · show UpStarted (Event.stateEv State.down :: t.events)
    rw [he]
    exact upStarted_cons _ _ (fun hc => by cases hc) upStarted_nil
  · show DownStopped (Event.stateEv State.down :: t.events)
    rw [he]
    intro l1 l2 hsplit
    cases l1 with
    | nil =>
      right
      exact (List.tail_eq_of_cons_eq hsplit).symm
    | cons x l1t =>
      rw [List.cons_append] at hsplit
      have := List.tail_eq_of_cons_eq hsplit
      simp at this

lemma EvCore_deinitLoopStep (a : DepsTree) (b : String) (h : EvCore a) :
    EvCore (a.deinitLoopStep b) := by
  unfold DepsTree.deinitLoopStep
  split
  case isTrue => exact EvCore_deinitModule a b h
  case isFalse => exact h

lemma EvCore_deinit (t : DepsTree) (h : EvCore t)
    (hoffE : t.state = State.off → t.events = []) : EvCore (t.deinit).1 := by
  cases hs : t.state
  case off =>
    rw [deinit_eq_off t hs]
    exact EvCore_offDown t h (hoffE hs)
  case error => rw [deinit_eq_error t hs]; exact h
  case down => rw [deinit_eq_down t hs]; exact h
  case deinitializing => rw [deinit_eq_deinitializing t hs]; exact h
  case initializing =>
    rw [deinit_eq_initializing t hs]
    dsimp only
    refine foldl_pres (P := EvCore) (fun a b ha => EvCore_deinitLoopStep a b ha) _ _ ?_
    have h1 := EvCore_chgState_single t .deinitializing (by decide) (by decide) h
    exact ⟨h1.moduleLatest, h1.treeLatest, h1.upStarted, h1.downStopped⟩
  case up =>
    rw [deinit_eq_up t hs]
    dsimp only
    refine foldl_pres (P := EvCore) (fun a b ha => EvCore_deinitLoopStep a b ha) _ _ ?_
    have h1 := EvCore_chgState_single t .deinitializing (by decide) (by decide) h
    exact ⟨h1.moduleLatest, h1.treeLatest, h1.upStarted, h1.downStopped⟩

lemma deinit_state_ne_off (t : DepsTree) : (t.deinit).1.state ≠ State.off := by
  cases hs : t.state
  case off =>
    rw [deinit_eq_off t hs]
    intro hc
    cases hc
  case error =>
    rw [deinit_eq_error t hs]
    rw [hs]
    intro hc
    cases hc
  case down =>
    rw [deinit_eq_down t hs]
    rw [hs]
    intro hc
    cases hc
  case deinitializing =>
    rw [deinit_eq_deinitializing t hs]
    rw [hs]
    intro hc
    cases hc
  case initializing =>
    rw [deinit_eq_initializing t hs]
    dsimp only
    rw [state_foldl state_deinitLoopStep]
    intro hc
    cases hc
  case up =>
    rw [deinit_eq_up t hs]
    dsimp only
    rw [state_foldl state_deinitLoopStep]
    intro hc
    cases hc

lemma EvCore_error (t : DepsTree) (e : Value) (n : Option String) (h : EvCore t)
    (hne : t.state ≠ State.off) : EvCore (t._error e n) := by
  show EvCore ((({ t with
      events := Event.errorEv e (n.getD "") :: t.events,
      errors := t.errors ++ [e] } : DepsTree)).deinit).1
  refine EvCore_deinit _ ⟨?_, ?_, ?_, ?_⟩ (fun hc => absurd hc hne)
  · intro k
    show (t.mods k).state =
      latestModuleState k (Event.errorEv e (n.getD "") :: t.events)
    rw [latestModuleState_cons_errorEv]
    exact h.moduleLatest k
  · show t.state = latestTreeState (Event.errorEv e (n.getD "") :: t.events)
    rw [latestTreeState_cons_errorEv]
    exact h.treeLatest
  · show UpStarted (Event.errorEv e (n.getD "") :: t.events)
    exact upStarted_cons _ _ (fun hc => by cases hc) h.upStarted
  · show DownStopped (Event.errorEv e (n.getD "") :: t.events)
    exact downStopped_cons _ _ (fun hc => by cases hc) h.downStopped

lemma EvCore_startInitStep (a : DepsTree) (b : String) (h : EvCore a) :
    EvCore (a.startInitStep b) := by
  unfold DepsTree.startInitStep
  split
  case isTrue =>
    dsimp only
    split
    case isTrue =>
      refine EvCore_initModule _ b ⟨h.moduleLatest, h.treeLatest, h.upStarted,
        h.downStopped⟩
    case isFalse =>
      exact ⟨h.moduleLatest, h.treeLatest, h.upStarted, h.downStopped⟩
  case isFalse => exact h

lemma EvCore_startInit (t : DepsTree) (h : EvCore t) : EvCore (t._startInit) := by
  unfold DepsTree._startInit
  exact foldl_pres (P := EvCore) (fun a b ha => EvCore_startInitStep a b ha) _ _ h

lemma moduleInited_eq_default (t : DepsTree) (n : String)
    (h1 : t.state ≠ State.initializing) (h2 : t.state ≠ State.deinitializing) :
    t._moduleInited n = t := by
  unfold DepsTree._moduleInited
  cases hs : t.state
  case initializing => exact absurd hs h1
  case deinitializing => exact absurd hs h2
  all_goals rfl

lemma EvCore_readyStep (a : DepsTree) (b : String) (h : EvCore a) :
    EvCore (a.readyStep b) := by
  unfold DepsTree.readyStep
  dsimp only
  split
  case isTrue =>
    exact EvCore_initModule _ b (EvCore_updMod_statePres a b _ (fun _ => rfl) h)
  case isFalse => exact EvCore_updMod_statePres a b _ (fun _ => rfl) h

lemma EvCore_incUnloadStep (a : DepsTree) (b : String) (h : EvCore a) :
    EvCore (a.incUnloadStep b) :=
  EvCore_updMod_statePres a b _ (fun _ => rfl) h

lemma EvCore_moduleInited (t : DepsTree) (n : String) (h : EvCore t) :
    EvCore (t._moduleInited n) := by
  by_cases hs1 : t.state = State.initializing
  · rw [moduleInited_eq_initializing t n hs1]
    dsimp only
    have h2 : EvCore ((t.mods n).dependencies.foldl DepsTree.incUnloadStep
        (t._changeModuleState n .up)) :=
      foldl_pres (P := EvCore) (fun a b ha => EvCore_incUnloadStep a b ha) _ _
        (EvCore_chgMod t n .up h)
    split
    · exact EvCore_upPair _ _ h2 rfl rfl rfl
    · refine foldl_pres (P := EvCore) (fun a b ha => EvCore_readyStep a b ha) _ _ ?_
      exact ⟨h2.moduleLatest, h2.treeLatest, h2.upStarted, h2.downStopped⟩
  · by_cases hs2 : t.state = State.deinitializing
    · rw [moduleInited_eq_deinitializing t n hs2]
      exact EvCore_deinitModule t n h
    · rw [moduleInited_eq_default t n hs1 hs2]
      exact h

lemma EvCore_initOpComplete (t : DepsTree) (n : String) (o : Outcome)
    (h : EvCore t) (hne : t.state ≠ State.off) :
    EvCore (t._initOpComplete n o) := by
  cases o with
  | ok v =>
    show EvCore (DepsTree._moduleInited _ n)
    exact EvCore_moduleInited _ n (EvCore_updMod_statePres t n _ (fun _ => rfl) h)
  | fail e =>
    show EvCore (DepsTree._error _ e (some n))
    refine EvCore_error _ e (some n) ?_ ?_
    · exact EvCore_updMod_statePres _ n _ (fun _ => rfl)
        (EvCore_chgMod ({ t with modulesToUnload := t.modulesToUnload - 1 }) n .error
          ⟨h.moduleLatest, h.treeLatest, h.upStarted, h.downStopped⟩)
    · exact hne

lemma EvCore_cascadeStep (a : DepsTree) (b : String) (h : EvCore a) :
    EvCore (a.cascadeStep b) := by
  unfold DepsTree.cascadeStep
  dsimp only
  split
  case isTrue =>
    exact EvCore_deinitModule _ b (EvCore_updMod_statePres a b _ (fun _ => rfl) h)
  case isFalse => exact EvCore_updMod_statePres a b _ (fun _ => rfl) h

lemma EvCore_deinitCompleteTail (n : String) (t1 : DepsTree) (h : EvCore t1) :
    EvCore (deinitCompleteTail n t1) := by
  unfold deinitCompleteTail
  dsimp only
  split
  · exact EvCore_downPair t1 _ h rfl rfl rfl
  · refine foldl_pres (P := EvCore) (fun a b ha => EvCore_cascadeStep a b ha) _ _ ?_
    exact ⟨h.moduleLatest, h.treeLatest, h.upStarted, h.downStopped⟩

lemma EvCore_deinitOpComplete (t : DepsTree) (n : String) (o : Outcome)
    (h : EvCore t) (hne : t.state ≠ State.off) :
    EvCore (t._deinitOpComplete n o) := by
  rw [deinitOpComplete_eq_tail]
  cases o with
  | ok v => exact EvCore_deinitCompleteTail n _ (EvCore_chgMod t n .down h)
  | fail e =>
    refine EvCore_deinitCompleteTail n _ ?_
    refine EvCore_error _ e (some n) ?_ ?_
    · exact EvCore_updMod_statePres _ n _ (fun _ => rfl) (EvCore_chgMod t n .error h)
    · exact hne

lemma state_ne_off_of_pending (t : DepsTree) (h : EvInv t) (task : PendingTask)
    (hmem : task ∈ t.pending) : t.state ≠ State.off := by
  intro hs
  rw [h.offPending hs] at hmem
  cases hmem

lemma EvInv_step (t : DepsTree) (d : Decision) (h : EvInv t) : EvInv (step t d) := by
  cases d with
  | callInit =>
    show EvInv (t.init).1
    cases hs : t.state
    case off =>
      rw [init_eq_off t hs]
      refine ⟨?_, ?_, ?_⟩
      · have h1 := EvCore_chgState_single t .initializing (by decide) (by decide) h.core
        exact ⟨h1.moduleLatest, h1.treeLatest, h1.upStarted, h1.downStopped⟩
      · intro hc
        cases hc
      · intro hc
        cases hc
    case initializing => rw [init_eq_initializing t hs]; exact h
    case up => rw [init_eq_up t hs]; exact h
    case deinitializing => rw [init_eq_deinitializing t hs]; exact h
    case down => rw [init_eq_down t hs]; exact h
    case error => rw [init_eq_error t hs]; exact h
  | callDeinit =>
    show EvInv (t.deinit).1
    refine ⟨EvCore_deinit t h.core h.offEmpty, ?_, ?_⟩
    · intro hc
      exact absurd hc (deinit_state_ne_off t)
    · intro hc
      exact absurd hc (deinit_state_ne_off t)
  | complete task o =>
    by_cases hmem : task ∈ t.pending
    · have hne : t.state ≠ State.off := state_ne_off_of_pending t h task hmem
      rw [step_complete_mem t task o hmem]
      have hcore : EvCore ({ t with pending := t.pending.erase task } : DepsTree) :=
        ⟨h.core.moduleLatest, h.core.treeLatest, h.core.upStarted, h.core.downStopped⟩
      have hne2 : ({ t with pending := t.pending.erase task } : DepsTree).state ≠
          State.off := hne
      cases task with
      | startInit =>
        refine ⟨EvCore_startInit _ hcore, ?_, ?_⟩
        · intro hc
          exact absurd ((state_startInit _).symm.trans hc) hne2
        · intro hc
          exact absurd ((state_startInit _).symm.trans hc) hne2
      | initOp n =>
        refine ⟨EvCore_initOpComplete _ n o hcore hne2, ?_, ?_⟩
        all_goals
          intro hc
          have hc2 : (DepsTree._initOpComplete
            ({ t with pending := t.pending.erase (.initOp n) }) n o).state =
              State.off := hc
          rcases state_initOpComplete_cases
            ({ t with pending := t.pending.erase (.initOp n) }) n o with
              h1 | h1 | h1 | h1
          · exact absurd (h1.symm.trans hc2) hne2
          all_goals cases h1.symm.trans hc2
      | deinitOp n =>
        refine ⟨EvCore_deinitOpComplete _ n o hcore hne2, ?_, ?_⟩
        all_goals
          intro hc
          have hc2 : (DepsTree._deinitOpComplete
            ({ t with pending := t.pending.erase (.deinitOp n) }) n o).state =
              State.off := hc
          rcases state_deinitOpComplete_cases
            ({ t with pending := t.pending.erase (.deinitOp n) }) n o with
              h1 | h1 | h1
          · exact absurd (h1.symm.trans hc2) hne2
          all_goals cases h1.symm.trans hc2
    · rw [step_complete_not_mem t task o hmem]
      exact h

lemma EvInv_run (t : DepsTree) (h : EvInv t) (ds : List Decision) :
    EvInv (run t ds) :=
  foldl_pres (P := EvInv) (fun a b ha => EvInv_step a b ha) ds t h

lemma EvInv_new (descs : List (String × ModuleDescription)) (t0 : DepsTree)
    (h : DepsTree.new descs = .ok t0) : EvInv t0 := by
  obtain ⟨m1, hadd, ht⟩ := new_eq descs t0 h
  have hmods := new_mods_fields descs t0 h
  refine ⟨⟨?_, ?_, ?_, ?_⟩, ?_, ?_⟩
  · intro k
    have he : t0.events = [] := by rw [ht]
    rw [he, (hmods k).1]
    rfl
  · have he : t0.events = [] := by rw [ht]
    rw [he, new_state_off descs t0 h]
    rfl
  · have he : t0.events = [] := by rw [ht]
    rw [he]
    exact upStarted_nil
  · have he : t0.events = [] := by rw [ht]
    rw [he]
    exact downStopped_nil
  · intro _
    rw [ht]
  · intro _
    rw [ht]

/-- C6 counterexample: calling `deinit()` on an `off` tree transitions the
tree state directly to `down` and emits the `state down` notification, but no
`stopped` notification is ever emitted — against the claim that every
transition to `down` (including this one) fires `stopped`. -/
theorem stopped_notification_counterexample :
    Event.stateEv State.down ∈ (run exTreeA [Decision.callDeinit]).events ∧
    (run exTreeA [Decision.callDeinit]).state = State.down ∧
    Event.stoppedEv ∉ (run exTreeA [Decision.callDeinit]).events := by
  refine ⟨?_, ?_, ?_⟩ <;> decide

/-- C6 (amended): along every run of a constructed tree, each module's state
and the tree state are exactly the newest values carried by the emitted
`module-state` / `state` notifications (so every state change is notified);
every `state up` notification is immediately followed by `started`; and every
`state down` notification is immediately followed by `stopped`, except when
it is the very first notification of the trace — the direct off-to-down
transition of `deinit()` on an `off` tree, which emits no `stopped`. -/
theorem notifications_consistent (descs : List (String × ModuleDescription))
    (t0 : DepsTree) (h : DepsTree.new descs = .ok t0) (ds : List Decision) :
    (∀ k, ((run t0 ds).mods k).state = latestModuleState k (run t0 ds).events) ∧
    (run t0 ds).state = latestTreeState (run t0 ds).events ∧
    UpStarted (run t0 ds).events ∧
    DownStopped (run t0 ds).events := by
  have hinv := EvInv_run t0 (EvInv_new descs t0 h) ds
  exact ⟨hinv.core.moduleLatest, hinv.core.treeLatest, hinv.core.upStarted,
    hinv.core.downStopped⟩

/-- C6 witness: the notification invariant at a concrete run that reaches
`up` (so a `started` adjacency is exercised). -/
theorem notifications_consistent_witness :
    (run exTreeA [Decision.callInit, Decision.complete .startInit (.ok .undefined),
      Decision.complete (.initOp "a") (.ok (.vnum 1))]).state =
      latestTreeState (run exTreeA [Decision.callInit,
        Decision.complete .startInit (.ok .undefined),
        Decision.complete (.initOp "a") (.ok (.vnum 1))]).events ∧
    UpStarted (run exTreeA [Decision.callInit,
      Decision.complete .startInit (.ok .undefined),
      Decision.complete (.initOp "a") (.ok (.vnum 1))]).events ∧
    DownStopped (run exTreeA [Decision.callInit,
      Decision.complete .startInit (.ok .undefined),
      Decision.complete (.initOp "a") (.ok (.vnum 1))]).events := by
  have h := notifications_consistent exDescsA exTreeA exTreeA_new
    [Decision.callInit, Decision.complete .startInit (.ok .undefined),
     Decision.complete (.initOp "a") (.ok (.vnum 1))]
  exact ⟨h.2.1, h.2.2.1, h.2.2.2⟩

/-! ### C8: a broken dependency name is rejected at construction -/

lemma buildModules_fold_not_mem (n : String) :
    ∀ (l : List (String × ModuleDescription)) (f : String → ModuleRT),
      n ∉ l.map Prod.fst →
      (l.foldl (fun acc nd => fun k => if k = nd.1 then mkRT nd.2 else acc k) f) n = f n := by
  intro l
  induction l with
  | nil => intro f _; rfl
  | cons x xs ih =>
    intro f hn
    rw [List.map_cons, List.mem_cons] at hn
    push_neg at hn
    rw [List.foldl_cons, ih _ hn.2]
    show (if n = x.1 then mkRT x.2 else f n) = f n
    exact if_neg hn.1

lemma buildModules_fold_mem (n : String) (d : ModuleDescription) :
    ∀ (l : List (String × ModuleDescription)) (f : String → ModuleRT),
      (l.map Prod.fst).Nodup → (n, d) ∈ l →
      (l.foldl (fun acc nd => fun k => if k = nd.1 then mkRT nd.2 else acc k) f) n = mkRT d := by
  intro l
  induction l with
  | nil => intro f _ hmem; cases hmem
  | cons x xs ih =>
    intro f hnd hmem
    rw [List.map_cons, List.nodup_cons] at hnd
    rw [List.foldl_cons]
    rcases List.mem_cons.mp hmem with hx | hmem2
    · cases hx
      rw [buildModules_fold_not_mem n xs _ hnd.1]
      show (if n = n then mkRT d else f n) = mkRT d
      exact if_pos rfl
    · exact ih _ hnd.2 hmem2

/-- With distinct names, the first constructor loop stores exactly the record
built from a module's description. -/
lemma buildModules_mem (descs : List (String × ModuleDescription)) (n : String)
    (d : ModuleDescription) (hnd : (descs.map Prod.fst).Nodup) (hmem : (n, d) ∈ descs) :
    buildModules descs n = mkRT d :=
  buildModules_fold_mem n d descs _ hnd hmem

/-- A name never assigned by the first constructor loop keeps the default record. -/
lemma buildModules_not_mem (descs : List (String × ModuleDescription)) (n : String)
    (hn : n ∉ descs.map Prod.fst) : buildModules descs n = defaultRT :=
  buildModules_fold_not_mem n descs _ hn

/-- If the dependency-checking inner loop of the second constructor loop
succeeds, every dependency name it walked is a known module name. -/
lemma depCheck_fold_mem (keys : List String) (mn : String) :
    ∀ (dl : List String) (acc acc1 : String → ModuleRT),
      dl.foldlM (fun acc2 depName =>
        if depName ∈ keys then pure (pushDependant acc2 depName mn)
        else Except.error (CtorError.brokenDependency depName)) acc = .ok acc1 →
      ∀ d ∈ dl, d ∈ keys := by
  intro dl
  induction dl with
  | nil => intro acc acc1 _ d hd; cases hd
  | cons x xs ih =>
    intro acc acc1 h d hd
    rw [List.foldlM_cons] at h
    by_cases hx : x ∈ keys
    · rw [if_pos hx] at h
      rcases List.mem_cons.mp hd with rfl | hd2
      · exact hx
      · exact ih _ _ h d hd2
    · rw [if_neg hx] at h
      have h2 : (Except.error (CtorError.brokenDependency x) :
          Except CtorError (String → ModuleRT)) = .ok acc1 := h
      cases h2

/-- The inner dependency loop never changes any `dependencies` field. -/
lemma depCheck_fold_deps (keys : List String) (mn : String)
    (dl : List String) (acc acc1 : String → ModuleRT)
    (h : dl.foldlM (fun acc2 depName =>
        if depName ∈ keys then pure (pushDependant acc2 depName mn)
        else Except.error (CtorError.brokenDependency depName)) acc = .ok acc1) :
    ∀ k, (acc1 k).dependencies = (acc k).dependencies := by
  refine foldlM_except_pres (P := fun (m : String → ModuleRT) => ∀ k,
    (m k).dependencies = (acc k).dependencies) ?_ dl acc acc1 h (fun _ => rfl)
  intro a b a2 hstep ha
  split at hstep
  · cases hstep
    intro k
    unfold pushDependant
    dsimp only
    split
    · exact ha k
    · exact ha k
  · cases hstep

/-- If the second constructor loop succeeds from some accumulator, every
dependency listed by a walked module is a known module name. -/
lemma addDependants_fold_deps_mem (keys : List String) :
    ∀ (l : List String) (acc m2 : String → ModuleRT),
      l.foldlM (fun acc3 moduleName =>
        (acc3 moduleName).dependencies.foldlM (fun acc2 depName =>
          if depName ∈ keys then pure (pushDependant acc2 depName moduleName)
          else Except.error (CtorError.brokenDependency depName)) acc3) acc = .ok m2 →
      ∀ k ∈ l, ∀ d ∈ (acc k).dependencies, d ∈ keys := by
  intro l
  induction l with
  | nil => intro acc m2 _ k hk; cases hk
  | cons x xs ih =>
    intro acc m2 h k hk d hd
    rw [List.foldlM_cons] at h
    cases hstep : (acc x).dependencies.foldlM (fun acc2 depName =>
        if depName ∈ keys then pure (pushDependant acc2 depName x)
        else Except.error (CtorError.brokenDependency depName)) acc with
    | error e =>
      rw [hstep] at h
      have h2 : (Except.error e : Except CtorError (String → ModuleRT)) = .ok m2 := h
      cases h2
    | ok acc1 =>
      rw [hstep] at h
      rcases List.mem_cons.mp hk with rfl | hk2
      · exact depCheck_fold_mem keys k _ _ _ hstep d hd
      · have hdep : (acc1 k).dependencies = (acc k).dependencies :=
          depCheck_fold_deps keys x _ acc acc1 hstep k
        exact ih acc1 m2 h k hk2 d (hdep ▸ hd)

/-- If `addDependants` succeeds, every listed dependency is a known module name. -/
lemma addDependants_deps_mem (keys : List String) (mods m2 : String → ModuleRT)
    (h : addDependants keys mods = .ok m2) :
    ∀ k ∈ keys, ∀ d ∈ (mods k).dependencies, d ∈ keys := by
  unfold addDependants at h
  exact addDependants_fold_deps_mem keys keys mods m2 h

/-- C8: constructing with distinct module names, one of which lists a
dependency name absent from the module set, fails synchronously with a
`Broken dependency` error — no tree (and hence no scheduling, no pending
work, no init invocation) is ever produced. -/
theorem broken_dependency_rejected (descs : List (String × ModuleDescription))
    (hnd : (descs.map Prod.fst).Nodup)
    (hmiss : ∃ nd ∈ descs, ∃ d ∈ nd.2.deps, d ∉ descs.map Prod.fst) :
    ∃ m, DepsTree.new descs = .error (CtorError.brokenDependency m) := by
  cases hne : DepsTree.new descs with
  | error e =>
    cases e with
    | brokenDependency m => exact ⟨m, rfl⟩
  | ok t =>
    exfalso
    obtain ⟨⟨n, dsc⟩, hin, d, hd, hnot⟩ := hmiss
    obtain ⟨m1, hadd, -⟩ := new_eq descs t hne
    have hn : n ∈ descs.map Prod.fst := List.mem_map.mpr ⟨(n, dsc), hin, rfl⟩
    have hb : buildModules descs n = mkRT dsc := buildModules_mem descs n dsc hnd hin
    have hdeps : d ∈ ((buildModules descs) n).dependencies := by
      rw [hb]
      exact hd
    exact hnot (addDependants_deps_mem _ _ _ hadd n hn d hdeps)

/-- C8 witness: a module whose `deps` names the unknown module `zz` is
rejected by the constructor. -/
theorem broken_dependency_rejected_witness :
    (([("a", ({ deps := ["zz"] } : ModuleDescription))].map Prod.fst).Nodup) ∧
    (∃ nd ∈ [("a", ({ deps := ["zz"] } : ModuleDescription))], ∃ d ∈ nd.2.deps,
        d ∉ [("a", ({ deps := ["zz"] } : ModuleDescription))].map Prod.fst) ∧
    ∃ m, DepsTree.new [("a", ({ deps := ["zz"] } : ModuleDescription))] =
      .error (CtorError.brokenDependency m) :=
  ⟨by decide, by decide, broken_dependency_rejected _ (by decide) (by decide)⟩

/-! ### C9: the needed closure computed by the constructor -/

/-- Number of modules of `K` not yet marked `needed`. -/
def unmarked (K : List String) (m : String → ModuleRT) : Nat :=
  K.countP (fun k => !(m k).needed)

/-- Reachability along the dependency edges given by the map `D`. -/
def Reach (D : String → List String) : String → String → Prop :=
  Relation.ReflTransGen (fun a b => b ∈ D a)

/-- Spec-side notion (stated over the construction input): the module was
explicitly marked needed in its description. -/
def descNeeded (descs : List (String × ModuleDescription)) (r : String) : Prop :=
  ∃ d, (r, d) ∈ descs ∧ d.needed = true

/-- Spec-side dependency edge over the construction input: `a` declares `b`
among its `deps`. -/
def descEdge (descs : List (String × ModuleDescription)) (a b : String) : Prop :=
  ∃ d, (a, d) ∈ descs ∧ b ∈ d.deps

/-- The body of the dependency loop inside `fillNeeded`. -/
def fnStep (fuel : Nat) (acc : String → ModuleRT) (depName : String) :
    String → ModuleRT :=
  if (acc depName).needed then acc else fillNeeded fuel acc depName

/-- The body of the third constructor loop. -/
def loopStep (len : Nat) (acc : String → ModuleRT) (name : String) :
    String → ModuleRT :=
  if (acc name).needed then fillNeeded len acc name else acc

lemma setNeeded_needed (m : String → ModuleRT) (dep k : String) :
    ((setNeeded m dep) k).needed = if k = dep then true else (m k).needed := by
  unfold setNeeded
  split <;> rfl

lemma setNeeded_mono (m : String → ModuleRT) (dep k : String)
    (h : (m k).needed = true) : ((setNeeded m dep) k).needed = true := by
  rw [setNeeded_needed]
  split
  · rfl
  · exact h

lemma setNeeded_deps (m : String → ModuleRT) (n k : String) :
    ((setNeeded m n) k).dependencies = (m k).dependencies := by
  unfold setNeeded
  split <;> rfl

lemma fillNeeded_deps (fuel : Nat) (m : String → ModuleRT) (n k : String) :
    ((fillNeeded fuel m n) k).dependencies = (m k).dependencies := by
  rw [fillNeeded_same fuel m n k]

/-- Marking monotonically shrinks the unmarked count. -/
lemma unmarked_le (K : List String) (m1 m2 : String → ModuleRT)
    (h : ∀ k, (m1 k).needed = true → (m2 k).needed = true) :
    unmarked K m2 ≤ unmarked K m1 := by
  induction K with
  | nil => exact Nat.le_refl 0
  | cons x xs ih =>
    unfold unmarked at ih ⊢
    rw [List.countP_cons, List.countP_cons]
    have hx2 := h x
    have hx : (if (!(m2 x).needed) = true then 1 else 0) ≤
        (if (!(m1 x).needed) = true then 1 else 0) := by
      cases h1 : (m1 x).needed <;> cases h2 : (m2 x).needed <;> simp_all
    omega

/-- Marking a yet-unmarked member of `K` strictly shrinks the unmarked count. -/
lemma unmarked_setNeeded_lt : ∀ (K : List String) (m : String → ModuleRT) (dep : String),
    dep ∈ K → (m dep).needed = false →
    unmarked K (setNeeded m dep) < unmarked K m := by
  intro K
  induction K with
  | nil => intro m dep h _; cases h
  | cons x xs ih =>
    intro m dep hdep hunm
    unfold unmarked
    rw [List.countP_cons, List.countP_cons]
    have hle : unmarked xs (setNeeded m dep) ≤ unmarked xs m :=
      unmarked_le xs m (setNeeded m dep) (fun k hk => setNeeded_mono m dep k hk)
    unfold unmarked at hle
    rcases List.mem_cons.mp hdep with rfl | hdep2
    · have h1 : (if (!((setNeeded m dep) dep).needed) = true then 1 else 0) = 0 := by
        rw [setNeeded_needed]
        simp
      have h2 : (if (!(m dep).needed) = true then 1 else 0) = 1 := by
        rw [hunm]
        simp
      rw [h1, h2]
      omega
    · have hih := ih m dep hdep2 hunm
      unfold unmarked at hih
      have hhead : (if (!((setNeeded m dep) x).needed) = true then 1 else 0) ≤
          (if (!(m x).needed) = true then 1 else 0) := by
        rw [setNeeded_needed]
        by_cases hx : x = dep
        · rw [if_pos hx]
          simp
        · rw [if_neg hx]
      omega

/-- The recursive marker: given enough fuel (one more than the unmarked count
after marking the start, which the top-level call always has), `fillNeeded`
marks the start and its dependencies, marks monotonically, marks the
dependencies of everything it newly marks, only marks modules reachable from
the start, and never increases the unmarked count. -/
lemma fillNeeded_spec (K : List String) (D : String → List String)
    (hDK : ∀ k, ∀ d ∈ D k, d ∈ K) :
    ∀ (fuel : Nat) (m : String → ModuleRT) (n : String),
      (∀ k, (m k).dependencies = D k) →
      n ∈ K →
      unmarked K (setNeeded m n) < fuel →
      (∀ k, (m k).needed = true → ((fillNeeded fuel m n) k).needed = true) ∧
      ((fillNeeded fuel m n) n).needed = true ∧
      (∀ d ∈ D n, ((fillNeeded fuel m n) d).needed = true) ∧
      (∀ k, ((fillNeeded fuel m n) k).needed = true → (m k).needed = false →
          ∀ d ∈ D k, ((fillNeeded fuel m n) d).needed = true) ∧
      (∀ k, ((fillNeeded fuel m n) k).needed = true →
          (m k).needed = true ∨ Reach D n k) ∧
      unmarked K (fillNeeded fuel m n) ≤ unmarked K (setNeeded m n) := by
  intro fuel
  induction fuel with
  | zero =>
    intro m n _ _ hfuel
    exact absurd hfuel (Nat.not_lt_zero _)
  | succ fuel ih =>
    intro m n hdeps hnK hfuel
    have hdln : ((setNeeded m n) n).dependencies = D n := by
      rw [setNeeded_deps]
      exact hdeps n
    have hfill : fillNeeded (fuel + 1) m n =
        ((setNeeded m n) n).dependencies.foldl (fnStep fuel) (setNeeded m n) := rfl
    rw [hdln] at hfill
    have hcnt0 : unmarked K (setNeeded m n) ≤ fuel := Nat.lt_succ_iff.mp hfuel
    have inner : ∀ (dl : List String), (∀ d ∈ dl, d ∈ D n) →
        ∀ (a : String → ModuleRT),
        (∀ k, (a k).dependencies = D k) →
        (∀ k, ((setNeeded m n) k).needed = true → (a k).needed = true) →
        (∀ k, (a k).needed = true → ((setNeeded m n) k).needed = false →
            ∀ d ∈ D k, (a d).needed = true) →
        (∀ k, (a k).needed = true →
            ((setNeeded m n) k).needed = true ∨ Reach D n k) →
        unmarked K a ≤ unmarked K (setNeeded m n) →
        (∀ k, (a k).needed = true →
            ((dl.foldl (fnStep fuel) a) k).needed = true) ∧
        (∀ d ∈ dl, ((dl.foldl (fnStep fuel) a) d).needed = true) ∧
        (∀ k, ((dl.foldl (fnStep fuel) a) k).needed = true →
            ((setNeeded m n) k).needed = false →
            ∀ d ∈ D k, ((dl.foldl (fnStep fuel) a) d).needed = true) ∧
        (∀ k, ((dl.foldl (fnStep fuel) a) k).needed = true →
            ((setNeeded m n) k).needed = true ∨ Reach D n k) ∧
        unmarked K (dl.foldl (fnStep fuel) a) ≤ unmarked K (setNeeded m n) := by
      intro dl
      induction dl with
      | nil =>
        intro _ a _ _ hclosed hsound hcnt
        exact ⟨fun _ hk => hk, fun d hd => absurd hd (List.not_mem_nil d),
          hclosed, hsound, hcnt⟩
      | cons x xs ihl =>
        intro hsub a hdepsa hmono hclosed hsound hcnt
        rw [List.foldl_cons]
        have hs2 : ∀ d ∈ xs, d ∈ D n := fun d hd => hsub d (List.mem_cons_of_mem x hd)
        cases hax : (a x).needed with
        | true =>
          have hstep : fnStep fuel a x = a := by
            unfold fnStep
            exact if_pos hax
          rw [hstep]
          have R := ihl hs2 a hdepsa hmono hclosed hsound hcnt
          refine ⟨R.1, ?_, R.2.2.1, R.2.2.2.1, R.2.2.2.2⟩
          intro d hd
          rcases List.mem_cons.mp hd with rfl | hd2
          · exact R.1 d hax
          · exact R.2.1 d hd2
        | false =>
          have hne : ¬((a x).needed = true) := by
            rw [hax]
            exact Bool.false_ne_true
          have hstep : fnStep fuel a x = fillNeeded fuel a x := by
            unfold fnStep
            exact if_neg hne
          rw [hstep]
          have hxD : x ∈ D n := hsub x (List.mem_cons_self x xs)
          have hxK : x ∈ K := hDK n x hxD
          have hcnt2 : unmarked K (setNeeded a x) < fuel :=
            Nat.lt_of_lt_of_le (unmarked_setNeeded_lt K a x hxK hax)
              (Nat.le_trans hcnt hcnt0)
          have F := ih a x hdepsa hxK hcnt2
          have hdepsa1 : ∀ k, ((fillNeeded fuel a x) k).dependencies = D k :=
            fun k => (fillNeeded_deps fuel a x k).trans (hdepsa k)
          have hmono1 : ∀ k, ((setNeeded m n) k).needed = true →
              ((fillNeeded fuel a x) k).needed = true :=
            fun k hk => F.1 k (hmono k hk)
          have hclosed1 : ∀ k, ((fillNeeded fuel a x) k).needed = true →
              ((setNeeded m n) k).needed = false →
              ∀ d ∈ D k, ((fillNeeded fuel a x) d).needed = true := by
            intro k hk hk0 d hd
            cases hak : (a k).needed with
            | true => exact F.1 d (hclosed k hak hk0 d hd)
            | false => exact F.2.2.2.1 k hk hak d hd
          have hsound1 : ∀ k, ((fillNeeded fuel a x) k).needed = true →
              ((setNeeded m n) k).needed = true ∨ Reach D n k := by
            intro k hk
            cases F.2.2.2.2.1 k hk with
            | inl hak => exact hsound k hak
            | inr hr => exact Or.inr (Relation.ReflTransGen.head hxD hr)
          have hcnt1 : unmarked K (fillNeeded fuel a x) ≤ unmarked K (setNeeded m n) :=
            Nat.le_trans F.2.2.2.2.2
              (Nat.le_trans (Nat.le_of_lt (unmarked_setNeeded_lt K a x hxK hax)) hcnt)
          have R := ihl hs2 (fillNeeded fuel a x) hdepsa1 hmono1 hclosed1 hsound1 hcnt1
          refine ⟨?_, ?_, R.2.2.1, R.2.2.2.1, R.2.2.2.2⟩
          · intro k hk
            exact R.1 k (F.1 k hk)
          · intro d hd
            rcases List.mem_cons.mp hd with rfl | hd2
            · exact R.1 d F.2.1
            · exact R.2.1 d hd2
    have R := inner (D n) (fun _ hd => hd) (setNeeded m n)
      (fun k => (setNeeded_deps m n k).trans (hdeps k))
      (fun _ hk => hk)
      (fun k hk hk0 => absurd hk (by rw [hk0]; exact Bool.false_ne_true))
      (fun _ hk => Or.inl hk)
      (Nat.le_refl _)
    rw [hfill]
    refine ⟨?_, ?_, R.2.1, ?_, ?_, R.2.2.2.2⟩
    · intro k hk
      exact R.1 k (setNeeded_mono m n k hk)
    · refine R.1 n ?_
      rw [setNeeded_needed]
      simp
    · intro k hk hk0
      by_cases hkn : k = n
      · intro d hd
        refine R.2.1 d ?_
        rw [← hkn]
        exact hd
      · have hm1 : ((setNeeded m n) k).needed = false := by
          rw [setNeeded_needed, if_neg hkn]
          exact hk0
        exact R.2.2.1 k hk hm1
    · intro k hk
      cases R.2.2.2.1 k hk with
      | inl h1 =>
        by_cases hkn : k = n
        · refine Or.inr ?_
          rw [hkn]
          exact Relation.ReflTransGen.refl
        · refine Or.inl ?_
          rw [setNeeded_needed, if_neg hkn] at h1
          exact h1
      | inr h2 => exact Or.inr h2

lemma neededLoop_eq (K : List String) (M : String → ModuleRT) :
    neededLoop K M = K.foldl (loopStep (K.length + 1)) M := rfl

/-- The third constructor loop computes exactly the reachability closure of
the explicitly-needed modules, for any dependency map staying inside `K`. -/
lemma neededLoop_spec (K : List String) (D : String → List String)
    (M : String → ModuleRT)
    (hDK : ∀ k, ∀ d ∈ D k, d ∈ K)
    (hMdeps : ∀ k, (M k).dependencies = D k)
    (hMK : ∀ k, (M k).needed = true → k ∈ K) :
    ∀ k, ((neededLoop K M) k).needed = true ↔
      ∃ r, (M r).needed = true ∧ Reach D r k := by
  have loop : ∀ (l : List String), (∀ x ∈ l, x ∈ K) →
      ∀ (a : String → ModuleRT),
      (∀ k, (a k).dependencies = D k) →
      (∀ k, (a k).needed = true → ∃ r, (M r).needed = true ∧ Reach D r k) →
      (∀ k, (a k).needed = true → (M k).needed = false →
          ∀ d ∈ D k, (a d).needed = true) →
      (∀ k, (a k).needed = true →
          ((l.foldl (loopStep (K.length + 1)) a) k).needed = true) ∧
      (∀ k, ((l.foldl (loopStep (K.length + 1)) a) k).needed = true →
          ∃ r, (M r).needed = true ∧ Reach D r k) ∧
      (∀ k, ((l.foldl (loopStep (K.length + 1)) a) k).needed = true →
          (M k).needed = false →
          ∀ d ∈ D k, ((l.foldl (loopStep (K.length + 1)) a) d).needed = true) ∧
      (∀ x ∈ l, (a x).needed = true →
          ∀ d ∈ D x, ((l.foldl (loopStep (K.length + 1)) a) d).needed = true) := by
    intro l
    induction l with
    | nil =>
      intro _ a _ hsound hclosed
      exact ⟨fun _ hk => hk, hsound, hclosed,
        fun x hx => absurd hx (List.not_mem_nil x)⟩
    | cons x xs ihl =>
      intro hsub a hdepsa hsound hclosed
      rw [List.foldl_cons]
      have hxK : x ∈ K := hsub x (List.mem_cons_self x xs)
      have hs2 : ∀ y ∈ xs, y ∈ K := fun y hy => hsub y (List.mem_cons_of_mem x hy)
      cases hax : (a x).needed with
      | false =>
        have hstep : loopStep (K.length + 1) a x = a := by
          unfold loopStep
          exact if_neg (by rw [hax]; exact Bool.false_ne_true)
        rw [hstep]
        have R := ihl hs2 a hdepsa hsound hclosed
        refine ⟨R.1, R.2.1, R.2.2.1, ?_⟩
        intro y hy hay
        rcases List.mem_cons.mp hy with rfl | hy2
        · exact absurd hay (by simp [hax])
        · exact R.2.2.2 y hy2 hay
      | true =>
        have hstep : loopStep (K.length + 1) a x = fillNeeded (K.length + 1) a x := by
          unfold loopStep
          exact if_pos hax
        rw [hstep]
        have hcnt : unmarked K (setNeeded a x) < K.length + 1 := by
          have h1 : unmarked K (setNeeded a x) ≤ K.length := List.countP_le_length _
          omega
        have F := fillNeeded_spec K D hDK (K.length + 1) a x hdepsa hxK hcnt
        have hdepsa1 : ∀ k, ((fillNeeded (K.length + 1) a x) k).dependencies = D k :=
          fun k => (fillNeeded_deps _ a x k).trans (hdepsa k)
        have hsound1 : ∀ k, ((fillNeeded (K.length + 1) a x) k).needed = true →
            ∃ r, (M r).needed = true ∧ Reach D r k := by
          intro k hk
          cases F.2.2.2.2.1 k hk with
          | inl hak => exact hsound k hak
          | inr hr =>
            obtain ⟨r, hrM, hrx⟩ := hsound x hax
            exact ⟨r, hrM, Relation.ReflTransGen.trans hrx hr⟩
        have hclosed1 : ∀ k, ((fillNeeded (K.length + 1) a x) k).needed = true →
            (M k).needed = false →
            ∀ d ∈ D k, ((fillNeeded (K.length + 1) a x) d).needed = true := by
          intro k hk hMk d hd
          cases hak : (a k).needed with
          | true => exact F.1 d (hclosed k hak hMk d hd)
          | false => exact F.2.2.2.1 k hk hak d hd
        have R := ihl hs2 (fillNeeded (K.length + 1) a x) hdepsa1 hsound1 hclosed1
        refine ⟨?_, R.2.1, R.2.2.1, ?_⟩
        · intro k hk
          exact R.1 k (F.1 k hk)
        · intro y hy hay
          rcases List.mem_cons.mp hy with rfl | hy2
          · intro d hd
            exact R.1 d (F.2.2.1 d hd)
          · exact R.2.2.2 y hy2 (F.1 y hay)
  intro k
  rw [neededLoop_eq]
  have R := loop K (fun _ hx => hx) M hMdeps
    (fun k2 hk2 => ⟨k2, hk2, Relation.ReflTransGen.refl⟩)
    (fun k2 hk2 hk0 => absurd hk2 (by simp [hk0]))
  constructor
  · intro hk
    exact R.2.1 k hk
  · rintro ⟨r, hrM, hreach⟩
    induction hreach with
    | refl => exact R.1 r hrM
    | @tail b c hab hbc ih2 =>
      have hb : ((K.foldl (loopStep (K.length + 1)) M) b).needed = true := ih2
      cases hMb : (M b).needed with
      | false => exact R.2.2.1 b hb hMb c hbc
      | true => exact R.2.2.2 b (hMK b hMb) hMb c hbc

lemma mem_names_exists (descs : List (String × ModuleDescription)) (r : String)
    (h : r ∈ descs.map Prod.fst) : ∃ d, (r, d) ∈ descs := by
  obtain ⟨p, hp, hp1⟩ := List.mem_map.mp h
  exact ⟨p.2, by rw [← hp1]; exact hp⟩

/-- C9: after a successful construction with distinct names, a module's
`needed` flag is set exactly when the module is explicitly marked needed in
its description or reachable along declared dependency edges from some
explicitly-marked module. -/
theorem needed_closure (descs : List (String × ModuleDescription)) (t : DepsTree)
    (h : DepsTree.new descs = .ok t) (hnd : (descs.map Prod.fst).Nodup) (k : String) :
    (t.mods k).needed = true ↔
      ∃ r, descNeeded descs r ∧ Relation.ReflTransGen (descEdge descs) r k := by
  obtain ⟨m1, hadd, ht⟩ := new_eq descs t h
  have hDK : ∀ k2, ∀ d ∈ ((buildModules descs) k2).dependencies,
      d ∈ descs.map Prod.fst := by
    intro k2 d hd
    by_cases hk2 : k2 ∈ descs.map Prod.fst
    · exact addDependants_deps_mem _ _ _ hadd k2 hk2 d hd
    · rw [buildModules_not_mem descs k2 hk2] at hd
      cases hd
  have hMdeps : ∀ k2, (m1 k2).dependencies = ((buildModules descs) k2).dependencies := by
    intro k2
    rw [addDependants_same _ _ _ hadd k2]
  have hMneed : ∀ k2, (m1 k2).needed = ((buildModules descs) k2).needed := by
    intro k2
    rw [addDependants_same _ _ _ hadd k2]
  have hMK : ∀ k2, (m1 k2).needed = true → k2 ∈ descs.map Prod.fst := by
    intro k2 hk2
    by_cases hin : k2 ∈ descs.map Prod.fst
    · exact hin
    · exfalso
      rw [hMneed k2, buildModules_not_mem descs k2 hin] at hk2
      exact Bool.false_ne_true hk2
  have hmain := neededLoop_spec (descs.map Prod.fst)
    (fun k2 => ((buildModules descs) k2).dependencies) m1 hDK hMdeps hMK k
  have htm : t.mods k = (neededLoop (descs.map Prod.fst) m1) k := by rw [ht]
  rw [htm, hmain]
  constructor
  · rintro ⟨r, hrn, hreach⟩
    refine ⟨r, ?_, ?_⟩
    · rw [hMneed r] at hrn
      have hrK : r ∈ descs.map Prod.fst := by
        by_cases hin : r ∈ descs.map Prod.fst
        · exact hin
        · rw [buildModules_not_mem descs r hin] at hrn
          exact absurd hrn Bool.false_ne_true
      obtain ⟨dsc, hmem⟩ := mem_names_exists descs r hrK
      refine ⟨dsc, hmem, ?_⟩
      rw [buildModules_mem descs r dsc hnd hmem] at hrn
      exact hrn
    · refine Relation.ReflTransGen.mono ?_ hreach
      intro a b hb
      have hb2 : b ∈ ((buildModules descs) a).dependencies := hb
      have haK : a ∈ descs.map Prod.fst := by
        by_cases hin : a ∈ descs.map Prod.fst
        · exact hin
        · rw [buildModules_not_mem descs a hin] at hb2
          cases hb2
      obtain ⟨dsc, hmem⟩ := mem_names_exists descs a haK
      refine ⟨dsc, hmem, ?_⟩
      rw [buildModules_mem descs a dsc hnd hmem] at hb2
      exact hb2
  · rintro ⟨r, ⟨dsc, hmem, hneed⟩, hreach⟩
    refine ⟨r, ?_, ?_⟩
    · rw [hMneed r, buildModules_mem descs r dsc hnd hmem]
      exact hneed
    · refine Relation.ReflTransGen.mono ?_ hreach
      intro a b hb
      obtain ⟨dsc2, hmem2, hbd⟩ := hb
      show b ∈ ((buildModules descs) a).dependencies
      rw [buildModules_mem descs a dsc2 hnd hmem2]
      exact hbd

/-- C9 witness: in the fixture with `a`, `b` (needing `a`), `c`, the closure
characterization holds at the concrete module `a`, which is needed exactly
because the explicitly-needed `b` depends on it. -/
theorem needed_closure_witness :
    (DepsTree.new exDescsF = .ok exTreeF) ∧
    ((exDescsF.map Prod.fst).Nodup) ∧
    ((exTreeF.mods "a").needed = true ↔
      ∃ r, descNeeded exDescsF r ∧
        Relation.ReflTransGen (descEdge exDescsF) r "a") :=
  ⟨rfl, by decide, needed_closure exDescsF exTreeF rfl (by decide) "a"⟩

/-! ### C1: dependency-ordered init scheduling -/

/-- The notification marking the invocation of a module's init operation
(emitted by `_initModule` immediately before the operation starts). -/
def iEv (k : String) : Event := Event.moduleStateEv k State.initializing

/-- The notification that a module's init operation completed successfully. -/
def uEv (k : String) : Event := Event.moduleStateEv k State.up

/-- How many modules of `L` have reported `up` in the trace. -/
def upCount (L : List String) (evs : List Event) : Nat :=
  L.countP (fun j => decide (uEv j ∈ evs))

/-- Every init invocation in the trace happened only after all of the
module's dependencies had reported `up` (the trace is newest-first, so the
strictly older events are the tail after the invocation marker). -/
def PosOK (D : String → List String) (evs : List Event) : Prop :=
  ∀ k l1 l2, evs = l1 ++ iEv k :: l2 → ∀ d ∈ D k, uEv d ∈ l2

lemma iEv_inj (j k : String) (h : iEv j = iEv k) : j = k := by
  unfold iEv at h
  injection h

lemma uEv_inj (j k : String) (h : uEv j = uEv k) : j = k := by
  unfold uEv at h
  injection h

lemma uEv_ne_iEv (j k : String) : uEv j ≠ iEv k := by
  unfold uEv iEv
  intro h
  injection h with h1 h2
  cases h2

lemma initOp_inj (m j : String)
    (h : PendingTask.initOp m = PendingTask.initOp j) : m = j := by
  injection h

lemma posOK_nil (D : String → List String) : PosOK D [] := by
  intro k l1 l2 h
  have hlen := congrArg List.length h
  simp at hlen
  omega

lemma posOK_cons (D : String → List String) (e : Event) (evs : List Event)
    (h : PosOK D evs)
    (he : ∀ k, e = iEv k → ∀ d ∈ D k, uEv d ∈ evs) :
    PosOK D (e :: evs) := by
  intro k l1 l2 hsplit
  cases l1 with
  | nil =>
    rw [List.nil_append] at hsplit
    injection hsplit with h1 h2
    subst h2
    exact he k h1
  | cons a l1t =>
    rw [List.cons_append] at hsplit
    injection hsplit with h1 h2
    exact h k l1t l2 h2

lemma posOK_append (D : String → List String) (new evs : List Event)
    (h : PosOK D evs) (hn : ∀ e ∈ new, ∀ k, e ≠ iEv k) :
    PosOK D (new ++ evs) := by
  induction new with
  | nil => exact h
  | cons e rest ih =>
    rw [List.cons_append]
    refine posOK_cons D e (rest ++ evs)
      (ih (fun e2 he2 => hn e2 (List.mem_cons_of_mem e he2))) ?_
    intro k hek
    exact absurd hek (hn e (List.mem_cons_self e rest) k)

lemma mem_append_excluded {α : Type} (x : α) (new old : List α)
    (hn : ∀ e ∈ new, e ≠ x) : x ∈ new ++ old ↔ x ∈ old := by
  rw [List.mem_append]
  constructor
  · intro h
    cases h with
    | inl h2 => exact absurd rfl (hn x h2)
    | inr h2 => exact h2
  · exact Or.inr

lemma count_append_excluded {α : Type} [DecidableEq α] (x : α) (new old : List α)
    (hn : ∀ e ∈ new, e ≠ x) : (new ++ old).count x = old.count x := by
  rw [List.count_append]
  have h0 : new.count x = 0 := List.count_eq_zero.mpr (fun hx => hn x hx rfl)
  omega

lemma countP_congr_mem {α : Type} (L : List α) (p q : α → Bool)
    (h : ∀ a ∈ L, p a = q a) : L.countP p = L.countP q := by
  induction L with
  | nil => rfl
  | cons x xs ih =>
    rw [List.countP_cons, List.countP_cons,
      h x (List.mem_cons_self x xs), ih (fun a ha => h a (List.mem_cons_of_mem x ha))]

lemma upCount_congr (L : List String) (evs1 evs2 : List Event)
    (h : ∀ j ∈ L, (uEv j ∈ evs1 ↔ uEv j ∈ evs2)) :
    upCount L evs1 = upCount L evs2 := by
  unfold upCount
  refine countP_congr_mem L _ _ ?_
  intro j hj
  exact decide_eq_decide.mpr (h j hj)

lemma upCount_append_excluded (L : List String) (new old : List Event)
    (hn : ∀ e ∈ new, ∀ k, e ≠ uEv k) :
    upCount L (new ++ old) = upCount L old :=
  upCount_congr L _ _ (fun j _ =>
    mem_append_excluded (uEv j) new old (fun e he => hn e he j))

lemma upCount_cons_other (L : List String) (e : Event) (old : List Event)
    (hn : ∀ k, e ≠ uEv k) :
    upCount L (e :: old) = upCount L old :=
  upCount_congr L _ _ (fun j _ =>
    mem_append_excluded (uEv j) [e] old (fun e2 he2 => by
      rw [List.mem_singleton.mp he2]
      exact hn j))

/-- A fresh `up` notification of a member of a duplicate-free list bumps the
up count by exactly one. -/
lemma upCount_cons_self (k : String) (evs : List Event) (hno : uEv k ∉ evs) :
    ∀ (L : List String), L.Nodup → k ∈ L →
      upCount L (uEv k :: evs) = upCount L evs + 1 := by
  intro L
  induction L with
  | nil => intro _ hk; cases hk
  | cons x xs ih =>
    intro hnd hk
    rw [List.nodup_cons] at hnd
    unfold upCount
    rw [List.countP_cons, List.countP_cons]
    rcases List.mem_cons.mp hk with rfl | hk2
    · have h3 : xs.countP (fun j => decide (uEv j ∈ uEv k :: evs)) =
          xs.countP (fun j => decide (uEv j ∈ evs)) := by
        refine countP_congr_mem xs _ _ ?_
        intro j hj
        have hne : uEv j ≠ uEv k := fun hc => hnd.1 ((uEv_inj j k hc) ▸ hj)
        exact decide_eq_decide.mpr (by simp [List.mem_cons, hne])
      rw [h3]
      simp [hno]
    · have hxk : uEv x ≠ uEv k := fun hc => hnd.1 (by
        rw [uEv_inj x k hc]
        exact hk2)
      have h3 : (decide (uEv x ∈ uEv k :: evs)) = (decide (uEv x ∈ evs)) :=
        decide_eq_decide.mpr (by simp [List.mem_cons, hxk])
      have ht := ih hnd.2 hk2
      unfold upCount at ht
      rw [h3, ht]
      omega

/-- An `up` notification of a module outside the list leaves its up count
unchanged. -/
lemma upCount_cons_not_mem (L : List String) (k : String) (evs : List Event)
    (hk : k ∉ L) :
    upCount L (uEv k :: evs) = upCount L evs := by
  refine upCount_congr L _ _ ?_
  intro j hj
  have hne : uEv j ≠ uEv k := fun hc => hk ((uEv_inj j k hc) ▸ hj)
  simp [List.mem_cons, hne]

lemma upCount_le_length (L : List String) (evs : List Event) :
    upCount L evs ≤ L.length :=
  List.countP_le_length _

/-- A full up count over a key list means every key has reported `up`. -/
lemma upCount_full (L : List String) (evs : List Event)
    (h : upCount L evs = L.length) : ∀ k ∈ L, uEv k ∈ evs := by
  intro k hk
  have h2 := List.countP_eq_length.mp h k hk
  exact of_decide_eq_true h2

/-- An event that is neither an init-invocation marker nor an `up` report. -/
def NonSched (e : Event) : Prop := ∀ k, e ≠ iEv k ∧ e ≠ uEv k

lemma nonSched_moduleStateEv (n : String) (s : State)
    (h1 : s ≠ State.initializing) (h2 : s ≠ State.up) :
    NonSched (Event.moduleStateEv n s) := by
  intro k
  constructor
  · unfold iEv
    intro hc
    injection hc with a b
    exact h1 b
  · unfold uEv
    intro hc
    injection hc with a b
    exact h2 b

lemma nonSched_stateEv (s : State) : NonSched (Event.stateEv s) := by
  intro k
  unfold iEv uEv
  refine ⟨?_, ?_⟩ <;> (intro hc; cases hc)

lemma nonSched_startedEv : NonSched Event.startedEv := by
  intro k
  unfold iEv uEv
  refine ⟨?_, ?_⟩ <;> (intro hc; cases hc)

lemma nonSched_stoppedEv : NonSched Event.stoppedEv := by
  intro k
  unfold iEv uEv
  refine ⟨?_, ?_⟩ <;> (intro hc; cases hc)

lemma nonSched_errorEv (e : Value) (n : String) : NonSched (Event.errorEv e n) := by
  intro k
  unfold iEv uEv
  refine ⟨?_, ?_⟩ <;> (intro hc; cases hc)

/-- A tree transformation that cannot affect the init schedule: it leaves the
keys, every module's dependency/dependant/needed/`dependenciesToLoad` data,
`modulesToLoad` and `initResolved` untouched, emits no `initializing`/`up`
module notification, and only adds deinit continuations to the pending set. -/
structure Neutral (t t2 : DepsTree) : Prop where
  keys : t2.keys = t.keys
  deps : ∀ k, (t2.mods k).dependencies = (t.mods k).dependencies
  depts : ∀ k, (t2.mods k).dependants = (t.mods k).dependants
  need : ∀ k, (t2.mods k).needed = (t.mods k).needed
  dtl : ∀ k, (t2.mods k).dependenciesToLoad = (t.mods k).dependenciesToLoad
  ev : ∃ new, t2.events = new ++ t.events ∧ ∀ e ∈ new, NonSched e
  pend : ∃ new, t2.pending = new ++ t.pending ∧
      ∀ p ∈ new, (∀ k, p ≠ PendingTask.initOp k) ∧ p ≠ PendingTask.startInit
  mtl : t2.modulesToLoad = t.modulesToLoad
  res : t2.initResolved = t.initResolved

lemma neutral_refl (t : DepsTree) : Neutral t t :=
  ⟨rfl, fun _ => rfl, fun _ => rfl, fun _ => rfl, fun _ => rfl,
    ⟨[], rfl, fun e he => absurd he (List.not_mem_nil e)⟩,
    ⟨[], rfl, fun p hp => absurd hp (List.not_mem_nil p)⟩, rfl, rfl⟩

lemma neutral_trans {t t2 t3 : DepsTree} (h1 : Neutral t t2) (h2 : Neutral t2 t3) :
    Neutral t t3 := by
  obtain ⟨n1, he1, hn1⟩ := h1.ev
  obtain ⟨n2, he2, hn2⟩ := h2.ev
  obtain ⟨p1, hp1, hq1⟩ := h1.pend
  obtain ⟨p2, hp2, hq2⟩ := h2.pend
  refine ⟨h2.keys.trans h1.keys,
    fun k => (h2.deps k).trans (h1.deps k),
    fun k => (h2.depts k).trans (h1.depts k),
    fun k => (h2.need k).trans (h1.need k),
    fun k => (h2.dtl k).trans (h1.dtl k),
    ⟨n2 ++ n1, ?_, ?_⟩, ⟨p2 ++ p1, ?_, ?_⟩,
    h2.mtl.trans h1.mtl, h2.res.trans h1.res⟩
  · rw [he2, he1, List.append_assoc]
  · intro e he
    rcases List.mem_append.mp he with h3 | h3
    · exact hn2 e h3
    · exact hn1 e h3
  · rw [hp2, hp1, List.append_assoc]
  · intro p hp
    rcases List.mem_append.mp hp with h3 | h3
    · exact hq2 p h3
    · exact hq1 p h3

/-- Any fold whose steps are all neutral is neutral. -/
lemma neutral_foldl {β : Type} (f : DepsTree → β → DepsTree)
    (hstep : ∀ a b, Neutral a (f a b)) :
    ∀ (l : List β) (a : DepsTree), Neutral a (l.foldl f a) := by
  intro l
  induction l with
  | nil => intro a; exact neutral_refl a
  | cons x xs ih =>
    intro a
    rw [List.foldl_cons]
    exact neutral_trans (hstep a x) (ih (f a x))

lemma neutral_chgState (t : DepsTree) (s : State) :
    Neutral t (t._changeState s) :=
  ⟨rfl, fun _ => rfl, fun _ => rfl, fun _ => rfl, fun _ => rfl,
    ⟨[Event.stateEv s], rfl, fun e he => by
      rw [List.mem_singleton.mp he]
      exact nonSched_stateEv s⟩,
    ⟨[], rfl, fun p hp => absurd hp (List.not_mem_nil p)⟩, rfl, rfl⟩

lemma updMod_field_pres (t : DepsTree) (n : String) (f : ModuleRT → ModuleRT)
    (hf : ∀ m, (f m).dependencies = m.dependencies ∧ (f m).dependants = m.dependants ∧
      (f m).needed = m.needed ∧ (f m).dependenciesToLoad = m.dependenciesToLoad) :
    ∀ k, ((t.updMod n f).mods k).dependencies = (t.mods k).dependencies ∧
      ((t.updMod n f).mods k).dependants = (t.mods k).dependants ∧
      ((t.updMod n f).mods k).needed = (t.mods k).needed ∧
      ((t.updMod n f).mods k).dependenciesToLoad = (t.mods k).dependenciesToLoad := by
  intro k
  unfold DepsTree.updMod
  dsimp only
  split
  · exact hf (t.mods k)
  · exact ⟨rfl, rfl, rfl, rfl⟩

lemma neutral_updMod (t : DepsTree) (n : String) (f : ModuleRT → ModuleRT)
    (hf : ∀ m, (f m).dependencies = m.dependencies ∧ (f m).dependants = m.dependants ∧
      (f m).needed = m.needed ∧ (f m).dependenciesToLoad = m.dependenciesToLoad) :
    Neutral t (t.updMod n f) :=
  ⟨rfl, fun k => (updMod_field_pres t n f hf k).1,
    fun k => (updMod_field_pres t n f hf k).2.1,
    fun k => (updMod_field_pres t n f hf k).2.2.1,
    fun k => (updMod_field_pres t n f hf k).2.2.2,
    ⟨[], rfl, fun e he => absurd he (List.not_mem_nil e)⟩,
    ⟨[], rfl, fun p hp => absurd hp (List.not_mem_nil p)⟩, rfl, rfl⟩

lemma neutral_chgMod (t : DepsTree) (n : String) (s : State)
    (h1 : s ≠ State.initializing) (h2 : s ≠ State.up) :
    Neutral t (t._changeModuleState n s) := by
  have hu := updMod_field_pres t n (fun m => { m with state := s })
    (fun m => ⟨rfl, rfl, rfl, rfl⟩)
  exact ⟨rfl, fun k => (hu k).1, fun k => (hu k).2.1, fun k => (hu k).2.2.1,
    fun k => (hu k).2.2.2,
    ⟨[Event.moduleStateEv n s], rfl, fun e he => by
      rw [List.mem_singleton.mp he]
      exact nonSched_moduleStateEv n s h1 h2⟩,
    ⟨[], rfl, fun p hp => absurd hp (List.not_mem_nil p)⟩, rfl, rfl⟩

lemma neutral_push_event (t : DepsTree) (e : Event) (he : NonSched e) :
    Neutral t ({ t with events := e :: t.events } : DepsTree) :=
  ⟨rfl, fun _ => rfl, fun _ => rfl, fun _ => rfl, fun _ => rfl,
    ⟨[e], rfl, fun e2 he2 => by rw [List.mem_singleton.mp he2]; exact he⟩,
    ⟨[], rfl, fun p hp => absurd hp (List.not_mem_nil p)⟩, rfl, rfl⟩

/-- A transformation leaving all tracked components untouched is neutral. -/
lemma neutral_same_tracked (t t2 : DepsTree) (hk : t2.keys = t.keys)
    (hm : t2.mods = t.mods) (he : t2.events = t.events) (hp : t2.pending = t.pending)
    (hl : t2.modulesToLoad = t.modulesToLoad) (hr : t2.initResolved = t.initResolved) :
    Neutral t t2 :=
  ⟨hk, fun k => by rw [hm], fun k => by rw [hm], fun k => by rw [hm], fun k => by rw [hm],
    ⟨[], by rw [he, List.nil_append], fun e he2 => absurd he2 (List.not_mem_nil e)⟩,
    ⟨[], by rw [hp, List.nil_append], fun p hp2 => absurd hp2 (List.not_mem_nil p)⟩,
    hl, hr⟩

lemma neutral_deinitModule (t : DepsTree) (n : String) :
    Neutral t (t._deinitModule n) := by
  refine neutral_trans (neutral_chgMod t n .deinitializing
    (fun hc => by cases hc) (fun hc => by cases hc)) ?_
  exact ⟨rfl, fun _ => rfl, fun _ => rfl, fun _ => rfl, fun _ => rfl,
    ⟨[], rfl, fun e he => absurd he (List.not_mem_nil e)⟩,
    ⟨[PendingTask.deinitOp n], rfl, fun p hp => by
      rw [List.mem_singleton.mp hp]
      exact ⟨fun k hc => PendingTask.noConfusion hc,
        fun hc => PendingTask.noConfusion hc⟩⟩,
    rfl, rfl⟩

lemma neutral_deinitLoopStep (a : DepsTree) (b : String) :
    Neutral a (DepsTree.deinitLoopStep a b) := by
  unfold DepsTree.deinitLoopStep
  split
  · exact neutral_deinitModule a b
  · exact neutral_refl a

lemma neutral_deinit (t : DepsTree) : Neutral t (t.deinit).1 := by
  cases hs : t.state
  case off =>
    rw [deinit_eq_off t hs]
    exact neutral_chgState t .down
  case error =>
    rw [deinit_eq_error t hs]
    exact neutral_refl t
  case down =>
    rw [deinit_eq_down t hs]
    exact neutral_refl t
  case deinitializing =>
    rw [deinit_eq_deinitializing t hs]
    exact neutral_refl t
  case initializing =>
    rw [deinit_eq_initializing t hs]
    have hmid : Neutral (t._changeState .deinitializing)
        ({ t._changeState .deinitializing with
           deinitDefer := some t.nextId
           deinitResolved := false
           nextId := t.nextId + 1 } : DepsTree) :=
      neutral_same_tracked _ _ rfl rfl rfl rfl rfl rfl
    exact neutral_trans (neutral_trans (neutral_chgState t .deinitializing) hmid)
      (neutral_foldl DepsTree.deinitLoopStep neutral_deinitLoopStep _ _)
  case up =>
    rw [deinit_eq_up t hs]
    have hmid : Neutral (t._changeState .deinitializing)
        ({ t._changeState .deinitializing with
           deinitDefer := some t.nextId
           deinitResolved := false
           nextId := t.nextId + 1 } : DepsTree) :=
      neutral_same_tracked _ _ rfl rfl rfl rfl rfl rfl
    exact neutral_trans (neutral_trans (neutral_chgState t .deinitializing) hmid)
      (neutral_foldl DepsTree.deinitLoopStep neutral_deinitLoopStep _ _)

lemma neutral_error (t : DepsTree) (e : Value) (n : Option String) :
    Neutral t (t._error e n) := by
  have h1 : Neutral t ({ t with
      events := Event.errorEv e (n.getD "") :: t.events
      errors := t.errors ++ [e] } : DepsTree) :=
    ⟨rfl, fun _ => rfl, fun _ => rfl, fun _ => rfl, fun _ => rfl,
      ⟨[Event.errorEv e (n.getD "")], rfl, fun e2 he2 => by
        rw [List.mem_singleton.mp he2]
        exact nonSched_errorEv _ _⟩,
      ⟨[], rfl, fun p hp => absurd hp (List.not_mem_nil p)⟩, rfl, rfl⟩
  exact neutral_trans h1 (neutral_deinit _)

lemma neutral_cascadeStep (a : DepsTree) (b : String) :
    Neutral a (DepsTree.cascadeStep a b) := by
  unfold DepsTree.cascadeStep
  dsimp only
  have h1 := neutral_updMod a b
    (fun m => { m with dependantsToUnload := m.dependantsToUnload - 1 })
    (fun m => ⟨rfl, rfl, rfl, rfl⟩)
  split
  · exact neutral_trans h1 (neutral_deinitModule _ b)
  · exact h1

lemma neutral_deinitCompleteTail (n : String) (t1 : DepsTree) :
    Neutral t1 (deinitCompleteTail n t1) := by
  unfold deinitCompleteTail
  dsimp only
  have hmid : Neutral t1 ({ t1 with
      modulesToUnload := t1.modulesToUnload - 1 } : DepsTree) :=
    neutral_same_tracked _ _ rfl rfl rfl rfl rfl rfl
  split
  · have hmid2 : Neutral t1 ({ t1 with
        modulesToUnload := t1.modulesToUnload - 1
        deinitResolved := true } : DepsTree) :=
      neutral_same_tracked _ _ rfl rfl rfl rfl rfl rfl
    exact neutral_trans hmid2 (neutral_trans (neutral_chgState _ .down)
      (neutral_push_event _ _ nonSched_stoppedEv))
  · exact neutral_trans hmid
      (neutral_foldl DepsTree.cascadeStep neutral_cascadeStep _ _)

lemma neutral_deinitOpComplete (t : DepsTree) (n : String) (o : Outcome) :
    Neutral t (t._deinitOpComplete n o) := by
  rw [deinitOpComplete_eq_tail]
  refine neutral_trans ?_ (neutral_deinitCompleteTail n _)
  cases o with
  | ok v =>
    exact neutral_chgMod t n .down (fun hc => by cases hc) (fun hc => by cases hc)
  | fail e =>
    exact neutral_trans (neutral_chgMod t n .error
        (fun hc => by cases hc) (fun hc => by cases hc))
      (neutral_trans (neutral_updMod _ n (fun m => { m with error := some e })
          (fun m => ⟨rfl, rfl, rfl, rfl⟩))
        (neutral_error _ e (some n)))

lemma neutral_initOpComplete_fail (t : DepsTree) (n : String) (e : Value) :
    Neutral t (t._initOpComplete n (.fail e)) := by
  show Neutral t (((({ t with modulesToUnload := t.modulesToUnload - 1 } :
      DepsTree)._changeModuleState n .error).updMod n
      (fun m => { m with error := some e }))._error e (some n))
  exact neutral_trans (neutral_same_tracked t
      ({ t with modulesToUnload := t.modulesToUnload - 1 } : DepsTree)
      rfl rfl rfl rfl rfl rfl)
    (neutral_trans (neutral_chgMod _ n .error
        (fun hc => by cases hc) (fun hc => by cases hc))
      (neutral_trans (neutral_updMod _ n (fun m => { m with error := some e })
          (fun m => ⟨rfl, rfl, rfl, rfl⟩))
        (neutral_error _ e (some n))))

/-- The scheduling invariant of an init cycle, over the static key list `K`,
dependency map `D` and dependant map `P` of the constructed tree: at most one
init invocation and one `up` report per module, `up` only after invocation,
invocations only for known keys and only after all dependencies reported
`up`; the per-module and global load counters track the `up` reports; an
outstanding init continuation belongs to an invoked, not-yet-up module; the
scheduling microtask is outstanding at most once and only before any
invocation; and a resolved init promise means every key reported `up`. -/
structure InitInv (K : List String) (D P : String → List String)
    (t : DepsTree) : Prop where
  keysEq : t.keys = K
  deps : ∀ k, (t.mods k).dependencies = D k
  depts : ∀ k, (t.mods k).dependants = P k
  need : ∀ k ∈ K, (t.mods k).needed = true
  cntI : ∀ k, t.events.count (iEv k) ≤ 1
  upInit : ∀ k, uEv k ∈ t.events → iEv k ∈ t.events
  initKey : ∀ k, iEv k ∈ t.events → k ∈ K
  pos : PosOK D t.events
  ctr : t.initResolved = false → ∀ k ∈ K, (t.mods k).dependenciesToLoad =
      ((D k).length : Int) - (upCount (D k) t.events : Int)
  pendInit : ∀ k, PendingTask.initOp k ∈ t.pending →
      iEv k ∈ t.events ∧ uEv k ∉ t.events
  pendCnt : ∀ k, t.pending.count (PendingTask.initOp k) ≤ 1
  startC : t.pending.count PendingTask.startInit ≤ 1
  startPre : PendingTask.startInit ∈ t.pending →
      (∀ k, iEv k ∉ t.events) ∧ t.modulesToLoad = 0 ∧ t.initResolved = false
  load : t.initResolved = false → PendingTask.startInit ∉ t.pending →
      t.modulesToLoad = (K.length : Int) - (upCount K t.events : Int)
  resAll : t.initResolved = true → ∀ k ∈ K, uEv k ∈ t.events

/-- Neutral transformations preserve the scheduling invariant. -/
lemma initInv_neutral (K : List String) (D P : String → List String)
    {t t2 : DepsTree} (h : InitInv K D P t) (hn : Neutral t t2) :
    InitInv K D P t2 := by
  obtain ⟨ne, hev, hne⟩ := hn.ev
  obtain ⟨np, hpd, hnp⟩ := hn.pend
  have hiE : ∀ k, iEv k ∈ t2.events ↔ iEv k ∈ t.events := by
    intro k
    rw [hev]
    exact mem_append_excluded _ ne t.events (fun e he => (hne e he k).1)
  have huE : ∀ k, uEv k ∈ t2.events ↔ uEv k ∈ t.events := by
    intro k
    rw [hev]
    exact mem_append_excluded _ ne t.events (fun e he => (hne e he k).2)
  have hup : ∀ L, upCount L t2.events = upCount L t.events := by
    intro L
    rw [hev]
    exact upCount_append_excluded L ne t.events (fun e he k => (hne e he k).2)
  refine ⟨hn.keys.trans h.keysEq,
    fun k => (hn.deps k).trans (h.deps k),
    fun k => (hn.depts k).trans (h.depts k),
    fun k hk => (hn.need k).trans (h.need k hk),
    ?_, ?_, ?_, ?_, ?_, ?_, ?_, ?_, ?_, ?_, ?_⟩
  · intro k
    rw [hev, count_append_excluded _ ne _ (fun e he => (hne e he k).1)]
    exact h.cntI k
  · intro k hk
    exact (hiE k).mpr (h.upInit k ((huE k).mp hk))
  · intro k hk
    exact h.initKey k ((hiE k).mp hk)
  · rw [hev]
    exact posOK_append D ne t.events h.pos (fun e he k => (hne e he k).1)
  · intro hres k hk
    rw [hn.dtl k, hup (D k)]
    exact h.ctr (hn.res ▸ hres) k hk
  · intro k hk
    rw [hpd] at hk
    have hk2 : PendingTask.initOp k ∈ t.pending :=
      (mem_append_excluded _ np t.pending (fun p hp => (hnp p hp).1 k)).mp hk
    obtain ⟨h1, h2⟩ := h.pendInit k hk2
    exact ⟨(hiE k).mpr h1, fun hc => h2 ((huE k).mp hc)⟩
  · intro k
    rw [hpd, count_append_excluded _ np _ (fun p hp => (hnp p hp).1 k)]
    exact h.pendCnt k
  · rw [hpd, count_append_excluded _ np _ (fun p hp => (hnp p hp).2)]
    exact h.startC
  · intro hk
    rw [hpd] at hk
    have hk2 := (mem_append_excluded _ np t.pending (fun p hp => (hnp p hp).2)).mp hk
    obtain ⟨h1, h2, h3⟩ := h.startPre hk2
    exact ⟨fun k hc => h1 k ((hiE k).mp hc), hn.mtl.trans h2, hn.res.trans h3⟩
  · intro hres hstart
    rw [hn.mtl, hup K]
    refine h.load (hn.res ▸ hres) ?_
    intro hc
    exact hstart (by rw [hpd]; exact List.mem_append_right np hc)
  · intro hres k hk
    exact (huE k).mpr (h.resAll (hn.res ▸ hres) k hk)

lemma upCount_zero (L : List String) (evs : List Event)
    (h : ∀ k, uEv k ∉ evs) : upCount L evs = 0 := by
  unfold upCount
  rw [List.countP_eq_zero]
  intro a _
  simp [h a]

/-- The state of the init-scheduling microtask's loop: no `up` reports yet,
every invocation so far was of a key, and every module's load counter still
equals its full dependency count. -/
structure StartFoldInv (K : List String) (D P : String → List String)
    (a : DepsTree) : Prop where
  keysEq : a.keys = K
  deps : ∀ k, (a.mods k).dependencies = D k
  depts : ∀ k, (a.mods k).dependants = P k
  need : ∀ k ∈ K, (a.mods k).needed = true
  cntI : ∀ k, a.events.count (iEv k) ≤ 1
  noUp : ∀ k, uEv k ∉ a.events
  initKey : ∀ k, iEv k ∈ a.events → k ∈ K
  pendInit : ∀ k, PendingTask.initOp k ∈ a.pending → iEv k ∈ a.events
  pendCnt : ∀ k, a.pending.count (PendingTask.initOp k) ≤ 1
  noStart : PendingTask.startInit ∉ a.pending
  res : a.initResolved = false
  dtl : ∀ k ∈ K, (a.mods k).dependenciesToLoad = ((D k).length : Int)
  pos : PosOK D a.events

/-- Running the scheduling loop over any duplicate-free batch of keys not yet
invoked preserves the loop invariant and counts exactly the batch into
`modulesToLoad`; a module is invoked here only when it has no dependencies. -/
lemma startInit_fold (K : List String) (D P : String → List String) :
    ∀ (todo : List String), todo.Nodup → (∀ x ∈ todo, x ∈ K) →
    ∀ (a : DepsTree), StartFoldInv K D P a → (∀ x ∈ todo, iEv x ∉ a.events) →
    StartFoldInv K D P (todo.foldl DepsTree.startInitStep a) ∧
    (todo.foldl DepsTree.startInitStep a).modulesToLoad =
      a.modulesToLoad + (todo.length : Int) := by
  intro todo
  induction todo with
  | nil =>
    intro _ _ a hInv _
    exact ⟨hInv, by simp⟩
  | cons x xs ih =>
    intro hnd hsub a hInv hfresh
    rw [List.foldl_cons, List.nodup_cons] at *
    have hxK := hsub x (List.mem_cons_self x xs)
    have hfx := hfresh x (List.mem_cons_self x xs)
    have hstep1 : DepsTree.startInitStep a x =
        (if ((({ a with modulesToLoad := a.modulesToLoad + 1 } :
            DepsTree)).mods x).dependenciesToLoad = 0
         then ({ a with modulesToLoad := a.modulesToLoad + 1 } :
            DepsTree)._initModule x
         else ({ a with modulesToLoad := a.modulesToLoad + 1 } : DepsTree)) := by
      unfold DepsTree.startInitStep
      rw [if_pos (hInv.need x hxK)]
    by_cases hlen : (D x).length = 0
    · have hD0 : D x = [] := List.length_eq_zero.mp hlen
      have hgate : ((({ a with modulesToLoad := a.modulesToLoad + 1 } :
          DepsTree)).mods x).dependenciesToLoad = 0 := by
        show (a.mods x).dependenciesToLoad = 0
        rw [hInv.dtl x hxK, hlen]
        rfl
      rw [hstep1, if_pos hgate]
      have hu := updMod_field_pres
        ({ a with modulesToLoad := a.modulesToLoad + 1 } : DepsTree) x
        (fun m => { m with state := State.initializing })
        (fun m => ⟨rfl, rfl, rfl, rfl⟩)
      have hInv2 : StartFoldInv K D P
          (({ a with modulesToLoad := a.modulesToLoad + 1 } :
            DepsTree)._initModule x) := by
        refine ⟨hInv.keysEq, fun k => ((hu k).1).trans (hInv.deps k),
          fun k => ((hu k).2.1).trans (hInv.depts k),
          fun k hk => ((hu k).2.2.1).trans (hInv.need k hk),
          ?_, ?_, ?_, ?_, ?_, ?_, hInv.res,
          fun k hk => ((hu k).2.2.2).trans (hInv.dtl k hk), ?_⟩
        · intro k
          show ((iEv x :: a.events).count (iEv k)) ≤ 1
          by_cases hk : k = x
          · subst hk
            rw [List.count_cons_self]
            have h0 : a.events.count (iEv k) = 0 := List.count_eq_zero.mpr hfx
            omega
          · rw [List.count_cons_of_ne (fun hc => hk (iEv_inj k x hc))]
            exact hInv.cntI k
        · intro k hk
          rcases List.mem_cons.mp hk with hc | hc
          · exact absurd hc (uEv_ne_iEv k x)
          · exact hInv.noUp k hc
        · intro k hk
          rcases List.mem_cons.mp hk with hc | hc
          · rw [iEv_inj k x hc]
            exact hxK
          · exact hInv.initKey k hc
        · intro k hk
          rcases List.mem_cons.mp hk with hc | hc
          · have hkx : k = x := by injection hc with h1
            rw [hkx]
            exact List.mem_cons_self _ _
          · exact List.mem_cons_of_mem _ (hInv.pendInit k hc)
        · intro k
          show ((PendingTask.initOp x :: a.pending).count (PendingTask.initOp k)) ≤ 1
          by_cases hk : k = x
          · subst hk
            rw [List.count_cons_self]
            have h0 : a.pending.count (PendingTask.initOp k) = 0 :=
              List.count_eq_zero.mpr (fun hc => hfx (hInv.pendInit k hc))
            omega
          · rw [List.count_cons_of_ne
              (fun hc => hk (by injection hc with h1))]
            exact hInv.pendCnt k
        · intro hc
          rcases List.mem_cons.mp hc with h2 | h2
          · cases h2
          · exact hInv.noStart h2
        · show PosOK D (iEv x :: a.events)
          refine posOK_cons D _ _ hInv.pos ?_
          intro k hek d hd
          have hkx : k = x := (iEv_inj x k hek).symm
          rw [hkx, hD0] at hd
          cases hd
      have hfresh2 : ∀ y ∈ xs, iEv y ∉
          (({ a with modulesToLoad := a.modulesToLoad + 1 } :
            DepsTree)._initModule x).events := by
        intro y hy hc
        rcases List.mem_cons.mp hc with h2 | h2
        · exact hnd.1 ((iEv_inj y x h2) ▸ hy)
        · exact hfresh y (List.mem_cons_of_mem x hy) h2
      obtain ⟨hF, hFm⟩ := ih hnd.2 (fun y hy => hsub y (List.mem_cons_of_mem x hy))
        _ hInv2 hfresh2
      refine ⟨hF, ?_⟩
      rw [hFm]
      show a.modulesToLoad + 1 + (xs.length : Int) = a.modulesToLoad + ((xs.length + 1 : Nat) : Int)
      push_cast
      omega
    · have hgate : ¬(((({ a with modulesToLoad := a.modulesToLoad + 1 } :
          DepsTree)).mods x).dependenciesToLoad = 0) := by
        show ¬((a.mods x).dependenciesToLoad = 0)
        rw [hInv.dtl x hxK]
        intro hc
        exact hlen (Int.natCast_eq_zero.mp hc)
      rw [hstep1, if_neg hgate]
      have hInv2 : StartFoldInv K D P
          ({ a with modulesToLoad := a.modulesToLoad + 1 } : DepsTree) :=
        ⟨hInv.keysEq, hInv.deps, hInv.depts, hInv.need, hInv.cntI, hInv.noUp,
          hInv.initKey, hInv.pendInit, hInv.pendCnt, hInv.noStart, hInv.res,
          hInv.dtl, hInv.pos⟩
      have hfresh2 : ∀ y ∈ xs, iEv y ∉
          ({ a with modulesToLoad := a.modulesToLoad + 1 } : DepsTree).events :=
        fun y hy => hfresh y (List.mem_cons_of_mem x hy)
      obtain ⟨hF, hFm⟩ := ih hnd.2 (fun y hy => hsub y (List.mem_cons_of_mem x hy))
        _ hInv2 hfresh2
      refine ⟨hF, ?_⟩
      rw [hFm]
      show a.modulesToLoad + 1 + (xs.length : Int) = a.modulesToLoad + ((xs.length + 1 : Nat) : Int)
      push_cast
      omega

/-- Completing the scheduling microtask preserves the init invariant. -/
lemma initInv_runStart (K : List String) (D P : String → List String)
    (hndK : K.Nodup) {t : DepsTree} (h : InitInv K D P t)
    (hs : PendingTask.startInit ∈ t.pending) :
    InitInv K D P
      (DepsTree._startInit ({ t with
        pending := t.pending.erase PendingTask.startInit } : DepsTree)) := by
  obtain ⟨hnoI, hmtl0, hres⟩ := h.startPre hs
  have hnoU : ∀ k, uEv k ∉ t.events := fun k hc => hnoI k (h.upInit k hc)
  have hcount0 : (t.pending.erase PendingTask.startInit).count
      PendingTask.startInit = 0 := by
    have h1 := List.count_erase_self PendingTask.startInit t.pending
    have h2 := h.startC
    omega
  have hInv0 : StartFoldInv K D P
      ({ t with pending := t.pending.erase PendingTask.startInit } : DepsTree) := by
    refine ⟨h.keysEq, h.deps, h.depts, h.need, h.cntI, hnoU, h.initKey,
      ?_, ?_, ?_, hres, ?_, h.pos⟩
    · intro k hk
      exact (h.pendInit k (List.mem_of_mem_erase hk)).1
    · intro k
      exact le_trans
        ((List.erase_sublist PendingTask.startInit t.pending).count_le _)
        (h.pendCnt k)
    · exact fun hc => by
        have := List.count_eq_zero.mp hcount0
        exact this hc
    · intro k hk
      have hc := h.ctr hres k hk
      rw [upCount_zero (D k) t.events hnoU] at hc
      show (t.mods k).dependenciesToLoad = _
      rw [hc]
      omega
  have hkeys : ({ t with pending := t.pending.erase PendingTask.startInit } :
      DepsTree).keys = K := h.keysEq
  have hrun : DepsTree._startInit ({ t with
      pending := t.pending.erase PendingTask.startInit } : DepsTree) =
      K.foldl DepsTree.startInitStep ({ t with
        pending := t.pending.erase PendingTask.startInit } : DepsTree) := by
    unfold DepsTree._startInit
    rw [hkeys]
  obtain ⟨hF, hFm⟩ := startInit_fold K D P K hndK (fun x hx => hx)
    ({ t with pending := t.pending.erase PendingTask.startInit } : DepsTree)
    hInv0 (fun x _ => hnoI x)
  rw [hrun]
  have hnoUF := hF.noUp
  refine ⟨hF.keysEq, hF.deps, hF.depts, hF.need, hF.cntI,
    fun k hk => absurd hk (hnoUF k), hF.initKey, hF.pos, ?_, ?_,
    hF.pendCnt, ?_, ?_, ?_, ?_⟩
  · intro _ k hk
    rw [upCount_zero (D k) _ hnoUF]
    have := hF.dtl k hk
    rw [this]
    omega
  · intro k hk
    exact ⟨hF.pendInit k hk, hnoUF k⟩
  · rw [List.count_eq_zero.mpr hF.noStart]
    omega
  · intro hc
    exact absurd hc hF.noStart
  · intro _ _
    rw [hFm, upCount_zero K _ hnoUF]
    show t.modulesToLoad + (K.length : Int) = (K.length : Int) - ((0 : Nat) : Int)
    rw [hmtl0]
    omega
  · intro hc
    rw [hF.res] at hc
    cases hc

/-- The state of the dependants loop of `_moduleInited`: the freshly reported
`up` is already in the trace, and the load counter of every dependant not yet
visited by the loop is one ahead of its up-count equation. -/
structure ReadyFoldInv (K : List String) (D P : String → List String)
    (todo : List String) (a : DepsTree) : Prop where
  keysEq : a.keys = K
  deps : ∀ j, (a.mods j).dependencies = D j
  depts : ∀ j, (a.mods j).dependants = P j
  need : ∀ j ∈ K, (a.mods j).needed = true
  cntI : ∀ j, a.events.count (iEv j) ≤ 1
  upInit : ∀ j, uEv j ∈ a.events → iEv j ∈ a.events
  initKey : ∀ j, iEv j ∈ a.events → j ∈ K
  pos : PosOK D a.events
  fresh : ∀ j ∈ todo, iEv j ∉ a.events
  pendInit : ∀ j, PendingTask.initOp j ∈ a.pending →
      iEv j ∈ a.events ∧ uEv j ∉ a.events
  pendCnt : ∀ j, a.pending.count (PendingTask.initOp j) ≤ 1
  noStart : PendingTask.startInit ∉ a.pending
  res : a.initResolved = false
  load : a.modulesToLoad = (K.length : Int) - (upCount K a.events : Int)
  ctrSplit : ∀ j ∈ K, (a.mods j).dependenciesToLoad =
      ((D j).length : Int) - (upCount (D j) a.events : Int) +
      (if j ∈ todo then 1 else 0)

lemma updMod_dtl_fields (a : DepsTree) (j : String) :
    ∀ i, ((a.updMod j (fun m =>
        { m with dependenciesToLoad := m.dependenciesToLoad - 1 })).mods i).dependencies =
          (a.mods i).dependencies ∧
      ((a.updMod j (fun m =>
        { m with dependenciesToLoad := m.dependenciesToLoad - 1 })).mods i).dependants =
          (a.mods i).dependants ∧
      ((a.updMod j (fun m =>
        { m with dependenciesToLoad := m.dependenciesToLoad - 1 })).mods i).needed =
          (a.mods i).needed ∧
      ((a.updMod j (fun m =>
        { m with dependenciesToLoad := m.dependenciesToLoad - 1 })).mods i).dependenciesToLoad =
          (if i = j then (a.mods i).dependenciesToLoad - 1
           else (a.mods i).dependenciesToLoad) := by
  intro i
  unfold DepsTree.updMod
  dsimp only
  by_cases hi : i = j
  · rw [if_pos hi, if_pos hi]
    exact ⟨rfl, rfl, rfl, rfl⟩
  · rw [if_neg hi, if_neg hi]
    exact ⟨rfl, rfl, rfl, rfl⟩

/-- Running the dependants loop over a duplicate-free batch of not-yet-invoked
modules restores each visited module's counter equation, invoking exactly the
modules whose dependencies have all reported `up`. -/
lemma ready_fold (K : List String) (D P : String → List String) :
    ∀ (todo : List String), todo.Nodup → (∀ x ∈ todo, x ∈ K) →
    ∀ (a : DepsTree), ReadyFoldInv K D P todo a →
    ReadyFoldInv K D P [] (todo.foldl DepsTree.readyStep a) := by
  intro todo
  induction todo with
  | nil =>
    intro _ _ a h
    exact h
  | cons j todo2 ih =>
    intro hnd hsub a h
    rw [List.nodup_cons] at hnd
    rw [List.foldl_cons]
    have hjK := hsub j (List.mem_cons_self j todo2)
    have hsplitj := h.ctrSplit j hjK
    rw [if_pos (List.mem_cons_self j todo2)] at hsplitj
    have hud := updMod_dtl_fields a j
    have hstep : DepsTree.readyStep a j =
        (if ((a.updMod j (fun m =>
            { m with dependenciesToLoad := m.dependenciesToLoad - 1 })).mods j).dependenciesToLoad = 0
         then (a.updMod j (fun m =>
            { m with dependenciesToLoad := m.dependenciesToLoad - 1 }))._initModule j
         else (a.updMod j (fun m =>
            { m with dependenciesToLoad := m.dependenciesToLoad - 1 }))) := rfl
    have hd1 : ((a.updMod j (fun m =>
        { m with dependenciesToLoad := m.dependenciesToLoad - 1 })).mods j).dependenciesToLoad =
        (a.mods j).dependenciesToLoad - 1 := by
      rw [(hud j).2.2.2, if_pos rfl]
    have hfreshj := h.fresh j (List.mem_cons_self j todo2)
    have huple := upCount_le_length (D j) a.events
    by_cases hg : ((a.updMod j (fun m =>
        { m with dependenciesToLoad := m.dependenciesToLoad - 1 })).mods j).dependenciesToLoad = 0
    · -- the counter reached zero: all of j's dependencies are up; invoke j
      rw [hstep, if_pos hg]
      rw [hd1, hsplitj] at hg
      have hfull : upCount (D j) a.events = (D j).length := by omega
      have hall : ∀ d ∈ D j, uEv d ∈ a.events := upCount_full (D j) a.events hfull
      have huEj : uEv j ∉ a.events := fun hc => hfreshj (h.upInit j hc)
      have hu2 := updMod_field_pres (a.updMod j (fun m =>
          { m with dependenciesToLoad := m.dependenciesToLoad - 1 })) j
        (fun m => { m with state := State.initializing })
        (fun m => ⟨rfl, rfl, rfl, rfl⟩)
      refine ih hnd.2 (fun x hx => hsub x (List.mem_cons_of_mem j hx)) _ ?_
      refine ⟨h.keysEq, fun i => ((hu2 i).1).trans ((hud i).1.trans (h.deps i)),
        fun i => ((hu2 i).2.1).trans ((hud i).2.1.trans (h.depts i)),
        fun i hi => ((hu2 i).2.2.1).trans ((hud i).2.2.1.trans (h.need i hi)),
        ?_, ?_, ?_, ?_, ?_, ?_, ?_, ?_, h.res, ?_, ?_⟩
      · intro i
        show ((iEv j :: a.events).count (iEv i)) ≤ 1
        by_cases hij : i = j
        · subst hij
          rw [List.count_cons_self]
          have h0 : a.events.count (iEv i) = 0 := List.count_eq_zero.mpr hfreshj
          omega
        · rw [List.count_cons_of_ne (fun hc => hij (iEv_inj i j hc))]
          exact h.cntI i
      · intro m hm
        rcases List.mem_cons.mp hm with hc | hc
        · exact absurd hc (uEv_ne_iEv m j)
        · exact List.mem_cons_of_mem _ (h.upInit m hc)
      · intro m hm
        rcases List.mem_cons.mp hm with hc | hc
        · rw [iEv_inj m j hc]
          exact hjK
        · exact h.initKey m hc
      · show PosOK D (iEv j :: a.events)
        refine posOK_cons D _ _ h.pos ?_
        intro m hem d hd
        have hmj : m = j := (iEv_inj j m hem).symm
        rw [hmj] at hd
        exact hall d hd
      · intro i hi hc
        rcases List.mem_cons.mp hc with h2 | h2
        · exact hnd.1 ((iEv_inj i j h2) ▸ hi)
        · exact h.fresh i (List.mem_cons_of_mem j hi) h2
      · intro m hm
        rcases List.mem_cons.mp hm with hc | hc
        · have hmj : m = j := initOp_inj m j hc
          refine ⟨?_, ?_⟩
          · rw [hmj]
            exact List.mem_cons_self _ _
          · intro hc2
            rcases List.mem_cons.mp hc2 with h3 | h3
            · exact uEv_ne_iEv m j h3
            · rw [hmj] at h3
              exact huEj h3
        · obtain ⟨h1, h2⟩ := h.pendInit m hc
          refine ⟨List.mem_cons_of_mem _ h1, ?_⟩
          intro hc2
          rcases List.mem_cons.mp hc2 with h3 | h3
          · exact uEv_ne_iEv m j h3
          · exact h2 h3
      · intro m
        show ((PendingTask.initOp j :: a.pending).count (PendingTask.initOp m)) ≤ 1
        by_cases hmj : m = j
        · subst hmj
          rw [List.count_cons_self]
          have h0 : a.pending.count (PendingTask.initOp m) = 0 :=
            List.count_eq_zero.mpr (fun hc => hfreshj (h.pendInit m hc).1)
          omega
        · rw [List.count_cons_of_ne (fun hc => hmj (initOp_inj m j hc))]
          exact h.pendCnt m
      · intro hc
        rcases List.mem_cons.mp hc with h2 | h2
        · cases h2
        · exact h.noStart h2
      · show _ = (K.length : Int) - (upCount K (iEv j :: a.events) : Int)
        rw [upCount_cons_other K (iEv j) a.events
          (fun m hc => uEv_ne_iEv m j hc.symm)]
        exact h.load
      · intro i hi
        show (((a.updMod j (fun m =>
            { m with dependenciesToLoad := m.dependenciesToLoad - 1 })).updMod j
            (fun m => { m with state := State.initializing })).mods i).dependenciesToLoad =
          ((D i).length : Int) - (upCount (D i) (iEv j :: a.events) : Int) +
          (if i ∈ todo2 then 1 else 0)
        rw [upCount_cons_other (D i) (iEv j) a.events
          (fun m hc => uEv_ne_iEv m j hc.symm)]
        rw [(hu2 i).2.2.2, (hud i).2.2.2]
        by_cases hij : i = j
        · subst hij
          rw [if_pos rfl, hsplitj, if_neg (fun hc => hnd.1 hc)]
          omega
        · rw [if_neg hij]
          have hci := h.ctrSplit i hi
          rw [hci]
          have he1 : (if i ∈ j :: todo2 then (1 : Int) else 0) =
              (if i ∈ todo2 then (1 : Int) else 0) := by
            by_cases hit : i ∈ todo2
            · rw [if_pos hit, if_pos (List.mem_cons_of_mem j hit)]
            · rw [if_neg hit,
                if_neg (fun hc => hit ((List.mem_cons.mp hc).resolve_left hij))]
          rw [he1]
    · -- the counter stays positive: only the decrement happens
      rw [hstep, if_neg hg]
      refine ih hnd.2 (fun x hx => hsub x (List.mem_cons_of_mem j hx)) _ ?_
      refine ⟨h.keysEq, fun i => (hud i).1.trans (h.deps i),
        fun i => (hud i).2.1.trans (h.depts i),
        fun i hi => (hud i).2.2.1.trans (h.need i hi),
        h.cntI, h.upInit, h.initKey, h.pos,
        fun i hi => h.fresh i (List.mem_cons_of_mem j hi),
        h.pendInit, h.pendCnt, h.noStart, h.res, h.load, ?_⟩
      intro i hi
      show ((a.updMod j (fun m =>
          { m with dependenciesToLoad := m.dependenciesToLoad - 1 })).mods i).dependenciesToLoad =
        ((D i).length : Int) - (upCount (D i) a.events : Int) +
        (if i ∈ todo2 then 1 else 0)
      rw [(hud i).2.2.2]
      by_cases hij : i = j
      · subst hij
        rw [if_pos rfl, hsplitj, if_neg (fun hc => hnd.1 hc)]
        omega
      · rw [if_neg hij]
        have hci := h.ctrSplit i hi
        rw [hci]
        have he1 : (if i ∈ j :: todo2 then (1 : Int) else 0) =
            (if i ∈ todo2 then (1 : Int) else 0) := by
          by_cases hit : i ∈ todo2
          · rw [if_pos hit, if_pos (List.mem_cons_of_mem j hit)]
          · rw [if_neg hit,
              if_neg (fun hc => hit ((List.mem_cons.mp hc).resolve_left hij))]
        rw [he1]

/-- The unload-count loop of `_moduleInited` changes nothing but
`dependantsToUnload` fields. -/
lemma incUnload_fold_fields : ∀ (l : List String) (a : DepsTree),
    ((l.foldl DepsTree.incUnloadStep a).keys = a.keys) ∧
    (∀ i, ((l.foldl DepsTree.incUnloadStep a).mods i).dependencies =
        (a.mods i).dependencies ∧
      ((l.foldl DepsTree.incUnloadStep a).mods i).dependants = (a.mods i).dependants ∧
      ((l.foldl DepsTree.incUnloadStep a).mods i).needed = (a.mods i).needed ∧
      ((l.foldl DepsTree.incUnloadStep a).mods i).dependenciesToLoad =
        (a.mods i).dependenciesToLoad) ∧
    ((l.foldl DepsTree.incUnloadStep a).events = a.events) ∧
    ((l.foldl DepsTree.incUnloadStep a).pending = a.pending) ∧
    ((l.foldl DepsTree.incUnloadStep a).modulesToLoad = a.modulesToLoad) ∧
    ((l.foldl DepsTree.incUnloadStep a).initResolved = a.initResolved) := by
  intro l
  induction l with
  | nil =>
    intro a
    exact ⟨rfl, fun i => ⟨rfl, rfl, rfl, rfl⟩, rfl, rfl, rfl, rfl⟩
  | cons x xs ih =>
    intro a
    rw [List.foldl_cons]
    have hx := updMod_field_pres a x
      (fun m => { m with dependantsToUnload := m.dependantsToUnload + 1 })
      (fun m => ⟨rfl, rfl, rfl, rfl⟩)
    obtain ⟨k1, k2, k3, k4, k5, k6⟩ := ih (DepsTree.incUnloadStep a x)
    exact ⟨k1, fun i => ⟨(k2 i).1.trans (hx i).1, (k2 i).2.1.trans (hx i).2.1,
      (k2 i).2.2.1.trans (hx i).2.2.1, (k2 i).2.2.2.trans (hx i).2.2.2⟩,
      k3, k4, k5, k6⟩

/-- A successful init completion while the tree is initializing preserves the
scheduling invariant: the module reports `up`, the load counters are updated,
and either the whole init resolves (when every key is now up) or every
dependant whose dependencies are now all up is invoked. -/
lemma initInv_moduleInited (K : List String) (D P : String → List String)
    (hndK : K.Nodup)
    (hndD : ∀ j ∈ K, (D j).Nodup)
    (hndP : ∀ j ∈ K, (P j).Nodup)
    (hP1 : ∀ j ∈ K, ∀ i ∈ P j, i ∈ K ∧ j ∈ D i)
    (hP2 : ∀ j ∈ K, ∀ i ∈ K, j ∈ D i → i ∈ P j)
    {t : DepsTree} (h : InitInv K D P t) (k : String)
    (hstate : t.state = State.initializing)
    (hiE : iEv k ∈ t.events) (huE : uEv k ∉ t.events)
    (hnoOp : PendingTask.initOp k ∉ t.pending) :
    InitInv K D P (t._moduleInited k) := by
  have hkK := h.initKey k hiE
  have hres : t.initResolved = false := by
    cases hr : t.initResolved
    · rfl
    · exact absurd (h.resAll hr k hkK) huE
  have hstart : PendingTask.startInit ∉ t.pending :=
    fun hc => (h.startPre hc).1 k hiE
  have hT1 := updMod_field_pres t k (fun m => { m with state := State.up })
    (fun m => ⟨rfl, rfl, rfl, rfl⟩)
  obtain ⟨f1, f2, f3, f4, f5, f6⟩ := incUnload_fold_fields (t.mods k).dependencies
    (t._changeModuleState k State.up)
  have hf3 : ((t.mods k).dependencies.foldl DepsTree.incUnloadStep
      (t._changeModuleState k State.up)).events = uEv k :: t.events := f3
  have hf4 : ((t.mods k).dependencies.foldl DepsTree.incUnloadStep
      (t._changeModuleState k State.up)).pending = t.pending := f4
  have hf5 : ((t.mods k).dependencies.foldl DepsTree.incUnloadStep
      (t._changeModuleState k State.up)).modulesToLoad = t.modulesToLoad := f5
  have hf6 : ((t.mods k).dependencies.foldl DepsTree.incUnloadStep
      (t._changeModuleState k State.up)).initResolved = false := f6.trans hres
  have hfk : ((t.mods k).dependencies.foldl DepsTree.incUnloadStep
      (t._changeModuleState k State.up)).keys = K := f1.trans h.keysEq
  have hfm : ∀ i, (((t.mods k).dependencies.foldl DepsTree.incUnloadStep
        (t._changeModuleState k State.up)).mods i).dependencies = D i ∧
      (((t.mods k).dependencies.foldl DepsTree.incUnloadStep
        (t._changeModuleState k State.up)).mods i).dependants = P i ∧
      (((t.mods k).dependencies.foldl DepsTree.incUnloadStep
        (t._changeModuleState k State.up)).mods i).needed = (t.mods i).needed ∧
      (((t.mods k).dependencies.foldl DepsTree.incUnloadStep
        (t._changeModuleState k State.up)).mods i).dependenciesToLoad =
        (t.mods i).dependenciesToLoad :=
    fun i => ⟨(f2 i).1.trans ((hT1 i).1.trans (h.deps i)),
      (f2 i).2.1.trans ((hT1 i).2.1.trans (h.depts i)),
      (f2 i).2.2.1.trans (hT1 i).2.2.1,
      (f2 i).2.2.2.trans (hT1 i).2.2.2⟩
  have hupK : upCount K (uEv k :: t.events) = upCount K t.events + 1 :=
    upCount_cons_self k t.events huE K hndK hkK
  have hl := h.load hres hstart
  rw [moduleInited_eq_initializing t k hstate]
  dsimp only
  split
  case isTrue hg =>
    have hm1 : t.modulesToLoad - 1 = 0 := by
      have hx : ((t.mods k).dependencies.foldl DepsTree.incUnloadStep
          (t._changeModuleState k State.up)).modulesToLoad - 1 = 0 := hg
      rw [hf5] at hx
      exact hx
    have hupfull : upCount K (uEv k :: t.events) = K.length := by omega
    have hall : ∀ m ∈ K, uEv m ∈ uEv k :: t.events := upCount_full K _ hupfull
    have hpre : ∀ m, ∀ e ∈ [Event.startedEv, Event.stateEv State.up, uEv k],
        e ≠ iEv m := by
      intro m e he
      rcases List.mem_cons.mp he with rfl | he2
      · exact (nonSched_startedEv m).1
      · rcases List.mem_cons.mp he2 with rfl | he3
        · exact (nonSched_stateEv State.up m).1
        · rw [List.mem_singleton.mp he3]
          exact uEv_ne_iEv k m
    have hfull : (Event.startedEv :: Event.stateEv State.up ::
        ((t.mods k).dependencies.foldl DepsTree.incUnloadStep
          (t._changeModuleState k State.up)).events) =
        [Event.startedEv, Event.stateEv State.up, uEv k] ++ t.events := by
      rw [hf3]
      rfl
    have hpreU : ∀ m, m ≠ k →
        ∀ e ∈ [Event.startedEv, Event.stateEv State.up, uEv k], e ≠ uEv m := by
      intro m hmk e he
      rcases List.mem_cons.mp he with rfl | he2
      · exact (nonSched_startedEv m).2
      · rcases List.mem_cons.mp he2 with rfl | he3
        · exact (nonSched_stateEv State.up m).2
        · rw [List.mem_singleton.mp he3]
          exact fun hc => hmk (uEv_inj k m hc).symm
    refine ⟨hfk, fun i => (hfm i).1, fun i => (hfm i).2.1,
      fun i hi => (hfm i).2.2.1.trans (h.need i hi),
      ?_, ?_, ?_, ?_, ?_, ?_, ?_, ?_, ?_, ?_, ?_⟩
    · intro m
      show (Event.startedEv :: Event.stateEv State.up ::
        ((t.mods k).dependencies.foldl DepsTree.incUnloadStep
          (t._changeModuleState k State.up)).events).count (iEv m) ≤ 1
      rw [hfull, count_append_excluded (iEv m) _ _ (hpre m)]
      exact h.cntI m
    · intro m hm
      have hm2 : uEv m ∈ (Event.startedEv :: Event.stateEv State.up ::
          ((t.mods k).dependencies.foldl DepsTree.incUnloadStep
            (t._changeModuleState k State.up)).events) := hm
      rw [hfull] at hm2
      show iEv m ∈ (Event.startedEv :: Event.stateEv State.up ::
          ((t.mods k).dependencies.foldl DepsTree.incUnloadStep
            (t._changeModuleState k State.up)).events)
      rw [hfull]
      by_cases hmk : m = k
      · rw [hmk]
        exact List.mem_append_right _ hiE
      · have hm3 := (mem_append_excluded (uEv m) _ _ (hpreU m hmk)).mp hm2
        exact List.mem_append_right _ (h.upInit m hm3)
    · intro m hm
      have hm2 : iEv m ∈ (Event.startedEv :: Event.stateEv State.up ::
          ((t.mods k).dependencies.foldl DepsTree.incUnloadStep
            (t._changeModuleState k State.up)).events) := hm
      rw [hfull] at hm2
      exact h.initKey m ((mem_append_excluded (iEv m) _ _ (hpre m)).mp hm2)
    · show PosOK D (Event.startedEv :: Event.stateEv State.up ::
          ((t.mods k).dependencies.foldl DepsTree.incUnloadStep
            (t._changeModuleState k State.up)).events)
      rw [hfull]
      exact posOK_append D _ _ h.pos (fun e he m => hpre m e he)
    · intro hres2
      exact absurd (show (true : Bool) = false from hres2) (by decide)
    · intro m hm
      exfalso
      have hm2 : PendingTask.initOp m ∈ ((t.mods k).dependencies.foldl
          DepsTree.incUnloadStep (t._changeModuleState k State.up)).pending := hm
      rw [hf4] at hm2
      obtain ⟨hie, hue⟩ := h.pendInit m hm2
      have hmK := h.initKey m hie
      rcases List.mem_cons.mp (hall m hmK) with hc | hc
      · exact hnoOp ((uEv_inj m k hc) ▸ hm2)
      · exact hue hc
    · intro m
      show (((t.mods k).dependencies.foldl DepsTree.incUnloadStep
          (t._changeModuleState k State.up)).pending).count (PendingTask.initOp m) ≤ 1
      rw [hf4]
      exact h.pendCnt m
    · show (((t.mods k).dependencies.foldl DepsTree.incUnloadStep
          (t._changeModuleState k State.up)).pending).count PendingTask.startInit ≤ 1
      rw [hf4]
      exact h.startC
    · intro hc
      have hc2 : PendingTask.startInit ∈ ((t.mods k).dependencies.foldl
          DepsTree.incUnloadStep (t._changeModuleState k State.up)).pending := hc
      rw [hf4] at hc2
      exact absurd hc2 hstart
    · intro hres2
      exact absurd (show (true : Bool) = false from hres2) (by decide)
    · intro _ m hm
      show uEv m ∈ (Event.startedEv :: Event.stateEv State.up ::
          ((t.mods k).dependencies.foldl DepsTree.incUnloadStep
            (t._changeModuleState k State.up)).events)
      rw [hfull]
      rcases List.mem_cons.mp (hall m hm) with hc | hc
      · refine List.mem_append_left _ ?_
        rw [hc]
        exact List.mem_cons_of_mem _ (List.mem_cons_of_mem _ (List.mem_cons_self _ _))
      · exact List.mem_append_right _ hc
  case isFalse hg =>
    rw [h.depts k]
    show InitInv K D P ((P k).foldl DepsTree.readyStep
      ({ (t.mods k).dependencies.foldl DepsTree.incUnloadStep
          (t._changeModuleState k State.up) with
        modulesToLoad := ((t.mods k).dependencies.foldl DepsTree.incUnloadStep
          (t._changeModuleState k State.up)).modulesToLoad - 1 } : DepsTree))
    have hEntry : ReadyFoldInv K D P (P k)
        ({ (t.mods k).dependencies.foldl DepsTree.incUnloadStep
            (t._changeModuleState k State.up) with
          modulesToLoad := ((t.mods k).dependencies.foldl DepsTree.incUnloadStep
            (t._changeModuleState k State.up)).modulesToLoad - 1 } : DepsTree) := by
      refine ⟨hfk, fun i => (hfm i).1, fun i => (hfm i).2.1,
        fun i hi => (hfm i).2.2.1.trans (h.need i hi),
        ?_, ?_, ?_, ?_, ?_, ?_, ?_, ?_, ?_, ?_, ?_⟩
      · intro m
        show (((t.mods k).dependencies.foldl DepsTree.incUnloadStep
            (t._changeModuleState k State.up)).events).count (iEv m) ≤ 1
        rw [hf3, List.count_cons_of_ne (Ne.symm (uEv_ne_iEv k m))]
        exact h.cntI m
      · intro m hm
        have hm2 : uEv m ∈ ((t.mods k).dependencies.foldl DepsTree.incUnloadStep
            (t._changeModuleState k State.up)).events := hm
        rw [hf3] at hm2
        show iEv m ∈ ((t.mods k).dependencies.foldl DepsTree.incUnloadStep
            (t._changeModuleState k State.up)).events
        rw [hf3]
        rcases List.mem_cons.mp hm2 with hc | hc
        · rw [uEv_inj m k hc]
          exact List.mem_cons_of_mem _ hiE
        · exact List.mem_cons_of_mem _ (h.upInit m hc)
      · intro m hm
        have hm2 : iEv m ∈ ((t.mods k).dependencies.foldl DepsTree.incUnloadStep
            (t._changeModuleState k State.up)).events := hm
        rw [hf3] at hm2
        rcases List.mem_cons.mp hm2 with hc | hc
        · exact absurd hc.symm (uEv_ne_iEv k m)
        · exact h.initKey m hc
      · show PosOK D (((t.mods k).dependencies.foldl DepsTree.incUnloadStep
            (t._changeModuleState k State.up)).events)
        rw [hf3]
        refine posOK_cons D _ _ h.pos ?_
        intro m hc
        exact absurd hc (uEv_ne_iEv k m)
      · intro j hj hc
        have hc2 : iEv j ∈ ((t.mods k).dependencies.foldl DepsTree.incUnloadStep
            (t._changeModuleState k State.up)).events := hc
        rw [hf3] at hc2
        have hkDj : k ∈ D j := (hP1 k hkK j hj).2
        rcases List.mem_cons.mp hc2 with hc3 | hc3
        · exact uEv_ne_iEv k j hc3.symm
        · obtain ⟨l1, l2, hsplit⟩ := List.append_of_mem hc3
          have hin := h.pos j l1 l2 hsplit k hkDj
          have hXX : uEv k ∈ t.events := by
            rw [hsplit]
            exact List.mem_append_right l1 (List.mem_cons_of_mem _ hin)
          exact huE hXX
      · intro m hm
        have hm2 : PendingTask.initOp m ∈ ((t.mods k).dependencies.foldl
            DepsTree.incUnloadStep (t._changeModuleState k State.up)).pending := hm
        rw [hf4] at hm2
        obtain ⟨h1, h2⟩ := h.pendInit m hm2
        constructor
        · show iEv m ∈ ((t.mods k).dependencies.foldl DepsTree.incUnloadStep
            (t._changeModuleState k State.up)).events
          rw [hf3]
          exact List.mem_cons_of_mem _ h1
        · intro hc
          have hc2 : uEv m ∈ ((t.mods k).dependencies.foldl DepsTree.incUnloadStep
              (t._changeModuleState k State.up)).events := hc
          rw [hf3] at hc2
          rcases List.mem_cons.mp hc2 with hc3 | hc3
          · exact hnoOp ((uEv_inj m k hc3) ▸ hm2)
          · exact h2 hc3
      · intro m
        show (((t.mods k).dependencies.foldl DepsTree.incUnloadStep
            (t._changeModuleState k State.up)).pending).count (PendingTask.initOp m) ≤ 1
        rw [hf4]
        exact h.pendCnt m
      · intro hc
        have hc2 : PendingTask.startInit ∈ ((t.mods k).dependencies.foldl
            DepsTree.incUnloadStep (t._changeModuleState k State.up)).pending := hc
        rw [hf4] at hc2
        exact hstart hc2
      · show ((t.mods k).dependencies.foldl DepsTree.incUnloadStep
            (t._changeModuleState k State.up)).initResolved = false
        exact hf6
      · show ((t.mods k).dependencies.foldl DepsTree.incUnloadStep
            (t._changeModuleState k State.up)).modulesToLoad - 1 =
          (K.length : Int) - (upCount K (((t.mods k).dependencies.foldl
            DepsTree.incUnloadStep (t._changeModuleState k State.up)).events) : Int)
        rw [hf5, hf3, hupK, hl]
        push_cast
        omega
      · intro j hj
        show ((((t.mods k).dependencies.foldl DepsTree.incUnloadStep
            (t._changeModuleState k State.up)).mods j).dependenciesToLoad) =
          ((D j).length : Int) - (upCount (D j) (((t.mods k).dependencies.foldl
            DepsTree.incUnloadStep (t._changeModuleState k State.up)).events) : Int) +
          (if j ∈ P k then 1 else 0)
        rw [hf3, (hfm j).2.2.2, h.ctr hres j hj]
        by_cases hjP : j ∈ P k
        · have hkD : k ∈ D j := (hP1 k hkK j hjP).2
          rw [if_pos hjP, upCount_cons_self k t.events huE (D j) (hndD j hj) hkD]
          push_cast
          omega
        · have hkD : k ∉ D j := fun hc => hjP (hP2 k hkK j hj hc)
          rw [if_neg hjP, upCount_cons_not_mem (D j) k t.events hkD]
          omega
    have hsubP : ∀ x ∈ P k, x ∈ K := fun x hx => (hP1 k hkK x hx).1
    have RInv := ready_fold K D P (P k) (hndP k hkK) hsubP _ hEntry
    refine ⟨RInv.keysEq, RInv.deps, RInv.depts, RInv.need, RInv.cntI, RInv.upInit,
      RInv.initKey, RInv.pos, ?_, RInv.pendInit, RInv.pendCnt, ?_, ?_, ?_, ?_⟩
    · intro _ j hj
      have hcs := RInv.ctrSplit j hj
      rw [if_neg (List.not_mem_nil j)] at hcs
      rw [hcs]
      omega
    · have h0 := List.count_eq_zero.mpr RInv.noStart
      omega
    · intro hc
      exact absurd hc RInv.noStart
    · intro _ _
      exact RInv.load
    · intro hc
      rw [RInv.res] at hc
      cases hc

/-- Erasing any non-microtask pending entry preserves the invariant. -/
lemma initInv_erase (K : List String) (D P : String → List String)
    {t : DepsTree} (h : InitInv K D P t)
    (task : PendingTask) (htask : task ≠ PendingTask.startInit) :
    InitInv K D P ({ t with pending := t.pending.erase task } : DepsTree) := by
  have hsub : ∀ p : PendingTask, p ∈ t.pending.erase task → p ∈ t.pending :=
    fun p hp => List.mem_of_mem_erase hp
  have hcnt : ∀ p : PendingTask, (t.pending.erase task).count p ≤ t.pending.count p :=
    fun p => (List.erase_sublist task t.pending).count_le p
  refine ⟨h.keysEq, h.deps, h.depts, h.need, h.cntI, h.upInit, h.initKey, h.pos, h.ctr,
    fun k hk => h.pendInit k (hsub _ hk),
    fun k => le_trans (hcnt _) (h.pendCnt k),
    le_trans (hcnt _) h.startC,
    fun hk => h.startPre (hsub _ hk),
    ?_, h.resAll⟩
  intro hres hkn
  refine h.load hres ?_
  intro hc
  exact hkn ((List.mem_erase_of_ne (Ne.symm htask)).mpr hc)

/-- One environment step preserves the scheduling invariant (for a tree that
is past `off`, which stays past `off`). -/
lemma initInv_step (K : List String) (D P : String → List String)
    (hndK : K.Nodup)
    (hndD : ∀ j ∈ K, (D j).Nodup)
    (hndP : ∀ j ∈ K, (P j).Nodup)
    (hP1 : ∀ j ∈ K, ∀ i ∈ P j, i ∈ K ∧ j ∈ D i)
    (hP2 : ∀ j ∈ K, ∀ i ∈ K, j ∈ D i → i ∈ P j)
    {t : DepsTree} (h : InitInv K D P t) (hoff : t.state ≠ State.off)
    (d : Decision) :
    InitInv K D P (step t d) := by
  cases d with
  | callInit =>
    show InitInv K D P (t.init).1
    cases hs : t.state
    case off => exact absurd hs hoff
    case initializing =>
      rw [init_eq_initializing t hs]
      exact h
    case up =>
      rw [init_eq_up t hs]
      exact h
    case deinitializing =>
      rw [init_eq_deinitializing t hs]
      exact h
    case down =>
      rw [init_eq_down t hs]
      exact h
    case error =>
      rw [init_eq_error t hs]
      exact h
  | callDeinit =>
    exact initInv_neutral K D P h (neutral_deinit t)
  | complete task o =>
    show InitInv K D P (if task ∈ t.pending
      then DepsTree.runTask { t with pending := t.pending.erase task } task o
      else t)
    by_cases hmem : task ∈ t.pending
    · rw [if_pos hmem]
      cases task with
      | startInit =>
        exact initInv_runStart K D P hndK h hmem
      | initOp k =>
        obtain ⟨hiE, huE⟩ := h.pendInit k hmem
        have hE := initInv_erase K D P h (PendingTask.initOp k) (fun hc => by cases hc)
        have hnoOp : PendingTask.initOp k ∉ t.pending.erase (PendingTask.initOp k) := by
          have h1 := List.count_erase_self (PendingTask.initOp k) t.pending
          have h2 := h.pendCnt k
          intro hc
          exact absurd hc (List.count_eq_zero.mp (by omega))
        cases o with
        | ok v =>
          have hE2 : InitInv K D P
              (({ t with pending := t.pending.erase (PendingTask.initOp k) } :
                DepsTree).updMod k (fun m =>
                  { m with data := if m.data.truthy then m.data else v })) :=
            initInv_neutral K D P hE (neutral_updMod _ k _
              (fun m => ⟨rfl, rfl, rfl, rfl⟩))
          show InitInv K D P ((({ t with
              pending := t.pending.erase (PendingTask.initOp k) } :
              DepsTree).updMod k (fun m =>
                { m with data := if m.data.truthy then m.data else v }))._moduleInited k)
          cases hs : t.state
          · rw [← hs]
            rw [moduleInited_eq_default (({ t with pending := t.pending.erase (PendingTask.initOp k) } :
                DepsTree).updMod k (fun m =>
                  { m with data := if m.data.truthy then m.data else v })) k
              (fun hc => by have h2 : t.state = State.initializing := hc; rw [hs] at h2; cases h2)
              (fun hc => by have h2 : t.state = State.deinitializing := hc; rw [hs] at h2; cases h2)]
            exact hE2
          · rw [← hs]
            exact initInv_moduleInited K D P hndK hndD hndP hP1 hP2 hE2 k hs hiE huE hnoOp
          · rw [← hs]
            rw [moduleInited_eq_default (({ t with pending := t.pending.erase (PendingTask.initOp k) } :
                DepsTree).updMod k (fun m =>
                  { m with data := if m.data.truthy then m.data else v })) k
              (fun hc => by have h2 : t.state = State.initializing := hc; rw [hs] at h2; cases h2)
              (fun hc => by have h2 : t.state = State.deinitializing := hc; rw [hs] at h2; cases h2)]
            exact hE2
          · rw [← hs]
            rw [moduleInited_eq_deinitializing (({ t with pending := t.pending.erase (PendingTask.initOp k) } :
                DepsTree).updMod k (fun m =>
                  { m with data := if m.data.truthy then m.data else v })) k hs]
            exact initInv_neutral K D P hE2 (neutral_deinitModule _ k)
          · rw [← hs]
            rw [moduleInited_eq_default (({ t with pending := t.pending.erase (PendingTask.initOp k) } :
                DepsTree).updMod k (fun m =>
                  { m with data := if m.data.truthy then m.data else v })) k
              (fun hc => by have h2 : t.state = State.initializing := hc; rw [hs] at h2; cases h2)
              (fun hc => by have h2 : t.state = State.deinitializing := hc; rw [hs] at h2; cases h2)]
            exact hE2
          · rw [← hs]
            rw [moduleInited_eq_default (({ t with pending := t.pending.erase (PendingTask.initOp k) } :
                DepsTree).updMod k (fun m =>
                  { m with data := if m.data.truthy then m.data else v })) k
              (fun hc => by have h2 : t.state = State.initializing := hc; rw [hs] at h2; cases h2)
              (fun hc => by have h2 : t.state = State.deinitializing := hc; rw [hs] at h2; cases h2)]
            exact hE2
        | fail e =>
          exact initInv_neutral K D P hE (neutral_initOpComplete_fail _ k e)
      | deinitOp k =>
        have hE := initInv_erase K D P h (PendingTask.deinitOp k) (fun hc => by cases hc)
        exact initInv_neutral K D P hE (neutral_deinitOpComplete _ k o)
    · rw [if_neg hmem]
      exact h

/-- The scheduling invariant holds along any run. -/
lemma initInv_run (K : List String) (D P : String → List String)
    (hndK : K.Nodup)
    (hndD : ∀ j ∈ K, (D j).Nodup)
    (hndP : ∀ j ∈ K, (P j).Nodup)
    (hP1 : ∀ j ∈ K, ∀ i ∈ P j, i ∈ K ∧ j ∈ D i)
    (hP2 : ∀ j ∈ K, ∀ i ∈ K, j ∈ D i → i ∈ P j) :
    ∀ (ds : List Decision) (t : DepsTree), InitInv K D P t →
      t.state ≠ State.off → InitInv K D P (run t ds) := by
  intro ds
  induction ds with
  | nil =>
    intro t h _
    exact h
  | cons d ds2 ih =>
    intro t h hoff
    show InitInv K D P (run (step t d) ds2)
    exact ih (step t d) (initInv_step K D P hndK hndD hndP hP1 hP2 h hoff d)
      (step_state_ne_off t d hoff)

/-- The invariant holds right after `init()` is called on a fresh tree. -/
lemma initInv_start (descs : List (String × ModuleDescription))
    (t0 t1 : DepsTree) (r : DepsTree.InitResult)
    (h0 : DepsTree.new descs = .ok t0) (h1 : t0.init = (t1, r))
    (hneed : ∀ k ∈ t0.keys, (t0.mods k).needed = true) :
    InitInv t0.keys (fun k => (t0.mods k).dependencies)
      (fun k => (t0.mods k).dependants) t1 ∧ t1.state ≠ State.off := by
  have hoff := new_state_off descs t0 h0
  rw [init_eq_off t0 hoff] at h1
  have ht1 : t1 = ({ t0._changeState .initializing with
      initDefer := some t0.nextId, initResolved := false,
      nextId := t0.nextId + 1, modulesToLoad := 0,
      pending := .startInit :: (t0._changeState .initializing).pending } : DepsTree) :=
    (congrArg Prod.fst h1).symm
  subst ht1
  obtain ⟨m1, hadd, ht0⟩ := new_eq descs t0 h0
  have hev0 : t0.events = [] := by rw [ht0]
  have hpd0 : t0.pending = [] := by rw [ht0]
  have hdtlk : ∀ k, (t0.mods k).dependenciesToLoad =
      (((t0.mods k).dependencies).length : Int) := by
    intro k
    obtain ⟨-, -, -, hdep, -, hlen⟩ := new_mods_fields descs t0 h0 k
    rw [hlen, hdep]
  have hE : ({ t0._changeState .initializing with
      initDefer := some t0.nextId, initResolved := false,
      nextId := t0.nextId + 1, modulesToLoad := 0,
      pending := .startInit :: (t0._changeState .initializing).pending } :
      DepsTree).events = [Event.stateEv State.initializing] := by
    show Event.stateEv State.initializing :: t0.events = _
    rw [hev0]
  have hP : ({ t0._changeState .initializing with
      initDefer := some t0.nextId, initResolved := false,
      nextId := t0.nextId + 1, modulesToLoad := 0,
      pending := .startInit :: (t0._changeState .initializing).pending } :
      DepsTree).pending = [PendingTask.startInit] := by
    show PendingTask.startInit :: t0.pending = _
    rw [hpd0]
  constructor
  · refine ⟨rfl, fun _ => rfl, fun _ => rfl, fun k hk => hneed k hk,
      ?_, ?_, ?_, ?_, ?_, ?_, ?_, ?_, ?_, ?_, ?_⟩
    · intro k
      rw [hE, List.count_cons_of_ne (fun hc => by cases hc), List.count_nil]
      omega
    · intro k hk
      exact absurd (List.mem_singleton.mp (hE ▸ hk)) (fun hc => by cases hc)
    · intro k hk
      exact absurd (List.mem_singleton.mp (hE ▸ hk)) (fun hc => by cases hc)
    · show PosOK _ _
      rw [hE]
      exact posOK_cons _ _ [] (posOK_nil _) (fun m hc => by cases hc)
    · intro _ k hk
      show (t0.mods k).dependenciesToLoad = _
      rw [hdtlk k, hE, upCount_zero _ _ (fun m hc =>
        absurd (List.mem_singleton.mp hc) (fun hcc => by cases hcc))]
      omega
    · intro k hk
      exact absurd (List.mem_singleton.mp (hP ▸ hk)) (fun hc => by cases hc)
    · intro k
      rw [hP, List.count_cons_of_ne (fun hc => by cases hc), List.count_nil]
      omega
    · rw [hP, List.count_cons_self, List.count_nil]
    · intro _
      refine ⟨?_, rfl, rfl⟩
      intro k hc
      exact absurd (List.mem_singleton.mp (hE ▸ hc)) (fun hcc => by cases hcc)
    · intro _ hkn
      have hmem : PendingTask.startInit ∈ ({ t0._changeState .initializing with
          initDefer := some t0.nextId, initResolved := false,
          nextId := t0.nextId + 1, modulesToLoad := 0,
          pending := .startInit :: (t0._changeState .initializing).pending } :
          DepsTree).pending := by
        rw [hP]
        exact List.mem_cons_self _ _
      exact absurd hmem hkn
    · intro hc
      exact absurd (show (false : Bool) = true from hc) (by decide)
  · intro hc
    exact absurd (show State.initializing = State.off from hc) (by decide)

/-- C1: over any constructed tree with distinct module names, duplicate-free
dependency and dependant lists, dependants exactly inverse to dependencies,
and every module needed, after `init()` is called every run satisfies: each
module's init operation is invoked at most once; if the init promise has
resolved, every module's init operation was invoked exactly once; and every
init invocation happened only after all of the module's declared dependencies
had reported state `up` (their init operations had completed successfully). -/
theorem init_dependency_order (descs : List (String × ModuleDescription))
    (t0 t1 : DepsTree) (r : DepsTree.InitResult)
    (h0 : DepsTree.new descs = .ok t0)
    (h1 : t0.init = (t1, r))
    (hndK : t0.keys.Nodup)
    (hndD : ∀ k ∈ t0.keys, (t0.mods k).dependencies.Nodup)
    (hndP : ∀ k ∈ t0.keys, (t0.mods k).dependants.Nodup)
    (hP1 : ∀ k ∈ t0.keys, ∀ j ∈ (t0.mods k).dependants,
      j ∈ t0.keys ∧ k ∈ (t0.mods j).dependencies)
    (hP2 : ∀ k ∈ t0.keys, ∀ j ∈ t0.keys, k ∈ (t0.mods j).dependencies →
      j ∈ (t0.mods k).dependants)
    (hneed : ∀ k ∈ t0.keys, (t0.mods k).needed = true)
    (ds : List Decision) :
    (∀ k, (run t1 ds).events.count (iEv k) ≤ 1) ∧
    ((run t1 ds).initResolved = true →
      ∀ k ∈ t0.keys, (run t1 ds).events.count (iEv k) = 1) ∧
    (∀ k l1 l2, (run t1 ds).events = l1 ++ iEv k :: l2 →
      ∀ d ∈ (t0.mods k).dependencies, uEv d ∈ l2) := by
  obtain ⟨hbase, hoff1⟩ := initInv_start descs t0 t1 r h0 h1 hneed
  have F := initInv_run t0.keys (fun k => (t0.mods k).dependencies)
    (fun k => (t0.mods k).dependants) hndK hndD hndP hP1 hP2 ds t1 hbase hoff1
  refine ⟨F.cntI, ?_, F.pos⟩
  intro hres k hk
  have hup := F.resAll hres k hk
  have hie := F.upInit k hup
  have h1c := F.cntI k
  have h2c : (run t1 ds).events.count (iEv k) ≠ 0 :=
    fun hz => (List.count_eq_zero.mp hz) hie
  omega

/-- C1 witness: the two-module chain `a ← b` run to completion — the init
promise resolves and each module was invoked exactly once, in dependency
order. -/
theorem init_dependency_order_witness :
    ((run ((exTreeC.init).1) [Decision.complete .startInit (.ok .undefined),
        Decision.complete (.initOp "a") (.ok (.vnum 1)),
        Decision.complete (.initOp "b") (.ok (.vnum 2))]).initResolved = true) ∧
    (∀ k ∈ exTreeC.keys,
      (run ((exTreeC.init).1) [Decision.complete .startInit (.ok .undefined),
        Decision.complete (.initOp "a") (.ok (.vnum 1)),
        Decision.complete (.initOp "b") (.ok (.vnum 2))]).events.count (iEv k) = 1) := by
  refine ⟨by decide, ?_⟩
  have h := init_dependency_order exDescsC exTreeC ((exTreeC.init).1)
    ((exTreeC.init).2) exTreeC_new rfl (by decide) (by decide) (by decide)
    (by decide) (by decide) (by decide)
    [Decision.complete .startInit (.ok .undefined),
     Decision.complete (.initOp "a") (.ok (.vnum 1)),
     Decision.complete (.initOp "b") (.ok (.vnum 2))]
  exact h.2.1 (by decide)
